import Mathlib

/-!
The query lexer and the clause-anchored parser of gostream.

A shallow embedding of `pkg/parser/parser.go` together with the pieces of the
packages `lexer`, `expr` and `statement` that the parser drives.

* Go `for` loops without a bound are recursions on a fuel argument; a loop
  that has not left after `fuel` iterations yields `none`, so that a result
  `some r` always stands for a run of the Go code that returned `r`.
* `error` values are kept as the `fmt.Errorf` format and its arguments.
* `int` and `time.Duration` are 64-bit signed integers: `Int` with explicit
  wrap-around.
-/

namespace Gostream

/-! ## Package `lexer` -/

namespace lexer

/-- Modelled from the spec: the token enumeration of package `lexer` (only
`lexer_test.go` is part of the sources). The names are those the parser and
the lexer tests use. -/
inductive Token
  | EOF | WHITESPACE | IDENTIFIER
  | SELECT | FROM | WHERE | AND | OR
  | COUNT | SUM | AVG | MIN | MAX | MED
  | TIME | LENGTH | SEC
  | LPAREN | RPAREN | COMMA | DOT
  | LARGER | LESS | ASTERISK
  deriving DecidableEq, Repr

open Token

/-- Modelled from the spec: the keyword table of the lexer, consulted with the
lower-cased letter run. -/
def keywords : List (String × Token) :=
  [("select", SELECT), ("from", FROM), ("where", WHERE), ("and", AND), ("or", OR),
   ("count", COUNT), ("sum", SUM), ("avg", AVG), ("min", MIN), ("max", MAX),
   ("med", MED), ("time", TIME), ("length", LENGTH), ("sec", SEC)]

/-- Modelled from the spec: a run of letters is checked case-insensitively
against the keyword table and is the keyword token if found, else
`IDENTIFIER`. -/
def lookup (run : List Char) : Token :=
  match keywords.lookup (String.mk (run.map Char.toLower)) with
  | some t => t
  | none => IDENTIFIER

/-- Modelled from the spec: the single characters that are tokens of their
own (punctuation, comparators, the wildcard). -/
def punct (c : Char) : Option Token :=
  if c = '.' then some DOT
  else if c = '(' then some LPAREN
  else if c = ')' then some RPAREN
  else if c = ',' then some COMMA
  else if c = '>' then some LARGER
  else if c = '<' then some LESS
  else if c = '*' then some ASTERISK
  else none

/-- Modelled from the spec: the lexer is a cursor into the query text that
never rewinds; `input` is the text still ahead of the cursor. -/
structure Lexer where
  input : List Char
  deriving DecidableEq, Repr

/-- Modelled from the spec: `lexer.New(strings.NewReader(query))`, a lexer
positioned at the start of the query text. -/
def New (query : String) : Lexer := ⟨query.data⟩

/-- Modelled from the spec: the literal returned with the end sentinel (the
spec leaves it open; the empty text is used). -/
def eofLiteral : String := ""

/-- Modelled from the spec: `Lexer.Tokenize`, the base scan `next()`.
Whitespace runs, letter runs and digit runs are single tokens; a letter run
is a keyword or `IDENTIFIER`; a digit run is `IDENTIFIER`; punctuation,
comparators and the wildcard are themselves; any other character is an
`IDENTIFIER` holding that character; at the end of the input the end sentinel
is returned and the cursor stays. -/
def Tokenize (l : Lexer) : Token × String × Lexer :=
  match l.input with
  | [] => (EOF, eofLiteral, l)
  | c :: cs =>
    if c.isWhitespace then
      (WHITESPACE, String.mk (c :: cs.takeWhile Char.isWhitespace),
        ⟨cs.dropWhile Char.isWhitespace⟩)
    else if c.isAlpha then
      (lookup (c :: cs.takeWhile Char.isAlpha), String.mk (c :: cs.takeWhile Char.isAlpha),
        ⟨cs.dropWhile Char.isAlpha⟩)
    else if c.isDigit then
      (IDENTIFIER, String.mk (c :: cs.takeWhile Char.isDigit), ⟨cs.dropWhile Char.isDigit⟩)
    else
      match punct c with
      | some t => (t, String.mk [c], ⟨cs⟩)
      | none => (IDENTIFIER, String.mk [c], ⟨cs⟩)

/-- Modelled from the spec: the loop of `TokenizeIgnoreWhiteSpace`, scanning
until a token that is not `WHITESPACE`, at most `n` times. -/
def ignoreWhiteSpaceLoop : Nat → Lexer → Token × String × Lexer
  | 0, l => (EOF, eofLiteral, l)
  | n + 1, l =>
    match Tokenize l with
    | (WHITESPACE, _, l') => ignoreWhiteSpaceLoop n l'
    | r => r

/-- Modelled from the spec: `Lexer.TokenizeIgnoreWhiteSpace`
(`nextIgnoringWhitespace()`): repeatedly calls the base scan, discarding
whitespace tokens, and returns the first token that is not whitespace. Every
discarded token takes at least one character, so `input.length + 1` scans
always suffice. -/
def TokenizeIgnoreWhiteSpace (l : Lexer) : Token × String × Lexer :=
  ignoreWhiteSpaceLoop (l.input.length + 1) l

/-- Modelled from the spec: the loop of `TokenizeIdentifier`, scanning until
`IDENTIFIER` or the end sentinel, at most `n` times. -/
def identifierLoop : Nat → Lexer → Token × String × Lexer
  | 0, l => (EOF, eofLiteral, l)
  | n + 1, l =>
    match Tokenize l with
    | (IDENTIFIER, lit, l') => (IDENTIFIER, lit, l')
    | (EOF, lit, l') => (EOF, lit, l')
    | (_, _, l') => identifierLoop n l'

/-- Modelled from the spec: `Lexer.TokenizeIdentifier` (`nextIdentifier()`):
repeatedly scans, discarding every token that is not `IDENTIFIER`, and
returns the first identifier; the absence of one is signalled by the end
sentinel. -/
def TokenizeIdentifier (l : Lexer) : Token × String × Lexer :=
  identifierLoop (l.input.length + 1) l

/-- Modelled from the spec: the loop of `TokenizeIgnoreIdentifier`, scanning
until a token that is neither `WHITESPACE` nor `IDENTIFIER`, at most `n`
times. -/
def ignoreIdentifierLoop : Nat → Lexer → Token × String × Lexer
  | 0, l => (EOF, eofLiteral, l)
  | n + 1, l =>
    match Tokenize l with
    | (WHITESPACE, _, l') => ignoreIdentifierLoop n l'
    | (IDENTIFIER, _, l') => ignoreIdentifierLoop n l'
    | r => r

/-- Modelled from the spec: `Lexer.TokenizeIgnoreIdentifier`
(`nextNonIdentifier()`): repeatedly scans, discarding whitespace and
identifier tokens, and returns the first token that is neither (the end
sentinel when the input runs out). -/
def TokenizeIgnoreIdentifier (l : Lexer) : Token × String × Lexer :=
  ignoreIdentifierLoop (l.input.length + 1) l

/-- The tokens of repeated `Tokenize` calls up to the end sentinel, at most
`n` of them. -/
def tokensLoop : Nat → Lexer → List (Token × String)
  | 0, _ => []
  | n + 1, l =>
    match Tokenize l with
    | (EOF, _, _) => []
    | (t, lit, l') => (t, lit) :: tokensLoop n l'

/-- The token stream of a lexer: what repeated `Tokenize` calls return before
the end sentinel. Every token takes at least one character. -/
def tokens (l : Lexer) : List (Token × String) :=
  tokensLoop l.input.length l

end lexer

/-! ## Package `expr` -/

namespace expr

/-- Modelled from the spec: the projection expressions of package `expr` that
the parser constructs (`expr.SelectAll{}`, `expr.Count{As: ...}`,
`expr.MaxInt{Name: ..., As: ...}`, ...). -/
inductive Function
  | SelectAll
  | Count (As : String)
  | MaxInt (Name As : String)
  | MaxFloat (Name As : String)
  | MinInt (Name As : String)
  | MinFloat (Name As : String)
  | MedianInt (Name As : String)
  | MedianFloat (Name As : String)
  | SumInt (Name As : String)
  | SumFloat (Name As : String)
  | AverageInt (Name As : String)
  | AverageFloat (Name As : String)
  deriving DecidableEq, Repr

/-- Modelled from the spec: the predicate expressions of package `expr` that
the parser constructs; `φ` is the type of `float64` values. -/
inductive Where (φ : Type)
  | LargerThanInt (Name : String) (Value : Int)
  | LessThanInt (Name : String) (Value : Int)
  | LargerThanFloat (Name : String) (Value : φ)
  | LessThanFloat (Name : String) (Value : φ)
  deriving DecidableEq, Repr

end expr

/-! ## Package `statement` -/

namespace statement

/-- Modelled from the spec: the statement object the parser populates. A field
that no mutator has set yet is `none` (the Go zero value); `δ` is the type of
event type descriptors, `φ` the type of `float64` values. -/
structure Statement (δ φ : Type) where
  EventType : Option δ
  Window : Option lexer.Token
  Length : Option Int
  Time : Option Int
  Function : List expr.Function
  Where : List (expr.Where φ)
  deriving DecidableEq, Repr

variable {δ φ : Type}

/-- Modelled from the spec: `statement.New()`, a statement with nothing set. -/
def New : Statement δ φ :=
  { EventType := none, Window := none, Length := none, Time := none,
    Function := [], Where := [] }

/-- Modelled from the spec: mutator "set event type". -/
def Statement.SetEventType (s : Statement δ φ) (v : δ) : Statement δ φ :=
  { s with EventType := some v }

/-- Modelled from the spec: mutator "append projection expression". -/
def Statement.SetFunction (s : Statement δ φ) (f : expr.Function) : Statement δ φ :=
  { s with Function := s.Function ++ [f] }

/-- Modelled from the spec: mutator "set window kind". -/
def Statement.SetWindow (s : Statement δ φ) (t : lexer.Token) : Statement δ φ :=
  { s with Window := some t }

/-- Modelled from the spec: mutator "set window length (count window)". -/
def Statement.SetLength (s : Statement δ φ) (n : Int) : Statement δ φ :=
  { s with Length := some n }

/-- Modelled from the spec: mutator "set window duration (time window)", in
nanoseconds. -/
def Statement.SetTime (s : Statement δ φ) (d : Int) : Statement δ φ :=
  { s with Time := some d }

/-- Modelled from the spec: mutator "append predicate expression (accepts a
variadic/ordered list)". -/
def Statement.SetWhere (s : Statement δ φ) (w : List (expr.Where φ)) : Statement δ φ :=
  { s with Where := s.Where ++ w }

end statement

/-! ## The Go library: `strconv`, `time`, `fmt.Errorf` -/

namespace strconv

/-- The two causes of a `*strconv.NumError`. -/
inductive Cause
  | ErrSyntax | ErrRange
  deriving DecidableEq, Repr

/-- Go `strconv.NumError`: the failing function, its input and the cause. -/
structure NumError where
  Func : String
  Num : String
  Err : Cause
  deriving DecidableEq, Repr

/-- The value of a run of decimal digits. -/
def digitsValue (ds : List Char) : Nat :=
  ds.foldl (fun acc c => 10 * acc + (c.toNat - 48)) 0

/-- Go `strconv.Atoi` for a 64-bit `int`: an optional sign followed by one or
more decimal digits, within the range of `int64`. -/
def Atoi (s : String) : Except NumError Int :=
  let signed : Bool × List Char :=
    match s.data with
    | '-' :: r => (true, r)
    | '+' :: r => (false, r)
    | cs => (false, cs)
  if signed.2.isEmpty || !signed.2.all Char.isDigit then
    .error ⟨"Atoi", s, .ErrSyntax⟩
  else if signed.1 then
    if 2 ^ 63 < digitsValue signed.2 then .error ⟨"Atoi", s, .ErrRange⟩
    else .ok (-(digitsValue signed.2 : Int))
  else
    if 2 ^ 63 ≤ digitsValue signed.2 then .error ⟨"Atoi", s, .ErrRange⟩
    else .ok (digitsValue signed.2 : Int)

end strconv

/-- Two's complement wrap-around of 64-bit signed arithmetic (`int64`,
`time.Duration`). -/
def wrap64 (x : Int) : Int := (x + 2 ^ 63) % 2 ^ 64 - 2 ^ 63

/-- Go `time.Second`, in nanoseconds. -/
def Second : Int := 1000000000

/-- Go `time.Minute`, in nanoseconds. -/
def Minute : Int := 60 * Second

/-- A Go `error` built by the parser: `fmt.Errorf` with `%s` arguments only is
its text; `fmt.Errorf` ending in `%v` of another error keeps the text before
the verb and that error; errors of `strconv` are kept as they are. -/
inductive GoError
  | text (msg : String)
  | caused (msg : String) (err : GoError)
  | num (err : strconv.NumError)
  deriving DecidableEq, Repr

/-! ## Package `parser` (`pkg/parser/parser.go`) -/

namespace parser

open lexer lexer.Token statement

/-- Go `type Registry map[string]interface{}`: the lookup
`v, ok := p.Registry[literal]` is `some v` when `ok` and `none` otherwise. -/
abbrev Registry (δ : Type) := String → Option δ

/-- Go `type Parser struct { Registry Registry }`. -/
structure Parser (δ : Type) where
  Registry : Registry δ

/-- What `parser.go` calls without defining it: the field-kind reflector
`IntField` and `FloatField` of the package (applied to `s.EventType`, which is
`none` while unset) and `strconv.ParseFloat(_, 64)` (`none` when it returns an
error). -/
structure Host (δ φ : Type) where
  IntField : Option δ → String → Bool
  FloatField : Option δ → String → Bool
  ParseFloat : String → Option φ

variable {δ φ : Type}

/-- The loop `for { if token, _ := l.Tokenize(); token == t { break } }` that
opens `ParseEventType` (with `t = FROM`), `ParseWindow` and `ParseWhere` (with
`t = DOT`): the lexer after the first token `t`, or `none` when the loop is
still running after `fuel` iterations. -/
def skipTo (t : Token) : Nat → Lexer → Option Lexer
  | 0, _ => none
  | fuel + 1, l =>
    match Tokenize l with
    | (token, _, l') => if token = t then some l' else skipTo t fuel l'

/-- One aggregate case of `ParseFunction`: the two `if`s on the kind of the
field `name`, each appending its expression. -/
def aggregate (H : Host δ φ) (s : Statement δ φ) (name : String)
    (onInt onFloat : expr.Function) : Statement δ φ :=
  let s1 := if H.IntField s.EventType name then s.SetFunction onInt else s
  if H.FloatField s1.EventType name then s1.SetFunction onFloat else s1

/-- Go `Parser.ParseFunction`: the projection pass. -/
def ParseFunction (H : Host δ φ) : Nat → Statement δ φ → Lexer →
    Option (Except GoError (Statement δ φ))
  | 0, _, _ => none
  | fuel + 1, s, l =>
    match Tokenize l with
    | (EOF, literal, _) => some (.error (.text ("invalid token=" ++ literal)))
    | (FROM, _, _) => some (.ok s)
    | (ASTERISK, _, l1) => ParseFunction H fuel (s.SetFunction .SelectAll) l1
    | (COUNT, _, l1) => ParseFunction H fuel (s.SetFunction (.Count "count(*)")) l1
    | (MAX, _, l1) =>
      match TokenizeIdentifier l1 with
      | (_, name, l2) =>
        ParseFunction H fuel
          (aggregate H s name (.MaxInt name ("max(" ++ name ++ ")"))
            (.MaxFloat name ("max(" ++ name ++ ")"))) l2
    | (MIN, _, l1) =>
      match TokenizeIdentifier l1 with
      | (_, name, l2) =>
        ParseFunction H fuel
          (aggregate H s name (.MinInt name ("min(" ++ name ++ ")"))
            (.MinFloat name ("min(" ++ name ++ ")"))) l2
    | (MED, _, l1) =>
      match TokenizeIdentifier l1 with
      | (_, name, l2) =>
        ParseFunction H fuel
          (aggregate H s name (.MedianInt name ("med(" ++ name ++ ")"))
            (.MedianFloat name ("med(" ++ name ++ ")"))) l2
    | (SUM, _, l1) =>
      match TokenizeIdentifier l1 with
      | (_, name, l2) =>
        ParseFunction H fuel
          (aggregate H s name (.SumInt name ("sum(" ++ name ++ ")"))
            (.SumFloat name ("sum(" ++ name ++ ")"))) l2
    | (AVG, _, l1) =>
      match TokenizeIdentifier l1 with
      | (_, name, l2) =>
        ParseFunction H fuel
          (aggregate H s name (.AverageInt name ("avg(" ++ name ++ ")"))
            (.AverageFloat name ("avg(" ++ name ++ ")"))) l2
    | (_, _, l1) => ParseFunction H fuel s l1

/-- The second loop of `ParseEventType`, entered after `from`. -/
def eventTypeLoop (p : Parser δ) : Nat → Statement δ φ → Lexer →
    Option (Except GoError (Statement δ φ))
  | 0, _, _ => none
  | fuel + 1, s, l =>
    match Tokenize l with
    | (EOF, literal, _) => some (.error (.text ("invalid token=" ++ literal)))
    | (DOT, _, _) => some (.ok s)
    | (IDENTIFIER, literal, l1) =>
      match p.Registry literal with
      | none => some (.error (.text ("EventType [" ++ literal ++ "] is not registered")))
      | some v => eventTypeLoop p fuel (s.SetEventType v) l1
    | (_, _, l1) => eventTypeLoop p fuel s l1

/-- Go `Parser.ParseEventType`: the event type pass. -/
def ParseEventType (p : Parser δ) (fuel : Nat) (s : Statement δ φ) (l : Lexer) :
    Option (Except GoError (Statement δ φ)) :=
  match skipTo FROM fuel l with
  | none => none
  | some l1 => eventTypeLoop p fuel s l1

/-- Go `Parser.ParseWindow`: the window pass. -/
def ParseWindow (fuel : Nat) (s : Statement δ φ) (l : Lexer) :
    Option (Except GoError (Statement δ φ)) :=
  match skipTo DOT fuel l with
  | none => none
  | some l1 =>
    match Tokenize l1 with
    | (token, literal, l2) =>
      if token = EOF then some (.error (.text ("invalid token=" ++ literal)))
      else if token = LENGTH then
        match TokenizeIdentifier l2 with
        | (_, lex, _) =>
          match strconv.Atoi lex with
          | .error err => some (.error (.caused ("atoi=" ++ lex ++ ": ") (.num err)))
          | .ok length => some (.ok ((s.SetWindow token).SetLength length))
      else if token = TIME then
        match TokenizeIdentifier l2 with
        | (_, lex, l3) =>
          match strconv.Atoi lex with
          | .error err => some (.error (.caused ("atoi=" ++ lex ++ ": ") (.num err)))
          | .ok ct =>
            match TokenizeIgnoreWhiteSpace l3 with
            | (SEC, _, _) => some (.ok ((s.SetWindow token).SetTime (wrap64 (ct * Second))))
            | (MIN, _, _) => some (.ok ((s.SetWindow token).SetTime (wrap64 (ct * Minute))))
            | _ => some (.ok (s.SetWindow token))
      else some (.error (.text ("invalid token=" ++ literal)))

/-- The `switch sel` of `ParseWhere`: the expression appended for the
comparator `sel`, none for any other token. -/
def compare {α : Type} (sel : Token) (larger less : α) (list : List α) : List α :=
  match sel with
  | LARGER => list ++ [larger]
  | LESS => list ++ [less]
  | _ => list

/-- The body of the second loop of `ParseWhere` after one of `where`, `and`,
`or`: the predicate list after this predicate, and the lexer, or the error
returned. -/
def predicate (H : Host δ φ) (s : Statement δ φ) (list : List (expr.Where φ)) (l : Lexer) :
    Except GoError (List (expr.Where φ) × Lexer) :=
  match TokenizeIdentifier l with
  | (_, name, l1) =>
    match TokenizeIgnoreIdentifier l1 with
    | (sel, _, l2) =>
      match TokenizeIdentifier l2 with
      | (_, value, l3) =>
        let afterInt : Except GoError (List (expr.Where φ)) :=
          if H.IntField s.EventType name then
            match strconv.Atoi value with
            | .error _ => .error (.text ("atoi=" ++ value))
            | .ok val =>
              .ok (compare sel (.LargerThanInt name val) (.LessThanInt name val) list)
          else .ok list
        match afterInt with
        | .error err => .error err
        | .ok list1 =>
          if H.FloatField s.EventType name then
            match TokenizeIdentifier l3 with
            | (_, value2, l4) =>
              match H.ParseFloat (value ++ "." ++ value2) with
              | none => .error (.text ("parse float=" ++ (value ++ "." ++ value2)))
              | some val =>
                .ok (compare sel (.LargerThanFloat name val) (.LessThanFloat name val) list1,
                  l4)
          else .ok (list1, l3)

/-- The second loop of `ParseWhere`: the predicate list at the end of the
input, or the error returned. -/
def whereLoop (H : Host δ φ) (s : Statement δ φ) : Nat → List (expr.Where φ) → Lexer →
    Option (Except GoError (List (expr.Where φ)))
  | 0, _, _ => none
  | fuel + 1, list, l =>
    match Tokenize l with
    | (token, _, l1) =>
      if token = EOF then some (.ok list)
      else if token ≠ WHERE ∧ token ≠ AND ∧ token ≠ OR then whereLoop H s fuel list l1
      else
        match predicate H s list l1 with
        | .error err => some (.error err)
        | .ok (list1, l2) => whereLoop H s fuel list1 l2

/-- Go `Parser.ParseWhere`: the predicate pass. -/
def ParseWhere (H : Host δ φ) (fuel : Nat) (s : Statement δ φ) (l : Lexer) :
    Option (Except GoError (Statement δ φ)) :=
  match skipTo DOT fuel l with
  | none => none
  | some l1 =>
    match whereLoop H s fuel [] l1 with
    | none => none
    | some (.error err) => some (.error err)
    | some (.ok list) => some (.ok (s.SetWhere list))

/-- Go `Parser.Parse`: `some (.ok s)` for `return s, nil`, `some (.error e)`
for `return nil, e`, and `none` when a loop is still running after `fuel`
iterations. -/
def Parser.Parse (p : Parser δ) (H : Host δ φ) (fuel : Nat) (query : String) :
    Option (Except GoError (Statement δ φ)) :=
  match Tokenize (New query) with
  | (token, literal, _) =>
    if token ≠ SELECT then some (.error (.text ("invalid token=" ++ literal)))
    else
      match ParseEventType p fuel (statement.New : Statement δ φ) (New query) with
      | none => none
      | some (.error err) => some (.error (.caused "parse event type: " err))
      | some (.ok s1) =>
        match ParseFunction H fuel s1 (New query) with
        | none => none
        | some (.error err) => some (.error (.caused "parse function: " err))
        | some (.ok s2) =>
          match ParseWindow fuel s2 (New query) with
          | none => none
          | some (.error err) => some (.error (.caused "parse window: " err))
          | some (.ok s3) =>
            match ParseWhere H fuel s3 (New query) with
            | none => none
            | some (.error err) => some (.error (.caused "parse selector: " err))
            | some (.ok s4) => some (.ok s4)

end parser

open lexer lexer.Token statement parser

/-! ## The parser on token streams

The passes of the parser only see the tokens their lexer returns. The
definitions of this section run the passes on the list of those tokens; the
lemmas further down show that they compute what the passes over a `Lexer`
compute. -/

namespace stream

variable {δ φ : Type}

/-- A token stream: the tokens a lexer still has to return. -/
abbrev Tokens := List (Token × String)

/-- `Tokenize` on a token stream. -/
def next : Tokens → Token × String × Tokens
  | [] => (EOF, eofLiteral, [])
  | (t, lit) :: ts => (t, lit, ts)

/-- `TokenizeIgnoreWhiteSpace` on a token stream. -/
def ignoreWhiteSpace : Tokens → Token × String × Tokens
  | [] => (EOF, eofLiteral, [])
  | (t, lit) :: ts => if t = WHITESPACE then ignoreWhiteSpace ts else (t, lit, ts)

/-- `TokenizeIdentifier` on a token stream. -/
def identifier : Tokens → Token × String × Tokens
  | [] => (EOF, eofLiteral, [])
  | (t, lit) :: ts => if t = IDENTIFIER then (t, lit, ts) else identifier ts

/-- `TokenizeIgnoreIdentifier` on a token stream. -/
def ignoreIdentifier : Tokens → Token × String × Tokens
  | [] => (EOF, eofLiteral, [])
  | (t, lit) :: ts =>
    if t = WHITESPACE ∨ t = IDENTIFIER then ignoreIdentifier ts else (t, lit, ts)

/-- The skip loop on a token stream: the stream after the first token `t`;
`none` when there is no such token (the loop never leaves). -/
def skipTo (t : Token) : Tokens → Option Tokens
  | [] => none
  | (t1, _) :: ts => if t1 = t then some ts else skipTo t ts

/-- The integer and the float expression of an aggregate keyword over the
field `name`; `none` for a token that is not one of `max`, `min`, `med`,
`sum`, `avg`. -/
def aggregateOf : Token → Option (String → expr.Function × expr.Function)
  | MAX => some fun name =>
      (.MaxInt name ("max(" ++ name ++ ")"), .MaxFloat name ("max(" ++ name ++ ")"))
  | MIN => some fun name =>
      (.MinInt name ("min(" ++ name ++ ")"), .MinFloat name ("min(" ++ name ++ ")"))
  | MED => some fun name =>
      (.MedianInt name ("med(" ++ name ++ ")"), .MedianFloat name ("med(" ++ name ++ ")"))
  | SUM => some fun name =>
      (.SumInt name ("sum(" ++ name ++ ")"), .SumFloat name ("sum(" ++ name ++ ")"))
  | AVG => some fun name =>
      (.AverageInt name ("avg(" ++ name ++ ")"), .AverageFloat name ("avg(" ++ name ++ ")"))
  | _ => none

/-! The three lemmas of this section bound the tokens left by the filtered
scans; the recursive definitions that follow them terminate by these bounds. -/

theorem identifier_length (ts : Tokens) : (identifier ts).2.2.length ≤ ts.length := by
  induction ts with
  | nil => simp [identifier]
  | cons x ts ih =>
    obtain ⟨t, lit⟩ := x
    simp only [identifier]
    split_ifs
    · simp
    · simp only [List.length_cons]; omega

theorem ignoreIdentifier_length (ts : Tokens) : (ignoreIdentifier ts).2.2.length ≤ ts.length := by
  induction ts with
  | nil => simp [ignoreIdentifier]
  | cons x ts ih =>
    obtain ⟨t, lit⟩ := x
    simp only [ignoreIdentifier]
    split_ifs
    · simp only [List.length_cons]; omega
    · simp

/-- `ParseFunction` on a token stream. -/
def ParseFunction (H : Host δ φ) (s : Statement δ φ) (ts : Tokens) :
    Except GoError (Statement δ φ) :=
  match ts with
  | [] => .error (.text ("invalid token=" ++ eofLiteral))
  | (t, lit) :: ts1 =>
    if t = EOF then .error (.text ("invalid token=" ++ lit))
    else if t = FROM then .ok s
    else if t = ASTERISK then ParseFunction H (s.SetFunction .SelectAll) ts1
    else if t = COUNT then ParseFunction H (s.SetFunction (.Count "count(*)")) ts1
    else
      match aggregateOf t with
      | some mk =>
        ParseFunction H
          (aggregate H s (identifier ts1).2.1 (mk (identifier ts1).2.1).1
            (mk (identifier ts1).2.1).2)
          (identifier ts1).2.2
      | none => ParseFunction H s ts1
termination_by ts.length
decreasing_by
  all_goals simp_wf
  exact Nat.lt_succ_of_le (identifier_length _)

/-- The second loop of `ParseEventType` on a token stream. -/
def eventTypeLoop (p : Parser δ) : Statement δ φ → Tokens → Except GoError (Statement δ φ)
  | _, [] => .error (.text ("invalid token=" ++ eofLiteral))
  | s, (t, lit) :: ts =>
    if t = EOF then .error (.text ("invalid token=" ++ lit))
    else if t = DOT then .ok s
    else if t = IDENTIFIER then
      match p.Registry lit with
      | none => .error (.text ("EventType [" ++ lit ++ "] is not registered"))
      | some v => eventTypeLoop p (s.SetEventType v) ts
    else eventTypeLoop p s ts

/-- `ParseEventType` on a token stream; `none` when it never returns. -/
def ParseEventType (p : Parser δ) (s : Statement δ φ) (ts : Tokens) :
    Option (Except GoError (Statement δ φ)) :=
  match skipTo FROM ts with
  | none => none
  | some ts1 => some (eventTypeLoop p s ts1)

/-- `ParseWindow` after its skip loop, on a token stream. -/
def window (s : Statement δ φ) (ts : Tokens) : Except GoError (Statement δ φ) :=
  match next ts with
  | (token, literal, ts2) =>
    if token = EOF then .error (.text ("invalid token=" ++ literal))
    else if token = LENGTH then
      match identifier ts2 with
      | (_, lex, _) =>
        match strconv.Atoi lex with
        | .error err => .error (.caused ("atoi=" ++ lex ++ ": ") (.num err))
        | .ok length => .ok ((s.SetWindow token).SetLength length)
    else if token = TIME then
      match identifier ts2 with
      | (_, lex, ts3) =>
        match strconv.Atoi lex with
        | .error err => .error (.caused ("atoi=" ++ lex ++ ": ") (.num err))
        | .ok ct =>
          match ignoreWhiteSpace ts3 with
          | (SEC, _, _) => .ok ((s.SetWindow token).SetTime (wrap64 (ct * Second)))
          | (MIN, _, _) => .ok ((s.SetWindow token).SetTime (wrap64 (ct * Minute)))
          | _ => .ok (s.SetWindow token)
    else .error (.text ("invalid token=" ++ literal))

/-- `ParseWindow` on a token stream; `none` when it never returns. -/
def ParseWindow (s : Statement δ φ) (ts : Tokens) : Option (Except GoError (Statement δ φ)) :=
  match skipTo DOT ts with
  | none => none
  | some ts1 => some (window s ts1)

/-- One predicate of `ParseWhere` on a token stream. -/
def predicate (H : Host δ φ) (s : Statement δ φ) (list : List (expr.Where φ)) (ts : Tokens) :
    Except GoError (List (expr.Where φ) × Tokens) :=
  match identifier ts with
  | (_, name, ts1) =>
    match ignoreIdentifier ts1 with
    | (sel, _, ts2) =>
      match identifier ts2 with
      | (_, value, ts3) =>
        let afterInt : Except GoError (List (expr.Where φ)) :=
          if H.IntField s.EventType name then
            match strconv.Atoi value with
            | .error _ => .error (.text ("atoi=" ++ value))
            | .ok val =>
              .ok (compare sel (.LargerThanInt name val) (.LessThanInt name val) list)
          else .ok list
        match afterInt with
        | .error err => .error err
        | .ok list1 =>
          if H.FloatField s.EventType name then
            match identifier ts3 with
            | (_, value2, ts4) =>
              match H.ParseFloat (value ++ "." ++ value2) with
              | none => .error (.text ("parse float=" ++ (value ++ "." ++ value2)))
              | some val =>
                .ok (compare sel (.LargerThanFloat name val) (.LessThanFloat name val) list1,
                  ts4)
          else .ok (list1, ts3)

theorem predicate_length {δ φ : Type} (H : Host δ φ) (s : Statement δ φ)
    (list list1 : List (expr.Where φ)) (ts ts2 : Tokens)
    (h : predicate H s list ts = .ok (list1, ts2)) : ts2.length ≤ ts.length := by
  have h1 := identifier_length ts
  have h2 := ignoreIdentifier_length (identifier ts).2.2
  have h3 := identifier_length (ignoreIdentifier (identifier ts).2.2).2.2
  have h4 := identifier_length
    (identifier (ignoreIdentifier (identifier ts).2.2).2.2).2.2
  unfold predicate at h
  dsimp only at h
  split at h
  · cases h
  · split_ifs at h
    · split at h
      · cases h
      · simp only [Except.ok.injEq, Prod.mk.injEq] at h
        rw [← h.2]
        exact le_trans h4 (le_trans h3 (le_trans h2 h1))
    · simp only [Except.ok.injEq, Prod.mk.injEq] at h
      rw [← h.2]
      exact le_trans h3 (le_trans h2 h1)

/-- The second loop of `ParseWhere` on a token stream. -/
def whereLoop (H : Host δ φ) (s : Statement δ φ) (list : List (expr.Where φ)) (ts : Tokens) :
    Except GoError (List (expr.Where φ)) :=
  match ts with
  | [] => .ok list
  | (t, _) :: ts1 =>
    if t = EOF then .ok list
    else if t ≠ WHERE ∧ t ≠ AND ∧ t ≠ OR then whereLoop H s list ts1
    else
      match _h : predicate H s list ts1 with
      | .error err => .error err
      | .ok (list1, ts2) => whereLoop H s list1 ts2
termination_by ts.length
decreasing_by
  all_goals simp_wf
  exact Nat.lt_succ_of_le (predicate_length H s _ _ _ _ _h)

/-- `ParseWhere` on a token stream; `none` when it never returns. -/
def ParseWhere (H : Host δ φ) (s : Statement δ φ) (ts : Tokens) :
    Option (Except GoError (Statement δ φ)) :=
  match skipTo DOT ts with
  | none => none
  | some ts1 =>
    match whereLoop H s [] ts1 with
    | .error err => some (.error err)
    | .ok list => some (.ok (s.SetWhere list))

/-- `Parse` on the token stream of the query; `none` when it never returns. -/
def Parse (p : Parser δ) (H : Host δ φ) (ts : Tokens) :
    Option (Except GoError (Statement δ φ)) :=
  match next ts with
  | (token, literal, _) =>
    if token ≠ SELECT then some (.error (.text ("invalid token=" ++ literal)))
    else
      match ParseEventType p (statement.New : Statement δ φ) ts with
      | none => none
      | some (.error err) => some (.error (.caused "parse event type: " err))
      | some (.ok s1) =>
        match ParseFunction H s1 ts with
        | .error err => some (.error (.caused "parse function: " err))
        | .ok s2 =>
          match ParseWindow s2 ts with
          | none => none
          | some (.error err) => some (.error (.caused "parse window: " err))
          | some (.ok s3) =>
            match ParseWhere H s3 ts with
            | none => none
            | some (.error err) => some (.error (.caused "parse selector: " err))
            | some (.ok s4) => some (.ok s4)

end stream

/-! ## Auxiliary definitions -/

/-- What a scan returns, with the lexer replaced by its token stream. -/
def view (r : Token × String × Lexer) : Token × String × stream.Tokens :=
  (r.1, r.2.1, tokens r.2.2)

/-- The result of `predicate`, with the lexer replaced by its token stream. -/
def viewE {α : Type} (r : Except GoError (α × Lexer)) : Except GoError (α × stream.Tokens) :=
  match r with
  | .error err => .error err
  | .ok (x, l) => .ok (x, tokens l)

/-- The class of characters that continue the run opened by `c`: whitespace,
letters or digits; no character continues a token of one character. -/
def runClass (c : Char) : Char → Bool :=
  if c.isWhitespace then Char.isWhitespace
  else if c.isAlpha then Char.isAlpha
  else if c.isDigit then Char.isDigit
  else fun _ => false

/-- The token of the run `run` opened by `c`. -/
def runToken (c : Char) (run : List Char) : Token :=
  if c.isWhitespace then WHITESPACE
  else if c.isAlpha then lookup run
  else if c.isDigit then IDENTIFIER
  else
    match punct c with
    | some t => t
    | none => IDENTIFIER

/-- Two characters that `Tokenize` would put into one run when adjacent. -/
def joins (x y : Char) : Bool :=
  (x.isWhitespace && y.isWhitespace) || (x.isAlpha && y.isAlpha) || (x.isDigit && y.isDigit)

/-- The text `a` followed by the text `b` does not merge the last run of `a`
with the first run of `b`. -/
def separated (a b : List Char) : Bool :=
  match a.getLast?, b.head? with
  | some x, some y => !joins x y
  | _, _ => true

/-- A text that the lexer returns as one `IDENTIFIER` token: a name or a
literal. -/
def isIdentifier (s : String) : Bool :=
  tokens ⟨s.data⟩ == [(IDENTIFIER, s)]

/-- A non-empty run of decimal digits. -/
def isNumber (s : String) : Bool :=
  !s.data.isEmpty && s.data.all Char.isDigit

/-- A character that belongs to no run: neither whitespace, a letter nor a
digit. -/
def unclassed (c : Char) : Bool :=
  !c.isWhitespace && !c.isAlpha && !c.isDigit

/-- The literals of the `IDENTIFIER` tokens of a token stream, in order. -/
def identifiers (ts : stream.Tokens) : List String :=
  (ts.filter fun t => t.1 == IDENTIFIER).map Prod.snd

/-- A registry with the one event type `E`, whose descriptor is `7`. -/
def exampleParser : Parser Nat :=
  ⟨fun name => if name = "E" then some 7 else none⟩

/-- A host in which `Value` is the integer field and `Level` the float field
of every event type, and a `float64` is written as its decimal text. -/
def exampleHost : Host Nat String :=
  { IntField := fun _ name => name == "Value"
    FloatField := fun _ name => name == "Level"
    ParseFloat := fun text => some text }

/-- The statement `s1` has the event type, the window and the predicate list
of the statement `s`: what a pass that only appends projections leaves as it
is. -/
def keeps {δ φ : Type} (s s1 : Statement δ φ) : Prop :=
  s1.EventType = s.EventType ∧ s1.Window = s.Window ∧ s1.Length = s.Length ∧
    s1.Time = s.Time ∧ s1.Where = s.Where

/-- The tokens of repeated `TokenizeIgnoreWhiteSpace` calls up to the end
sentinel, at most `n` of them. -/
def tokensIgnoreWhiteSpaceLoop : Nat → Lexer → List (Token × String)
  | 0, _ => []
  | n + 1, l =>
    match TokenizeIgnoreWhiteSpace l with
    | (EOF, _, _) => []
    | (t, lit, l') => (t, lit) :: tokensIgnoreWhiteSpaceLoop n l'

/-- The sequence of pairs that repeated `TokenizeIgnoreWhiteSpace` calls return
before the end sentinel. Every call that does not return the end sentinel
takes at least one character. -/
def tokensIgnoreWhiteSpace (l : Lexer) : List (Token × String) :=
  tokensIgnoreWhiteSpaceLoop l.input.length l

/-- A token stream with every `WHITESPACE` pair removed. -/
def significant (ts : stream.Tokens) : stream.Tokens :=
  ts.filter fun t => t.1 != WHITESPACE

/-- The tokens that open a predicate: `where`, `and`, `or`. -/
def delimiter (t : Token) : Bool :=
  t == WHERE || t == AND || t == OR

/-- Two tokens that are the same, or are both predicate delimiters. -/
def sameOrDelimiters (x y : Token × String) : Prop :=
  x = y ∨ (delimiter x.1 = true ∧ delimiter y.1 = true)

/-- Two token streams that differ only in which of the delimiters `where`,
`and`, `or` stands at a place (for instance `and` replaced by `or`). -/
def delimitersSwapped (ts ts1 : stream.Tokens) : Prop :=
  List.Forall₂ sameOrDelimiters ts ts1

/-- What `predicate` makes of the field `name`, the comparator `sel`, the
literal `value` and the next identifier `value2`, where `ts3` is the lexer (or
the token stream) after `value` and `ts4` the one after `value2`. -/
def predicateBody {δ φ ρ : Type} (H : Host δ φ) (s : Statement δ φ)
    (list : List (expr.Where φ)) (name : String) (sel : Token) (value value2 : String)
    (ts3 ts4 : ρ) : Except GoError (List (expr.Where φ) × ρ) :=
  let afterInt : Except GoError (List (expr.Where φ)) :=
    if H.IntField s.EventType name then
      match strconv.Atoi value with
      | .error _ => .error (.text ("atoi=" ++ value))
      | .ok val => .ok (compare sel (.LargerThanInt name val) (.LessThanInt name val) list)
    else .ok list
  match afterInt with
  | .error err => .error err
  | .ok list1 =>
    if H.FloatField s.EventType name then
      match H.ParseFloat (value ++ "." ++ value2) with
      | none => .error (.text ("parse float=" ++ (value ++ "." ++ value2)))
      | some val =>
        .ok (compare sel (.LargerThanFloat name val) (.LessThanFloat name val) list1, ts4)
    else .ok (list1, ts3)

instance sameOrDelimitersDecidable (x y : Token × String) : Decidable (sameOrDelimiters x y) :=
  inferInstanceAs (Decidable (x = y ∨ (delimiter x.1 = true ∧ delimiter y.1 = true)))

instance delimitersSwappedDecidable (ts ts1 : stream.Tokens) :
    Decidable (delimitersSwapped ts ts1) :=
  inferInstanceAs (Decidable (List.Forall₂ sameOrDelimiters ts ts1))

/-- A host like `exampleHost` whose `ParseFloat` converts the plain decimal
texts only: digits with at most one decimal point and at least one digit,
which `strconv.ParseFloat` converts, and it rejects every other text.
`strconv.ParseFloat` converts more (a sign, an exponent, hexadecimal texts,
infinities and NaN), none of which is given to this host; a text with a name
such as `Value` in it is rejected by both. -/
def strictHost : Host Nat String :=
  { IntField := fun _ name => name == "Value"
    FloatField := fun _ name => name == "Level"
    ParseFloat := fun text =>
      if text.data.all (fun c => c.isDigit || c == '.') && text.data.any Char.isDigit &&
          decide (text.data.count '.' ≤ 1) then some text
      else none }

/-- The aggregate keywords that take a field: `max`, `min`, `med`, `sum`,
`avg`. -/
inductive Aggregate
  | max | min | med | sum | avg
  deriving DecidableEq, Repr

/-- The keyword of an aggregate, as written in a query. -/
def Aggregate.keyword : Aggregate → String
  | .max => "max"
  | .min => "min"
  | .med => "med"
  | .sum => "sum"
  | .avg => "avg"

/-- The token of an aggregate keyword. -/
def Aggregate.token : Aggregate → Token
  | .max => MAX
  | .min => MIN
  | .med => MED
  | .sum => SUM
  | .avg => AVG

/-- The integer expression of an aggregate over the field `name`, labelled
`agg(name)`. -/
def Aggregate.intExpr : Aggregate → String → expr.Function
  | .max, name => .MaxInt name ("max(" ++ name ++ ")")
  | .min, name => .MinInt name ("min(" ++ name ++ ")")
  | .med, name => .MedianInt name ("med(" ++ name ++ ")")
  | .sum, name => .SumInt name ("sum(" ++ name ++ ")")
  | .avg, name => .AverageInt name ("avg(" ++ name ++ ")")

/-- The float expression of an aggregate over the field `name`, labelled
`agg(name)`. -/
def Aggregate.floatExpr : Aggregate → String → expr.Function
  | .max, name => .MaxFloat name ("max(" ++ name ++ ")")
  | .min, name => .MinFloat name ("min(" ++ name ++ ")")
  | .med, name => .MedianFloat name ("med(" ++ name ++ ")")
  | .sum, name => .SumFloat name ("sum(" ++ name ++ ")")
  | .avg, name => .AverageFloat name ("avg(" ++ name ++ ")")

/-- An item of a select clause of the grammar: `count(*)`, or an aggregate
keyword applied to a field, `agg(field)`. -/
inductive Item
  | count
  | agg (a : Aggregate) (field : String)
  deriving DecidableEq, Repr

/-- The text of an item. -/
def Item.text : Item → String
  | .count => "count(*)"
  | .agg a field => a.keyword ++ "(" ++ field ++ ")"

/-- The field of an aggregate item is an identifier. -/
def Item.wellFormed : Item → Bool
  | .count => true
  | .agg _ field => isIdentifier field

/-- The tokens of an item. -/
def Item.tokens : Item → stream.Tokens
  | .count => [(COUNT, "count"), (LPAREN, "("), (ASTERISK, "*"), (RPAREN, ")")]
  | .agg a field => [(a.token, a.keyword), (LPAREN, "("), (IDENTIFIER, field), (RPAREN, ")")]

/-- What the projection pass appends for an item, for the event type `ev`:
for `count(*)` the count expression, followed by the select-all expression of
its `*`; for `agg(field)` the integer expression when the field is an integer
field, then the float expression when it is a float field. -/
def Item.appended {δ φ : Type} (H : Host δ φ) (ev : Option δ) : Item → List expr.Function
  | .count => [.Count "count(*)", .SelectAll]
  | .agg a field =>
    (if H.IntField ev field then [a.intExpr field] else []) ++
      (if H.FloatField ev field then [a.floatExpr field] else [])

/-- The expression that the keyword of an item contributes, for the event type
`ev`: for `count` the count expression; for `agg(field)` the integer
expression when the field is an integer field, then the float expression when
it is a float field. -/
def Item.entries {δ φ : Type} (H : Host δ φ) (ev : Option δ) : Item → List expr.Function
  | .count => [.Count "count(*)"]
  | .agg a field =>
    (if H.IntField ev field then [a.intExpr field] else []) ++
      (if H.FloatField ev field then [a.floatExpr field] else [])

/-- The text of the items after the first one of a select clause, each after
a comma and a space. -/
def itemsText : List Item → String
  | [] => ""
  | item :: rest => ", " ++ item.text ++ itemsText rest

/-- The tokens of `itemsText`. -/
def itemsTokens : List Item → stream.Tokens
  | [] => []
  | item :: rest => (COMMA, ",") :: (WHITESPACE, " ") :: (item.tokens ++ itemsTokens rest)

/-- What the projection pass appends for a list of items. -/
def itemsAppended {δ φ : Type} (H : Host δ φ) (ev : Option δ) : List Item → List expr.Function
  | [] => []
  | item :: rest => item.appended H ev ++ itemsAppended H ev rest

/-- The entries of a list of items, in the order of the items. -/
def itemsEntries {δ φ : Type} (H : Host δ φ) (ev : Option δ) : List Item → List expr.Function
  | [] => []
  | item :: rest => item.entries H ev ++ itemsEntries H ev rest

/-- The entries of a projection list that are not select-all expressions. -/
def aggregates (fs : List expr.Function) : List expr.Function :=
  fs.filter fun f => f != .SelectAll

/-- The statement `s` with the entries `es` appended to its projection
list. -/
def appendEntries {δ φ : Type} (s : Statement δ φ) (es : List expr.Function) :
    Statement δ φ :=
  { s with Function := s.Function ++ es }

/-- A non-empty run of whitespace characters. -/
def isWhitespaceRun (w : String) : Bool :=
  !w.data.isEmpty && w.data.all Char.isWhitespace

/-- The text `a` ends with its only `.`: a query that starts with `a` has its
first `.` as the last character of `a`. -/
def endsAtFirstDot (a : String) : Bool :=
  a.data.getLast? == some '.' && a.data.count '.' == 1

/-- A token stream whose first token, and whose token after the first `.`,
are not `WHITESPACE`: the two tokens that `Parse` and `ParseWindow` read with
the base scan and do not skip. -/
def anchored (ts : stream.Tokens) : Prop :=
  (stream.next ts).1 ≠ WHITESPACE ∧
    ∀ tsd, stream.skipTo DOT ts = some tsd → (stream.next tsd).1 ≠ WHITESPACE

/-- A predicate clause of a query: the delimiter that opens it (`where`,
`and` or `or`, with the word as written), the field, the comparator (`>` when
`larger`, else `<`), the literal and the digits of its fraction, when it has
one. -/
structure Clause where
  opener : Token
  word : String
  field : String
  larger : Bool
  value : String
  fraction : Option String
  deriving DecidableEq, Repr

/-- The comparator token of a clause. -/
def Clause.comparator (c : Clause) : Token × String :=
  if c.larger then (LARGER, ">") else (LESS, "<")

/-- The tokens of a clause written as ` and F > a` or ` and F > a.b`. -/
def Clause.tokens (c : Clause) : stream.Tokens :=
  [(WHITESPACE, " "), (c.opener, c.word), (WHITESPACE, " "), (IDENTIFIER, c.field),
    (WHITESPACE, " "), c.comparator, (WHITESPACE, " "), (IDENTIFIER, c.value)] ++
    match c.fraction with
    | none => []
    | some b => [(DOT, "."), (IDENTIFIER, b)]

/-- A clause the predicate pass reads as one predicate: it is opened by one of
the delimiters, and the literal of a float field has a fraction. -/
def Clause.wellFormed {δ φ : Type} (H : Host δ φ) (ev : Option δ) (c : Clause) : Bool :=
  delimiter c.opener && (!H.FloatField ev c.field || c.fraction.isSome)

/-- The predicates that a clause stands for, whatever its delimiter, following
the specification of the predicate pass: for an integer field the integer
comparison with the literal, then for a float field the float comparison with
the literal and its fraction joined by a decimal point; the error of the
conversion that fails. -/
def Clause.entries {δ φ : Type} (H : Host δ φ) (ev : Option δ) (c : Clause) :
    Except GoError (List (expr.Where φ)) :=
  let ints : Except GoError (List (expr.Where φ)) :=
    if H.IntField ev c.field then
      match strconv.Atoi c.value with
      | .error _ => .error (.text ("atoi=" ++ c.value))
      | .ok v => .ok [if c.larger then .LargerThanInt c.field v else .LessThanInt c.field v]
    else .ok []
  match ints with
  | .error err => .error err
  | .ok es =>
    if H.FloatField ev c.field then
      match H.ParseFloat (c.value ++ "." ++ c.fraction.getD "") with
      | none => .error (.text ("parse float=" ++ (c.value ++ "." ++ c.fraction.getD "")))
      | some val =>
        .ok (es ++
          [if c.larger then .LargerThanFloat c.field val else .LessThanFloat c.field val])
    else .ok es

/-- The tokens of a list of clauses, in the order of the text. -/
def clausesTokens : List Clause → stream.Tokens
  | [] => []
  | c :: cs => c.tokens ++ clausesTokens cs

/-- The predicate list of a list of clauses: the predicates of each clause, in
the order of the clauses; the error of the first clause that has one. -/
def clausesResult {δ φ : Type} (H : Host δ φ) (ev : Option δ) :
    List Clause → Except GoError (List (expr.Where φ))
  | [] => .ok []
  | c :: cs =>
    match c.entries H ev with
    | .error err => .error err
    | .ok es =>
      match clausesResult H ev cs with
      | .error err => .error err
      | .ok rest => .ok (es ++ rest)

/-! ## The token stream of a lexer -/

theorem lookup_mem {α β : Type} [BEq α] (k : α) (tbl : List (α × β)) (v : β)
    (h : tbl.lookup k = some v) : v ∈ tbl.map Prod.snd := by
  induction tbl with
  | nil => simp [List.lookup] at h
  | cons x xs ih =>
    obtain ⟨a, b⟩ := x
    simp only [List.lookup] at h
    split at h
    · simp at h; simp [h]
    · simp [ih h]

theorem lookup_ne_EOF (run : List Char) : lookup run ≠ EOF := by
  unfold lookup
  split
  · rename_i t h
    have := lookup_mem _ _ _ h
    intro h'
    subst h'
    revert this
    decide
  · decide

theorem punct_ne_EOF (c : Char) : punct c ≠ some EOF := by
  unfold punct
  repeat' split
  all_goals simp

theorem Tokenize_nil (l : Lexer) (h : l.input = []) : Tokenize l = (EOF, eofLiteral, l) := by
  simp [Tokenize, h]

theorem Tokenize_cons (l : Lexer) (c : Char) (cs : List Char) (h : l.input = c :: cs) :
    (Tokenize l).1 ≠ EOF ∧ (Tokenize l).2.2.input.length ≤ cs.length := by
  simp only [Tokenize, h]
  split_ifs
  · exact ⟨by simp, (List.dropWhile_sublist _).length_le⟩
  · exact ⟨lookup_ne_EOF _, (List.dropWhile_sublist _).length_le⟩
  · exact ⟨by simp, (List.dropWhile_sublist _).length_le⟩
  · split
    · rename_i t ht
      refine ⟨?_, le_refl _⟩
      intro h'
      simp only at h'
      subst h'
      exact punct_ne_EOF _ ht
    · exact ⟨by simp, le_refl _⟩

theorem tokensLoop_succ (n : Nat) (l : Lexer) :
    tokensLoop (n + 1) l =
      if (Tokenize l).1 = EOF then []
      else ((Tokenize l).1, (Tokenize l).2.1) :: tokensLoop n (Tokenize l).2.2 := by
  rw [tokensLoop]
  rcases Tokenize l with ⟨t, lit, l1⟩
  cases t <;> simp

theorem tokensLoop_stable (n m : Nat) (l : Lexer) (hn : l.input.length ≤ n)
    (hm : l.input.length ≤ m) : tokensLoop n l = tokensLoop m l := by
  induction n generalizing m l with
  | zero =>
    have h0 : l.input = [] := List.length_eq_zero.mp (Nat.le_zero.mp hn)
    cases m with
    | zero => rfl
    | succ m => simp [tokensLoop_succ, Tokenize_nil l h0, tokensLoop]
  | succ n ih =>
    cases m with
    | zero =>
      have h0 : l.input = [] := List.length_eq_zero.mp (Nat.le_zero.mp hm)
      simp [tokensLoop_succ, Tokenize_nil l h0, tokensLoop]
    | succ m =>
      rw [tokensLoop_succ, tokensLoop_succ]
      cases hl : l.input with
      | nil => simp [Tokenize_nil l hl]
      | cons c cs =>
        have hc := Tokenize_cons l c cs hl
        rw [if_neg hc.1, if_neg hc.1]
        rw [hl] at hn hm
        simp only [List.length_cons] at hn hm
        rw [ih m _ (by omega) (by omega)]

theorem Tokenize_view (l : Lexer) :
    (tokens l = [] ∧ Tokenize l = (EOF, eofLiteral, l)) ∨
    (∃ t lit l1, t ≠ EOF ∧ Tokenize l = (t, lit, l1) ∧ tokens l = (t, lit) :: tokens l1 ∧
      l1.input.length < l.input.length) := by
  cases hl : l.input with
  | nil =>
    left
    exact ⟨by simp [tokens, hl, tokensLoop], Tokenize_nil l hl⟩
  | cons c cs =>
    right
    have hc := Tokenize_cons l c cs hl
    refine ⟨(Tokenize l).1, (Tokenize l).2.1, (Tokenize l).2.2, hc.1, rfl, ?_, ?_⟩
    · simp only [tokens, hl, List.length_cons, tokensLoop_succ, if_neg hc.1]
      rw [tokensLoop_stable _ _ _ hc.2 (le_refl _)]
    · simp only [List.length_cons]
      omega

theorem view_Tokenize (l : Lexer) : view (Tokenize l) = stream.next (tokens l) := by
  rcases Tokenize_view l with ⟨h1, h2⟩ | ⟨t, lit, l1, _, h2, h3, _⟩
  · simp [view, h1, h2, stream.next]
  · simp [view, h2, h3, stream.next]

theorem ignoreWhiteSpaceLoop_succ (n : Nat) (l : Lexer) :
    ignoreWhiteSpaceLoop (n + 1) l =
      if (Tokenize l).1 = WHITESPACE then ignoreWhiteSpaceLoop n (Tokenize l).2.2
      else Tokenize l := by
  rw [ignoreWhiteSpaceLoop]
  rcases Tokenize l with ⟨t, lit, l1⟩
  cases t <;> simp

theorem identifierLoop_succ (n : Nat) (l : Lexer) :
    identifierLoop (n + 1) l =
      if (Tokenize l).1 = IDENTIFIER ∨ (Tokenize l).1 = EOF then Tokenize l
      else identifierLoop n (Tokenize l).2.2 := by
  rw [identifierLoop]
  rcases Tokenize l with ⟨t, lit, l1⟩
  cases t <;> simp

theorem ignoreIdentifierLoop_succ (n : Nat) (l : Lexer) :
    ignoreIdentifierLoop (n + 1) l =
      if (Tokenize l).1 = WHITESPACE ∨ (Tokenize l).1 = IDENTIFIER then
        ignoreIdentifierLoop n (Tokenize l).2.2
      else Tokenize l := by
  rw [ignoreIdentifierLoop]
  rcases Tokenize l with ⟨t, lit, l1⟩
  cases t <;> simp

theorem view_ignoreWhiteSpaceLoop (n : Nat) (l : Lexer) (h : l.input.length < n) :
    view (ignoreWhiteSpaceLoop n l) = stream.ignoreWhiteSpace (tokens l) := by
  induction n generalizing l with
  | zero => omega
  | succ n ih =>
    rw [ignoreWhiteSpaceLoop_succ]
    rcases Tokenize_view l with ⟨h1, h2⟩ | ⟨t, lit, l1, hne, h2, h3, hlt⟩
    · simp [h1, h2, stream.ignoreWhiteSpace, view, eofLiteral]
    · rw [h2, h3]
      simp only [stream.ignoreWhiteSpace]
      split_ifs with hw
      · exact ih l1 (by omega)
      · simp [view]

theorem view_identifierLoop (n : Nat) (l : Lexer) (h : l.input.length < n) :
    view (identifierLoop n l) = stream.identifier (tokens l) := by
  induction n generalizing l with
  | zero => omega
  | succ n ih =>
    rw [identifierLoop_succ]
    rcases Tokenize_view l with ⟨h1, h2⟩ | ⟨t, lit, l1, hne, h2, h3, hlt⟩
    · simp [h1, h2, stream.identifier, view, eofLiteral]
    · rw [h2, h3]
      simp only [stream.identifier, hne, or_false]
      split_ifs with hw
      · simp [view]
      · exact ih l1 (by omega)

theorem view_ignoreIdentifierLoop (n : Nat) (l : Lexer) (h : l.input.length < n) :
    view (ignoreIdentifierLoop n l) = stream.ignoreIdentifier (tokens l) := by
  induction n generalizing l with
  | zero => omega
  | succ n ih =>
    rw [ignoreIdentifierLoop_succ]
    rcases Tokenize_view l with ⟨h1, h2⟩ | ⟨t, lit, l1, hne, h2, h3, hlt⟩
    · simp [h1, h2, stream.ignoreIdentifier, view, eofLiteral]
    · rw [h2, h3]
      simp only [stream.ignoreIdentifier]
      split_ifs with hw
      · exact ih l1 (by omega)
      · simp [view]

theorem view_TokenizeIgnoreWhiteSpace (l : Lexer) :
    view (TokenizeIgnoreWhiteSpace l) = stream.ignoreWhiteSpace (tokens l) :=
  view_ignoreWhiteSpaceLoop _ l (Nat.lt_succ_self _)

theorem view_TokenizeIdentifier (l : Lexer) :
    view (TokenizeIdentifier l) = stream.identifier (tokens l) :=
  view_identifierLoop _ l (Nat.lt_succ_self _)

theorem view_TokenizeIgnoreIdentifier (l : Lexer) :
    view (TokenizeIgnoreIdentifier l) = stream.ignoreIdentifier (tokens l) :=
  view_ignoreIdentifierLoop _ l (Nat.lt_succ_self _)

theorem ParseFunction_succ {δ φ : Type} (H : Host δ φ) (fuel : Nat) (s : Statement δ φ)
    (l : Lexer) :
    ParseFunction H (fuel + 1) s l =
      if (Tokenize l).1 = EOF then some (.error (.text ("invalid token=" ++ (Tokenize l).2.1)))
      else if (Tokenize l).1 = FROM then some (.ok s)
      else if (Tokenize l).1 = ASTERISK then
        ParseFunction H fuel (s.SetFunction .SelectAll) (Tokenize l).2.2
      else if (Tokenize l).1 = COUNT then
        ParseFunction H fuel (s.SetFunction (.Count "count(*)")) (Tokenize l).2.2
      else
        match stream.aggregateOf (Tokenize l).1 with
        | some mk =>
          ParseFunction H fuel
            (aggregate H s (TokenizeIdentifier (Tokenize l).2.2).2.1
              (mk (TokenizeIdentifier (Tokenize l).2.2).2.1).1
              (mk (TokenizeIdentifier (Tokenize l).2.2).2.1).2)
            (TokenizeIdentifier (Tokenize l).2.2).2.2
        | none => ParseFunction H fuel s (Tokenize l).2.2 := by
  rw [ParseFunction]
  rcases Tokenize l with ⟨t, lit, l1⟩
  cases t <;> simp [stream.aggregateOf]

theorem ParseFunction_tokens {δ φ : Type} (H : Host δ φ) (fuel : Nat) (s : Statement δ φ)
    (l : Lexer) (h : (tokens l).length < fuel) :
    ParseFunction H fuel s l = some (stream.ParseFunction H s (tokens l)) := by
  induction fuel generalizing s l with
  | zero => omega
  | succ fuel ih =>
    rw [ParseFunction_succ]
    rcases Tokenize_view l with ⟨h1, h2⟩ | ⟨t, lit, l1, hne, h2, h3, hlt⟩
    · simp [h1, h2, stream.ParseFunction]
    · rw [h3] at h
      simp only [List.length_cons] at h
      rw [h2, h3, stream.ParseFunction]
      simp only [hne, if_false]
      have hv := view_TokenizeIdentifier l1
      simp only [view, Prod.ext_iff] at hv
      have hlen := stream.identifier_length (tokens l1)
      split_ifs
      · rfl
      · exact ih _ _ (by omega)
      · exact ih _ _ (by omega)
      · cases hagg : stream.aggregateOf t with
        | none => exact ih _ _ (by omega)
        | some mk =>
          simp only
          rw [ih _ _ (by rw [hv.2.2]; omega), hv.2.1, hv.2.2]

theorem skipTo_succ (t : Token) (fuel : Nat) (l : Lexer) :
    skipTo t (fuel + 1) l =
      if (Tokenize l).1 = t then some (Tokenize l).2.2 else skipTo t fuel (Tokenize l).2.2 := by
  rw [skipTo]

theorem skipTo_none (t : Token) (ht : t ≠ EOF) (fuel : Nat) (l : Lexer)
    (h : stream.skipTo t (tokens l) = none) : skipTo t fuel l = none := by
  induction fuel generalizing l with
  | zero => rfl
  | succ fuel ih =>
    rw [skipTo_succ]
    rcases Tokenize_view l with ⟨h1, h2⟩ | ⟨t1, lit, l1, hne, h2, h3, hlt⟩
    · rw [h2]
      simp only [Ne.symm ht, if_false]
      exact ih l h
    · rw [h3] at h
      simp only [stream.skipTo] at h
      rw [h2]
      split_ifs at h with h4
      simp only [h4, if_false]
      exact ih l1 h

theorem skipTo_tokens (t : Token) (ht : t ≠ EOF) (fuel : Nat) (l : Lexer)
    (h : (tokens l).length < fuel) :
    (skipTo t fuel l).map tokens = stream.skipTo t (tokens l) := by
  induction fuel generalizing l with
  | zero => omega
  | succ fuel ih =>
    rcases Tokenize_view l with ⟨h1, h2⟩ | ⟨t1, lit, l1, hne, h2, h3, hlt⟩
    · rw [skipTo_none t ht _ l (by simp [h1, stream.skipTo]), h1]
      rfl
    · rw [skipTo_succ]
      rw [h3] at h
      simp only [List.length_cons] at h
      rw [h2, h3]
      simp only [stream.skipTo]
      split_ifs
      · rfl
      · exact ih l1 (by omega)

theorem stream.skipTo_length (t : Token) (ts ts1 : stream.Tokens)
    (h : stream.skipTo t ts = some ts1) : ts1.length < ts.length := by
  induction ts with
  | nil => simp [stream.skipTo] at h
  | cons x ts ih =>
    obtain ⟨t1, lit⟩ := x
    simp only [stream.skipTo] at h
    split_ifs at h
    · simp only [Option.some.injEq] at h
      simp [h]
    · have := ih h
      simp only [List.length_cons]
      omega

theorem eventTypeLoop_succ {δ φ : Type} (p : Parser δ) (fuel : Nat) (s : Statement δ φ)
    (l : Lexer) :
    eventTypeLoop p (fuel + 1) s l =
      if (Tokenize l).1 = EOF then some (.error (.text ("invalid token=" ++ (Tokenize l).2.1)))
      else if (Tokenize l).1 = DOT then some (.ok s)
      else if (Tokenize l).1 = IDENTIFIER then
        match p.Registry (Tokenize l).2.1 with
        | none =>
          some (.error (.text ("EventType [" ++ (Tokenize l).2.1 ++ "] is not registered")))
        | some v => eventTypeLoop p fuel (s.SetEventType v) (Tokenize l).2.2
      else eventTypeLoop p fuel s (Tokenize l).2.2 := by
  rw [eventTypeLoop]
  rcases Tokenize l with ⟨t, lit, l1⟩
  cases t <;> simp

theorem eventTypeLoop_tokens {δ φ : Type} (p : Parser δ) (fuel : Nat) (s : Statement δ φ)
    (l : Lexer) (h : (tokens l).length < fuel) :
    eventTypeLoop p fuel s l = some (stream.eventTypeLoop p s (tokens l)) := by
  induction fuel generalizing s l with
  | zero => omega
  | succ fuel ih =>
    rw [eventTypeLoop_succ]
    rcases Tokenize_view l with ⟨h1, h2⟩ | ⟨t, lit, l1, hne, h2, h3, hlt⟩
    · simp [h1, h2, stream.eventTypeLoop]
    · rw [h3] at h
      simp only [List.length_cons] at h
      rw [h2, h3, stream.eventTypeLoop]
      simp only [hne, if_false]
      split_ifs
      · rfl
      · cases hreg : p.Registry lit with
        | none => rfl
        | some v => exact ih _ _ (by omega)
      · exact ih _ _ (by omega)

theorem ParseEventType_tokens {δ φ : Type} (p : Parser δ) (fuel : Nat) (s : Statement δ φ)
    (l : Lexer) (h : (tokens l).length < fuel) :
    ParseEventType p fuel s l = stream.ParseEventType p s (tokens l) := by
  have hs := skipTo_tokens FROM (by decide) fuel l h
  unfold ParseEventType stream.ParseEventType
  cases h1 : skipTo FROM fuel l with
  | none =>
    rw [h1] at hs
    simp only [Option.map_none'] at hs
    rw [← hs]
  | some l1 =>
    rw [h1] at hs
    simp only [Option.map_some'] at hs
    rw [← hs]
    have := stream.skipTo_length _ _ _ hs.symm
    exact eventTypeLoop_tokens p fuel s l1 (by omega)

theorem window_tokens {δ φ : Type} (s : Statement δ φ) (l1 : Lexer) :
    (match Tokenize l1 with
    | (token, literal, l2) =>
      if token = EOF then
        (some (.error (.text ("invalid token=" ++ literal))) :
          Option (Except GoError (Statement δ φ)))
      else if token = LENGTH then
        match TokenizeIdentifier l2 with
        | (_, lex, _) =>
          match strconv.Atoi lex with
          | .error err => some (.error (.caused ("atoi=" ++ lex ++ ": ") (.num err)))
          | .ok length => some (.ok ((s.SetWindow token).SetLength length))
      else if token = TIME then
        match TokenizeIdentifier l2 with
        | (_, lex, l3) =>
          match strconv.Atoi lex with
          | .error err => some (.error (.caused ("atoi=" ++ lex ++ ": ") (.num err)))
          | .ok ct =>
            match TokenizeIgnoreWhiteSpace l3 with
            | (SEC, _, _) => some (.ok ((s.SetWindow token).SetTime (wrap64 (ct * Second))))
            | (MIN, _, _) => some (.ok ((s.SetWindow token).SetTime (wrap64 (ct * Minute))))
            | _ => some (.ok (s.SetWindow token))
      else some (.error (.text ("invalid token=" ++ literal))))
    = some (stream.window s (tokens l1)) := by
  unfold stream.window
  have hv := view_Tokenize l1
  rcases hT : Tokenize l1 with ⟨token, literal, l2⟩
  rw [hT] at hv
  simp only [view] at hv
  rw [← hv]
  dsimp only
  have hv2 := view_TokenizeIdentifier l2
  rcases hT2 : TokenizeIdentifier l2 with ⟨t2, lex, l3⟩
  rw [hT2] at hv2
  simp only [view] at hv2
  rw [← hv2]
  dsimp only
  have hv3 := view_TokenizeIgnoreWhiteSpace l3
  rcases hT3 : TokenizeIgnoreWhiteSpace l3 with ⟨t3, lit3, l4⟩
  rw [hT3] at hv3
  simp only [view] at hv3
  rw [← hv3]
  split_ifs
  · rfl
  · cases strconv.Atoi lex <;> rfl
  · cases strconv.Atoi lex with
    | error e => rfl
    | ok ct => cases t3 <;> rfl
  · rfl

theorem ParseWindow_tokens {δ φ : Type} (fuel : Nat) (s : Statement δ φ)
    (l : Lexer) (h : (tokens l).length < fuel) :
    ParseWindow fuel s l = stream.ParseWindow s (tokens l) := by
  have hs := skipTo_tokens DOT (by decide) fuel l h
  unfold ParseWindow stream.ParseWindow
  cases h1 : skipTo DOT fuel l with
  | none =>
    rw [h1] at hs
    simp only [Option.map_none'] at hs
    rw [← hs]
  | some l1 =>
    rw [h1] at hs
    simp only [Option.map_some'] at hs
    rw [← hs]
    exact window_tokens s l1

theorem predicate_tokens {δ φ : Type} (H : Host δ φ) (s : Statement δ φ)
    (list : List (expr.Where φ)) (l : Lexer) :
    viewE (predicate H s list l) = stream.predicate H s list (tokens l) := by
  unfold predicate stream.predicate
  have hv := view_TokenizeIdentifier l
  rcases hT : TokenizeIdentifier l with ⟨t1, name, l1⟩
  rw [hT] at hv
  simp only [view] at hv
  rw [← hv]
  dsimp only
  have hv2 := view_TokenizeIgnoreIdentifier l1
  rcases hT2 : TokenizeIgnoreIdentifier l1 with ⟨sel, lit2, l2⟩
  rw [hT2] at hv2
  simp only [view] at hv2
  rw [← hv2]
  dsimp only
  have hv3 := view_TokenizeIdentifier l2
  rcases hT3 : TokenizeIdentifier l2 with ⟨t3, value, l3⟩
  rw [hT3] at hv3
  simp only [view] at hv3
  rw [← hv3]
  dsimp only
  have hv4 := view_TokenizeIdentifier l3
  rcases hT4 : TokenizeIdentifier l3 with ⟨t4, value2, l4⟩
  rw [hT4] at hv4
  simp only [view] at hv4
  rw [← hv4]
  dsimp only
  split
  · rfl
  · split_ifs
    · cases H.ParseFloat (value ++ "." ++ value2) <;> rfl
    · rfl

theorem whereLoop_succ {δ φ : Type} (H : Host δ φ) (s : Statement δ φ) (fuel : Nat)
    (list : List (expr.Where φ)) (l : Lexer) :
    whereLoop H s (fuel + 1) list l =
      if (Tokenize l).1 = EOF then some (.ok list)
      else if (Tokenize l).1 ≠ WHERE ∧ (Tokenize l).1 ≠ AND ∧ (Tokenize l).1 ≠ OR then
        whereLoop H s fuel list (Tokenize l).2.2
      else
        match predicate H s list (Tokenize l).2.2 with
        | .error err => some (.error err)
        | .ok (list1, l2) => whereLoop H s fuel list1 l2 := by
  rw [whereLoop]

theorem whereLoop_tokens {δ φ : Type} (H : Host δ φ) (s : Statement δ φ) (fuel : Nat)
    (list : List (expr.Where φ)) (l : Lexer) (h : (tokens l).length < fuel) :
    whereLoop H s fuel list l = some (stream.whereLoop H s list (tokens l)) := by
  induction fuel generalizing list l with
  | zero => omega
  | succ fuel ih =>
    rw [whereLoop_succ]
    rcases Tokenize_view l with ⟨h1, h2⟩ | ⟨t, lit, l1, hne, h2, h3, hlt⟩
    · simp [h1, h2, stream.whereLoop]
    · rw [h3] at h
      simp only [List.length_cons] at h
      rw [h2, h3, stream.whereLoop]
      simp only [hne, if_false]
      split_ifs
      · exact ih _ _ (by omega)
      · have hp := predicate_tokens H s list l1
        cases hP : predicate H s list l1 with
        | error err =>
          rw [hP] at hp
          simp only [viewE] at hp
          dsimp only
          split
          · rename_i h5; rw [← hp] at h5; cases h5; rfl
          · rename_i h5; rw [← hp] at h5; cases h5
        | ok r =>
          obtain ⟨list1, l2⟩ := r
          rw [hP] at hp
          simp only [viewE] at hp
          have hlen := stream.predicate_length H s _ _ _ _ hp.symm
          dsimp only
          split
          · rename_i h5; rw [← hp] at h5; cases h5
          · rename_i h5
            rw [← hp] at h5
            cases h5
            exact ih _ _ (by omega)

theorem ParseWhere_tokens {δ φ : Type} (H : Host δ φ) (fuel : Nat) (s : Statement δ φ)
    (l : Lexer) (h : (tokens l).length < fuel) :
    ParseWhere H fuel s l = stream.ParseWhere H s (tokens l) := by
  have hs := skipTo_tokens DOT (by decide) fuel l h
  unfold ParseWhere stream.ParseWhere
  cases h1 : skipTo DOT fuel l with
  | none =>
    rw [h1] at hs
    simp only [Option.map_none'] at hs
    rw [← hs]
  | some l1 =>
    rw [h1] at hs
    simp only [Option.map_some'] at hs
    rw [← hs]
    have := stream.skipTo_length _ _ _ hs.symm
    dsimp only
    rw [whereLoop_tokens H s fuel [] l1 (by omega)]
    cases stream.whereLoop H s [] (tokens l1) <;> rfl

theorem Parse_tokens {δ φ : Type} (p : Parser δ) (H : Host δ φ) (fuel : Nat) (query : String)
    (h : (tokens (New query)).length < fuel) :
    p.Parse H fuel query = stream.Parse p H (tokens (New query)) := by
  unfold Parser.Parse stream.Parse
  have hv := view_Tokenize (New query)
  rcases hT : Tokenize (New query) with ⟨token, literal, l2⟩
  rw [hT] at hv
  simp only [view] at hv
  rw [← hv]
  dsimp only
  rw [ParseEventType_tokens p fuel _ _ h]
  split_ifs
  · rfl
  · cases stream.ParseEventType p (statement.New : Statement δ φ) (tokens (New query)) with
    | none => rfl
    | some r1 =>
      cases r1 with
      | error e => rfl
      | ok s1 =>
        dsimp only
        rw [ParseFunction_tokens H fuel _ _ h]
        cases stream.ParseFunction H s1 (tokens (New query)) with
        | error e => rfl
        | ok s2 =>
          dsimp only
          rw [ParseWindow_tokens fuel _ _ h]
          cases stream.ParseWindow s2 (tokens (New query)) with
          | none => rfl
          | some r3 =>
            cases r3 with
            | error e => rfl
            | ok s3 =>
              dsimp only
              rw [ParseWhere_tokens H fuel _ _ h]

theorem Tokenize_cons_eq (c : Char) (cs : List Char) :
    Tokenize ⟨c :: cs⟩ =
      (runToken c (c :: cs.takeWhile (runClass c)), String.mk (c :: cs.takeWhile (runClass c)),
        ⟨cs.dropWhile (runClass c)⟩) := by
  simp only [Tokenize, runToken, runClass]
  split_ifs
  · rfl
  · rfl
  · rfl
  · have h1 : cs.takeWhile (fun _ => false) = [] := by cases cs <;> simp [List.takeWhile]
    have h2 : cs.dropWhile (fun _ => false) = cs := by cases cs <;> simp [List.dropWhile]
    rw [h1, h2]
    cases punct c <;> rfl

theorem tokens_nil : tokens ⟨[]⟩ = [] := rfl

theorem tokens_cons (c : Char) (cs : List Char) :
    tokens ⟨c :: cs⟩ =
      (runToken c (c :: cs.takeWhile (runClass c)), String.mk (c :: cs.takeWhile (runClass c)))
        :: tokens ⟨cs.dropWhile (runClass c)⟩ := by
  rcases Tokenize_view ⟨c :: cs⟩ with ⟨_, h2⟩ | ⟨t, lit, l1, _, h2, h3, _⟩
  · exact absurd (congrArg Prod.fst h2) (Tokenize_cons ⟨c :: cs⟩ c cs rfl).1
  · rw [Tokenize_cons_eq] at h2
    simp only [Prod.mk.injEq] at h2
    rw [h3, ← h2.1, ← h2.2.1, ← h2.2.2]

theorem runClass_cases (c : Char) :
    runClass c = Char.isWhitespace ∨ runClass c = Char.isAlpha ∨ runClass c = Char.isDigit ∨
      runClass c = fun _ => false := by
  unfold runClass
  split_ifs <;> simp

theorem runClass_self (c y : Char) (h : runClass c y = true) : runClass c c = true := by
  unfold runClass at *
  split_ifs at * <;> simp_all

theorem runClass_joins (c x y : Char) (hx : runClass c x = true) (hy : runClass c y = true) :
    joins x y = true := by
  rcases runClass_cases c with h | h | h | h <;> rw [h] at hx hy <;> simp_all [joins]

theorem takeWhile_append_stop {α : Type} (p : α → Bool) (xs ys : List α)
    (h : xs.dropWhile p ≠ [] ∨ ∀ y ∈ ys.head?, p y = false) :
    (xs ++ ys).takeWhile p = xs.takeWhile p ∧
      (xs ++ ys).dropWhile p = xs.dropWhile p ++ ys := by
  induction xs with
  | nil =>
    cases ys with
    | nil => simp
    | cons y ys =>
      have hy : p y = false := by
        rcases h with h | h
        · simp at h
        · exact h y (by simp)
      simp [List.takeWhile, List.dropWhile, hy]
  | cons x xs ih =>
    by_cases hx : p x = true
    · have := ih (by simpa [List.dropWhile, hx] using h)
      simp [List.takeWhile, List.dropWhile, hx, this]
    · simp [List.takeWhile, List.dropWhile, hx]

theorem dropWhile_nil_all {α : Type} (p : α → Bool) (xs : List α) (h : xs.dropWhile p = []) :
    ∀ x ∈ xs, p x = true := by
  induction xs with
  | nil => simp
  | cons x xs ih =>
    by_cases hx : p x = true
    · simp only [List.dropWhile, hx] at h
      intro z hz
      rcases List.mem_cons.mp hz with rfl | hz
      · exact hx
      · exact ih h z hz
    · simp [List.dropWhile, hx] at h

theorem getLast?_dropWhile {α : Type} (p : α → Bool) (xs : List α) (h : xs.dropWhile p ≠ []) :
    (xs.dropWhile p).getLast? = xs.getLast? := by
  obtain ⟨pre, hpre⟩ := List.dropWhile_suffix (l := xs) p
  conv_rhs => rw [← hpre]
  rw [List.getLast?_append_of_ne_nil _ h]

theorem tokens_append_aux (n : Nat) (a b : List Char) (hn : a.length ≤ n)
    (h : separated a b = true) : tokens ⟨a ++ b⟩ = tokens ⟨a⟩ ++ tokens ⟨b⟩ := by
  induction n generalizing a with
  | zero =>
    have : a = [] := List.length_eq_zero.mp (Nat.le_zero.mp hn)
    subst this
    simp [tokens_nil]
  | succ n ih =>
    cases a with
    | nil => simp [tokens_nil]
    | cons c cs =>
      have hstop : cs.dropWhile (runClass c) ≠ [] ∨ ∀ y ∈ b.head?, runClass c y = false := by
        by_cases hd : cs.dropWhile (runClass c) = []
        · right
          intro y hy
          by_contra hcy
          simp only [Bool.not_eq_false] at hcy
          have hall := dropWhile_nil_all _ _ hd
          have hc := runClass_self c y hcy
          obtain ⟨x, hx⟩ : ∃ x, (c :: cs).getLast? = some x := by
            cases hl : (c :: cs).getLast? with
            | none => simp at hl
            | some x => exact ⟨x, rfl⟩
          have hxm : x ∈ c :: cs := List.mem_of_getLast?_eq_some hx
          have hxc : runClass c x = true := by
            rcases List.mem_cons.mp hxm with rfl | hxm
            · exact hc
            · exact hall x hxm
          have hj := runClass_joins c x y hxc hcy
          have hy' : b.head? = some y := by simpa using hy
          simp [separated, hx, hy', hj] at h
        · left; exact hd
      have hta := takeWhile_append_stop (runClass c) cs b hstop
      have hsep : separated (cs.dropWhile (runClass c)) b = true := by
        by_cases hd : cs.dropWhile (runClass c) = []
        · simp [separated, hd]
        · have hcs : cs ≠ [] := by
            intro h0
            simp [h0] at hd
          have : (c :: cs).getLast? = cs.getLast? := by
            cases cs with
            | nil => exact absurd rfl hcs
            | cons d ds => simp [List.getLast?_cons_cons]
          simp only [separated, getLast?_dropWhile _ _ hd, ← this]
          exact h
      have hlen : (cs.dropWhile (runClass c)).length ≤ n := by
        have := (List.dropWhile_sublist (l := cs) (runClass c)).length_le
        simp only [List.length_cons] at hn
        omega
      rw [List.cons_append, tokens_cons, tokens_cons, hta.1, hta.2, ih _ hlen hsep]
      rfl

theorem tokens_append (a b : List Char) (h : separated a b = true) :
    tokens ⟨a ++ b⟩ = tokens ⟨a⟩ ++ tokens ⟨b⟩ :=
  tokens_append_aux a.length a b (le_refl _) h

theorem alpha_not_ws (c : Char) (h : c.isAlpha = true) : c.isWhitespace = false := by
  simp only [Char.isWhitespace, Bool.or_eq_false_iff, decide_eq_false_iff_not]
  refine ⟨⟨⟨?_, ?_⟩, ?_⟩, ?_⟩ <;> (intro hc; subst hc; revert h; decide)

theorem digit_not_ws (c : Char) (h : c.isDigit = true) : c.isWhitespace = false := by
  simp only [Char.isWhitespace, Bool.or_eq_false_iff, decide_eq_false_iff_not]
  refine ⟨⟨⟨?_, ?_⟩, ?_⟩, ?_⟩ <;> (intro hc; subst hc; revert h; decide)

theorem digit_not_alpha (c : Char) (h : c.isDigit = true) : c.isAlpha = false := by
  simp only [Char.isDigit, Char.isAlpha, Char.isUpper, Char.isLower, Bool.and_eq_true,
    decide_eq_true_eq, Bool.or_eq_false_iff, Bool.and_eq_false_iff, decide_eq_false_iff_not,
    UInt32.le_def, ge_iff_le, BitVec.le_def] at *
  have e1 : (UInt32.toBitVec 48).toNat = 48 := rfl
  have e2 : (UInt32.toBitVec 57).toNat = 57 := rfl
  have e3 : (UInt32.toBitVec 65).toNat = 65 := rfl
  have e4 : (UInt32.toBitVec 90).toNat = 90 := rfl
  have e5 : (UInt32.toBitVec 97).toNat = 97 := rfl
  have e6 : (UInt32.toBitVec 122).toNat = 122 := rfl
  rw [e1, e2] at h
  rw [e3, e4, e5, e6]
  omega

theorem tokens_eq_nil (cs : List Char) (h : tokens ⟨cs⟩ = []) : cs = [] := by
  cases cs with
  | nil => rfl
  | cons c cs => rw [tokens_cons] at h; cases h

theorem runClass_digit (c : Char) (h : c.isDigit = true) : runClass c = Char.isDigit := by
  simp [runClass, digit_not_ws c h, digit_not_alpha c h, h]

theorem runToken_digit (c : Char) (run : List Char) (h : c.isDigit = true) :
    runToken c run = IDENTIFIER := by
  simp [runToken, digit_not_ws c h, digit_not_alpha c h, h]

theorem takeWhile_all {α : Type} (p : α → Bool) (xs : List α) (h : ∀ x ∈ xs, p x = true) :
    xs.takeWhile p = xs ∧ xs.dropWhile p = [] := by
  induction xs with
  | nil => simp
  | cons x xs ih =>
    have hx : p x = true := h x (by simp)
    have := ih (fun y hy => h y (by simp [hy]))
    simp [List.takeWhile, List.dropWhile, hx, this]

theorem isNumber_isIdentifier (n : String) (h : isNumber n = true) : isIdentifier n = true := by
  simp only [isNumber, Bool.and_eq_true, Bool.not_eq_true', List.all_eq_true] at h
  obtain ⟨hne, hall⟩ := h
  cases hd : n.data with
  | nil => simp [hd] at hne
  | cons c cs =>
    rw [hd] at hall
    have hc : c.isDigit = true := hall c (by simp)
    have ht := takeWhile_all Char.isDigit cs (fun y hy => hall y (by simp [hy]))
    have hn : n = String.mk (c :: cs) := by rw [← hd]
    simp only [isIdentifier, hd, tokens_cons, runClass_digit c hc, runToken_digit c _ hc, ht.1,
      ht.2, tokens_nil, hn]
    simp

theorem isIdentifier_head (s : String) (h : isIdentifier s = true) :
    ∃ c cs, s.data = c :: cs ∧ c.isWhitespace = false := by
  simp only [isIdentifier, beq_iff_eq] at h
  cases hd : s.data with
  | nil => rw [hd, tokens_nil] at h; cases h
  | cons c cs =>
    refine ⟨c, cs, rfl, ?_⟩
    rw [hd, tokens_cons] at h
    simp only [List.cons.injEq, Prod.mk.injEq] at h
    by_contra hw
    simp only [Bool.not_eq_false] at hw
    simp [runToken, hw] at h

theorem isIdentifier_last (s : String) (h : isIdentifier s = true) :
    ∃ x, s.data.getLast? = some x ∧ x.isWhitespace = false := by
  obtain ⟨c, cs, hd, hc⟩ := isIdentifier_head s h
  simp only [isIdentifier, beq_iff_eq] at h
  rw [hd, tokens_cons] at h
  simp only [List.cons.injEq, Prod.mk.injEq] at h
  have hall := dropWhile_nil_all _ _ (tokens_eq_nil _ h.2)
  obtain ⟨x, hx⟩ : ∃ x, (c :: cs).getLast? = some x := by
    cases hl : (c :: cs).getLast? with
    | none => simp at hl
    | some x => exact ⟨x, rfl⟩
  refine ⟨x, by rw [hd]; exact hx, ?_⟩
  rcases List.mem_cons.mp (List.mem_of_getLast?_eq_some hx) with rfl | hxm
  · exact hc
  · have hcx := hall x hxm
    unfold runClass at hcx
    rw [if_neg (by simp [hc])] at hcx
    split_ifs at hcx
    · exact alpha_not_ws x hcx
    · exact digit_not_ws x hcx

theorem separated_head_unclassed (a b : List Char) (y : Char) (hb : b.head? = some y)
    (hy : unclassed y = true) : separated a b = true := by
  simp only [unclassed, Bool.and_eq_true, Bool.not_eq_true'] at hy
  cases ha : a.getLast? with
  | none => simp [separated, ha]
  | some x => simp [separated, ha, hb, joins, hy.1.1, hy.1.2, hy.2]

theorem separated_last_unclassed (a b : List Char) (x : Char) (ha : a.getLast? = some x)
    (hx : unclassed x = true) : separated a b = true := by
  simp only [unclassed, Bool.and_eq_true, Bool.not_eq_true'] at hx
  cases hb : b.head? with
  | none => simp [separated, ha, hb]
  | some y => simp [separated, ha, hb, joins, hx.1.1, hx.1.2, hx.2]

theorem separated_space_identifier (a : List Char) (s : String) (rest : List Char)
    (ha : a.getLast? = some ' ') (hs : isIdentifier s = true) :
    separated a (s.data ++ rest) = true := by
  obtain ⟨c, cs, hd, hc⟩ := isIdentifier_head s hs
  have h1 : Char.isAlpha ' ' = false := by decide
  have h2 : Char.isDigit ' ' = false := by decide
  simp [separated, ha, hd, joins, hc, h1, h2]

theorem separated_identifier_space (s : String) (b : List Char)
    (hb : b.head? = some ' ') (hs : isIdentifier s = true) :
    separated s.data b = true := by
  obtain ⟨x, hx, hw⟩ := isIdentifier_last s hs
  have h1 : Char.isAlpha ' ' = false := by decide
  have h2 : Char.isDigit ' ' = false := by decide
  simp [separated, hx, hb, joins, hw, h1, h2]

theorem tokens_identifier (s : String) (hs : isIdentifier s = true) :
    tokens ⟨s.data⟩ = [(IDENTIFIER, s)] := by
  simpa [isIdentifier] using hs

/-! ## Results do not depend on the fuel -/

theorem tokens_ne_EOF (l : Lexer) : ∀ t ∈ tokens l, t.1 ≠ EOF := by
  generalize hn : l.input.length = n
  induction n using Nat.strongRecOn generalizing l with
  | _ n ih =>
    rcases Tokenize_view l with ⟨h1, _⟩ | ⟨t, lit, l1, hne, _, h3, hlt⟩
    · simp [h1]
    · intro x hx
      rw [h3] at hx
      rcases List.mem_cons.mp hx with rfl | hx
      · exact hne
      · exact ih l1.input.length (by omega) l1 rfl x hx

theorem tokens_length_le (l : Lexer) : (tokens l).length ≤ l.input.length := by
  generalize hn : l.input.length = n
  induction n using Nat.strongRecOn generalizing l with
  | _ n ih =>
    rcases Tokenize_view l with ⟨h1, _⟩ | ⟨t, lit, l1, _, _, h3, hlt⟩
    · simp [h1]
    · have := ih l1.input.length (by omega) l1 rfl
      rw [h3]
      simp only [List.length_cons]
      omega

theorem tokens_New_length (query : String) :
    (tokens (lexer.New query)).length ≤ query.length :=
  tokens_length_le (lexer.New query)

theorem skipTo_mono (t : Token) (fuel : Nat) (l l1 : Lexer) (h : skipTo t fuel l = some l1) :
    skipTo t (fuel + 1) l = some l1 := by
  induction fuel generalizing l with
  | zero => cases h
  | succ fuel ih =>
    rw [skipTo_succ] at h ⊢
    split_ifs at h ⊢
    · exact h
    · exact ih _ h

theorem ParseFunction_mono {δ φ : Type} (H : Host δ φ) (fuel : Nat) (s : Statement δ φ)
    (l : Lexer) (r : Except GoError (Statement δ φ)) (h : ParseFunction H fuel s l = some r) :
    ParseFunction H (fuel + 1) s l = some r := by
  induction fuel generalizing s l with
  | zero => cases h
  | succ fuel ih =>
    rw [ParseFunction_succ] at h ⊢
    split_ifs at h ⊢
    · exact h
    · exact h
    · exact ih _ _ h
    · exact ih _ _ h
    · cases hagg : stream.aggregateOf (Tokenize l).1 with
      | none => rw [hagg] at h; exact ih _ _ h
      | some mk => rw [hagg] at h; exact ih _ _ h

theorem eventTypeLoop_mono {δ φ : Type} (p : Parser δ) (fuel : Nat) (s : Statement δ φ)
    (l : Lexer) (r : Except GoError (Statement δ φ)) (h : eventTypeLoop p fuel s l = some r) :
    eventTypeLoop p (fuel + 1) s l = some r := by
  induction fuel generalizing s l with
  | zero => cases h
  | succ fuel ih =>
    rw [eventTypeLoop_succ] at h ⊢
    split_ifs at h ⊢
    · exact h
    · exact h
    · cases hreg : p.Registry (Tokenize l).2.1 with
      | none => rw [hreg] at h; exact h
      | some v => rw [hreg] at h; exact ih _ _ h
    · exact ih _ _ h

theorem whereLoop_mono {δ φ : Type} (H : Host δ φ) (s : Statement δ φ) (fuel : Nat)
    (list : List (expr.Where φ)) (l : Lexer) (r : Except GoError (List (expr.Where φ)))
    (h : whereLoop H s fuel list l = some r) : whereLoop H s (fuel + 1) list l = some r := by
  induction fuel generalizing list l with
  | zero => cases h
  | succ fuel ih =>
    rw [whereLoop_succ] at h ⊢
    split_ifs at h ⊢
    · exact h
    · exact ih _ _ h
    · cases hP : predicate H s list (Tokenize l).2.2 with
      | error err => rw [hP] at h; exact h
      | ok x => rw [hP] at h; exact ih _ _ h

theorem fuel_le {α : Type} (f : Nat → Option α)
    (hstep : ∀ n r, f n = some r → f (n + 1) = some r) (n m : Nat) (hnm : n ≤ m) (r : α)
    (h : f n = some r) : f m = some r := by
  induction hnm with
  | refl => exact h
  | step _ ih => exact hstep _ _ ih

theorem ParseEventType_mono {δ φ : Type} (p : Parser δ) (s : Statement δ φ) (l : Lexer)
    (fuel : Nat) (r : Except GoError (Statement δ φ)) (h : ParseEventType p fuel s l = some r) :
    ParseEventType p (fuel + 1) s l = some r := by
  unfold ParseEventType at h ⊢
  cases h1 : skipTo FROM fuel l with
  | none => rw [h1] at h; cases h
  | some l1 =>
    rw [h1] at h
    rw [skipTo_mono _ _ _ _ h1]
    exact eventTypeLoop_mono p fuel s l1 r h

theorem ParseWindow_mono {δ φ : Type} (s : Statement δ φ) (l : Lexer)
    (fuel : Nat) (r : Except GoError (Statement δ φ)) (h : ParseWindow fuel s l = some r) :
    ParseWindow (fuel + 1) s l = some r := by
  unfold ParseWindow at h ⊢
  cases h1 : skipTo DOT fuel l with
  | none => rw [h1] at h; cases h
  | some l1 =>
    rw [h1] at h
    rw [skipTo_mono _ _ _ _ h1]
    exact h

theorem ParseWhere_mono {δ φ : Type} (H : Host δ φ) (s : Statement δ φ) (l : Lexer)
    (fuel : Nat) (r : Except GoError (Statement δ φ)) (h : ParseWhere H fuel s l = some r) :
    ParseWhere H (fuel + 1) s l = some r := by
  unfold ParseWhere at h ⊢
  cases h1 : skipTo DOT fuel l with
  | none => rw [h1] at h; cases h
  | some l1 =>
    rw [h1] at h
    rw [skipTo_mono _ _ _ _ h1]
    dsimp only at h ⊢
    cases h2 : whereLoop H s fuel [] l1 with
    | none => rw [h2] at h; cases h
    | some r2 =>
      rw [h2] at h
      rw [whereLoop_mono H s fuel [] l1 r2 h2]
      exact h

theorem ParseEventType_sound {δ φ : Type} (p : Parser δ) (fuel : Nat) (s : Statement δ φ)
    (l : Lexer) (r : Except GoError (Statement δ φ)) (h : ParseEventType p fuel s l = some r) :
    stream.ParseEventType p s (tokens l) = some r := by
  have := fuel_le (fun n => ParseEventType p n s l) (ParseEventType_mono p s l) fuel
    (max fuel ((tokens l).length + 1)) (le_max_left _ _) r h
  rw [← ParseEventType_tokens p _ s l (lt_of_lt_of_le (Nat.lt_succ_self _) (le_max_right _ _))]
  exact this

theorem ParseFunction_sound {δ φ : Type} (H : Host δ φ) (fuel : Nat) (s : Statement δ φ)
    (l : Lexer) (r : Except GoError (Statement δ φ)) (h : ParseFunction H fuel s l = some r) :
    stream.ParseFunction H s (tokens l) = r := by
  have := fuel_le (fun n => ParseFunction H n s l) (fun n r => ParseFunction_mono H n s l r) fuel
    (max fuel ((tokens l).length + 1)) (le_max_left _ _) r h
  simp only at this
  rw [ParseFunction_tokens H _ s l
    (lt_of_lt_of_le (Nat.lt_succ_self _) (le_max_right _ _))] at this
  exact Option.some.inj this

theorem ParseWindow_sound {δ φ : Type} (fuel : Nat) (s : Statement δ φ)
    (l : Lexer) (r : Except GoError (Statement δ φ)) (h : ParseWindow fuel s l = some r) :
    stream.ParseWindow s (tokens l) = some r := by
  have := fuel_le (fun n => ParseWindow n s l) (ParseWindow_mono s l) fuel
    (max fuel ((tokens l).length + 1)) (le_max_left _ _) r h
  rw [← ParseWindow_tokens _ s l (lt_of_lt_of_le (Nat.lt_succ_self _) (le_max_right _ _))]
  exact this

theorem ParseWhere_sound {δ φ : Type} (H : Host δ φ) (fuel : Nat) (s : Statement δ φ)
    (l : Lexer) (r : Except GoError (Statement δ φ)) (h : ParseWhere H fuel s l = some r) :
    stream.ParseWhere H s (tokens l) = some r := by
  have := fuel_le (fun n => ParseWhere H n s l) (ParseWhere_mono H s l) fuel
    (max fuel ((tokens l).length + 1)) (le_max_left _ _) r h
  rw [← ParseWhere_tokens H _ s l (lt_of_lt_of_le (Nat.lt_succ_self _) (le_max_right _ _))]
  exact this

theorem Parse_sound {δ φ : Type} (p : Parser δ) (H : Host δ φ) (fuel : Nat) (query : String)
    (r : Except GoError (Statement δ φ)) (h : p.Parse H fuel query = some r) :
    stream.Parse p H (tokens (lexer.New query)) = some r := by
  unfold Parser.Parse at h
  unfold stream.Parse
  have hv := view_Tokenize (lexer.New query)
  rcases hT : Tokenize (lexer.New query) with ⟨token, literal, l2⟩
  rw [hT] at hv h
  simp only [view] at hv
  rw [← hv]
  dsimp only at h ⊢
  split_ifs at h ⊢
  · exact h
  · cases h1 : ParseEventType p fuel (statement.New : Statement δ φ) (lexer.New query) with
    | none => rw [h1] at h; cases h
    | some r1 =>
      rw [h1] at h
      rw [ParseEventType_sound p fuel _ _ r1 h1]
      cases r1 with
      | error e => exact h
      | ok s1 =>
        dsimp only at h ⊢
        cases h2 : ParseFunction H fuel s1 (lexer.New query) with
        | none => rw [h2] at h; cases h
        | some r2 =>
          rw [h2] at h
          rw [ParseFunction_sound H fuel _ _ r2 h2]
          cases r2 with
          | error e => exact h
          | ok s2 =>
            dsimp only at h ⊢
            cases h3 : ParseWindow fuel s2 (lexer.New query) with
            | none => rw [h3] at h; cases h
            | some r3 =>
              rw [h3] at h
              rw [ParseWindow_sound fuel _ _ r3 h3]
              cases r3 with
              | error e => exact h
              | ok s3 =>
                dsimp only at h ⊢
                cases h4 : ParseWhere H fuel s3 (lexer.New query) with
                | none => rw [h4] at h; cases h
                | some r4 =>
                  rw [h4] at h
                  rw [ParseWhere_sound H fuel _ _ r4 h4]
                  exact h

theorem Parse_of_stream {δ φ : Type} (p : Parser δ) (H : Host δ φ) (fuel : Nat)
    (query : String) (h : query.length < fuel) :
    p.Parse H fuel query = stream.Parse p H (tokens (lexer.New query)) :=
  Parse_tokens p H fuel query (lt_of_le_of_lt (tokens_New_length query) h)

/-! ## The passes on token streams -/

theorem stream.skipTo_eq_none (t : Token) (ts : stream.Tokens) (h : ∀ x ∈ ts, x.1 ≠ t) :
    stream.skipTo t ts = none := by
  induction ts with
  | nil => rfl
  | cons x ts ih =>
    obtain ⟨t1, lit⟩ := x
    have h1 : t1 ≠ t := h (t1, lit) (by simp)
    simp only [stream.skipTo, h1, if_false]
    exact ih (fun y hy => h y (by simp [hy]))

theorem stream.skipTo_append (t : Token) (pre rest : stream.Tokens) (lit : String)
    (h : ∀ x ∈ pre, x.1 ≠ t) : stream.skipTo t (pre ++ (t, lit) :: rest) = some rest := by
  induction pre with
  | nil => simp [stream.skipTo]
  | cons x pre ih =>
    obtain ⟨t1, lit1⟩ := x
    have h1 : t1 ≠ t := h (t1, lit1) (by simp)
    simp only [List.cons_append, stream.skipTo, h1, if_false]
    exact ih (fun y hy => h y (by simp [hy]))

theorem stream.skipTo_some (t : Token) (ts ts1 : stream.Tokens)
    (h : stream.skipTo t ts = some ts1) :
    ∃ pre lit, ts = pre ++ (t, lit) :: ts1 ∧ ∀ x ∈ pre, x.1 ≠ t := by
  induction ts with
  | nil => cases h
  | cons x ts ih =>
    obtain ⟨t1, lit1⟩ := x
    simp only [stream.skipTo] at h
    split_ifs at h with h1
    · simp only [Option.some.injEq] at h
      subst h
      subst h1
      exact ⟨[], lit1, rfl, by simp⟩
    · obtain ⟨pre, lit, hts, hpre⟩ := ih h
      refine ⟨(t1, lit1) :: pre, lit, by simp [hts], ?_⟩
      intro y hy
      rcases List.mem_cons.mp hy with rfl | hy
      · exact h1
      · exact hpre y hy

theorem stream.eventTypeLoop_skip {δ φ : Type} (p : Parser δ) (s : Statement δ φ)
    (mid rest : stream.Tokens)
    (h : ∀ x ∈ mid, x.1 ≠ EOF ∧ x.1 ≠ DOT ∧ x.1 ≠ IDENTIFIER) :
    stream.eventTypeLoop p s (mid ++ rest) = stream.eventTypeLoop p s rest := by
  induction mid with
  | nil => rfl
  | cons x mid ih =>
    obtain ⟨t1, lit1⟩ := x
    have h1 := h (t1, lit1) (by simp)
    simp only [List.cons_append, stream.eventTypeLoop, h1.1, h1.2.1, h1.2.2, if_false]
    exact ih (fun y hy => h y (by simp [hy]))

theorem stream.eventTypeLoop_ok {δ φ : Type} (p : Parser δ) (s0 s1 : Statement δ φ)
    (ts : stream.Tokens) (h : stream.eventTypeLoop p s0 ts = .ok s1) :
    ∃ span ld rest, ts = span ++ (DOT, ld) :: rest ∧ (∀ x ∈ span, x.1 ≠ DOT) ∧
      (∀ name ∈ identifiers span, ∃ v, p.Registry name = some v) ∧
      s1 = { s0 with EventType :=
              match (identifiers span).getLast? with
              | none => s0.EventType
              | some name => p.Registry name } := by
  induction ts generalizing s0 with
  | nil => simp [stream.eventTypeLoop] at h
  | cons x ts ih =>
    obtain ⟨t, lit⟩ := x
    simp only [stream.eventTypeLoop] at h
    split_ifs at h with h1 h2 h3
    · subst h2
      simp only [Except.ok.injEq] at h
      exact ⟨[], lit, ts, rfl, by simp, by simp [identifiers], by simp [identifiers, h]⟩
    · subst h3
      cases hreg : p.Registry lit with
      | none => rw [hreg] at h; cases h
      | some v =>
        rw [hreg] at h
        obtain ⟨span, ld, rest, hts, hspan, hids, hs1⟩ := ih _ h
        refine ⟨(IDENTIFIER, lit) :: span, ld, rest, by simp [hts], ?_, ?_, ?_⟩
        · intro y hy
          rcases List.mem_cons.mp hy with rfl | hy
          · exact h2
          · exact hspan y hy
        · intro name hname
          have : name = lit ∨ name ∈ identifiers span := by
            simpa [identifiers] using hname
          rcases this with rfl | hn
          · exact ⟨v, hreg⟩
          · exact hids name hn
        · rw [hs1]
          have hid : identifiers ((IDENTIFIER, lit) :: span) = lit :: identifiers span := by
            simp [identifiers]
          rw [hid]
          cases hl : identifiers span with
          | nil => simp [Statement.SetEventType, hreg]
          | cons a as =>
            rw [List.getLast?_cons_cons]
            cases hg : (a :: as).getLast? with
            | none => simp at hg
            | some z => simp [Statement.SetEventType]
    · obtain ⟨span, ld, rest, hts, hspan, hids, hs1⟩ := ih _ h
      have hid : identifiers ((t, lit) :: span) = identifiers span := by
        simp [identifiers, h3]
      refine ⟨(t, lit) :: span, ld, rest, by simp [hts], ?_, ?_, ?_⟩
      · intro y hy
        rcases List.mem_cons.mp hy with rfl | hy
        · exact h2
        · exact hspan y hy
      · rw [hid]; exact hids
      · rw [hid]; exact hs1

theorem keeps_trans {δ φ : Type} (s s1 s2 : Statement δ φ) (h1 : keeps s s1)
    (h2 : keeps s1 s2) : keeps s s2 :=
  ⟨h2.1.trans h1.1, h2.2.1.trans h1.2.1, h2.2.2.1.trans h1.2.2.1,
    h2.2.2.2.1.trans h1.2.2.2.1, h2.2.2.2.2.trans h1.2.2.2.2⟩

theorem SetFunction_keeps {δ φ : Type} (s : Statement δ φ) (f : expr.Function) :
    keeps s (s.SetFunction f) :=
  ⟨rfl, rfl, rfl, rfl, rfl⟩

theorem aggregate_keeps {δ φ : Type} (H : Host δ φ) (s : Statement δ φ) (name : String)
    (a b : expr.Function) : keeps s (aggregate H s name a b) := by
  unfold aggregate keeps
  dsimp only
  split_ifs <;> simp [Statement.SetFunction]

theorem stream.ParseFunction_keeps {δ φ : Type} (H : Host δ φ) (n : Nat) (s s1 : Statement δ φ)
    (ts : stream.Tokens) (hn : ts.length ≤ n) (h : stream.ParseFunction H s ts = .ok s1) :
    keeps s s1 := by
  induction n generalizing s ts with
  | zero =>
    have : ts = [] := List.length_eq_zero.mp (Nat.le_zero.mp hn)
    subst this
    simp [stream.ParseFunction] at h
  | succ n ih =>
    cases ts with
    | nil => simp [stream.ParseFunction] at h
    | cons x ts =>
      obtain ⟨t, lit⟩ := x
      simp only [List.length_cons] at hn
      rw [stream.ParseFunction] at h
      split_ifs at h
      · simp only [Except.ok.injEq] at h
        subst h
        exact ⟨rfl, rfl, rfl, rfl, rfl⟩
      · exact keeps_trans _ _ _ (SetFunction_keeps s _) (ih _ _ (by omega) h)
      · exact keeps_trans _ _ _ (SetFunction_keeps s _) (ih _ _ (by omega) h)
      · cases hagg : stream.aggregateOf t with
        | none =>
          rw [hagg] at h
          exact ih _ _ (by omega) h
        | some mk =>
          rw [hagg] at h
          have hlen := stream.identifier_length ts
          exact keeps_trans _ _ _ (aggregate_keeps H s _ _ _) (ih _ _ (by omega) h)

theorem stream.window_ok {δ φ : Type} (s s1 : Statement δ φ) (ts : stream.Tokens)
    (h : stream.window s ts = .ok s1) :
    (∃ n, s1 = (s.SetWindow LENGTH).SetLength n) ∨ (∃ d, s1 = (s.SetWindow TIME).SetTime d) ∨
      s1 = s.SetWindow TIME := by
  unfold stream.window at h
  dsimp only at h
  split_ifs at h with h1 h2 h3
  · rw [h2] at h
    split at h
    · cases h
    · simp only [Except.ok.injEq] at h
      exact Or.inl ⟨_, h.symm⟩
  · rw [h3] at h
    split at h
    · cases h
    · split at h
      · simp only [Except.ok.injEq] at h
        exact Or.inr (Or.inl ⟨_, h.symm⟩)
      · simp only [Except.ok.injEq] at h
        exact Or.inr (Or.inl ⟨_, h.symm⟩)
      · simp only [Except.ok.injEq] at h
        exact Or.inr (Or.inr h.symm)

theorem stream.Parse_ok {δ φ : Type} (p : Parser δ) (H : Host δ φ) (ts : stream.Tokens)
    (s : Statement δ φ) (h : stream.Parse p H ts = some (.ok s)) :
    ∃ s1 s2 s3 ts1 tsd list, (stream.next ts).1 = SELECT ∧ stream.skipTo FROM ts = some ts1 ∧
      stream.eventTypeLoop p (statement.New : Statement δ φ) ts1 = .ok s1 ∧
      stream.ParseFunction H s1 ts = .ok s2 ∧ stream.skipTo DOT ts = some tsd ∧
      stream.window s2 tsd = .ok s3 ∧ stream.whereLoop H s3 [] tsd = .ok list ∧
      s = s3.SetWhere list := by
  unfold stream.Parse at h
  dsimp only at h
  split_ifs at h with hsel
  · cases h
  simp only [ne_eq, not_not] at hsel
  unfold stream.ParseEventType stream.ParseWindow stream.ParseWhere at h
  cases h1 : stream.skipTo FROM ts with
  | none => rw [h1] at h; cases h
  | some ts1 =>
    rw [h1] at h
    dsimp only at h
    cases h2 : stream.eventTypeLoop p (statement.New : Statement δ φ) ts1 with
    | error e => rw [h2] at h; cases h
    | ok s1 =>
      rw [h2] at h
      dsimp only at h
      cases h3 : stream.ParseFunction H s1 ts with
      | error e => rw [h3] at h; cases h
      | ok s2 =>
        rw [h3] at h
        dsimp only at h
        cases h4 : stream.skipTo DOT ts with
        | none => rw [h4] at h; cases h
        | some tsd =>
          rw [h4] at h
          dsimp only at h
          cases h5 : stream.window s2 tsd with
          | error e => rw [h5] at h; cases h
          | ok s3 =>
            rw [h5] at h
            dsimp only at h
            cases h6 : stream.whereLoop H s3 [] tsd with
            | error e => rw [h6] at h; cases h
            | ok list =>
              rw [h6] at h
              dsimp only at h
              simp only [Option.some.injEq, Except.ok.injEq] at h
              exact ⟨s1, s2, s3, ts1, tsd, list, hsel, rfl, h2, h3, rfl, h5, h6, h.symm⟩

/-! ## The claims -/

/-- C10: a query whose first token, as the base scan returns it (whitespace
included), is not the `select` keyword makes `Parse` return no statement and
the error `invalid token=` followed by that token's literal. The result is
the same for every registry and needs no fuel: no pass is entered and no
registry lookup is made. -/
theorem Parse_not_select {δ φ : Type} (p : Parser δ) (H : Host δ φ) (fuel : Nat)
    (query : String) (h : (Tokenize (lexer.New query)).1 ≠ SELECT) :
    p.Parse H fuel query =
      some (.error (.text ("invalid token=" ++ (Tokenize (lexer.New query)).2.1))) := by
  unfold Parser.Parse
  rcases hT : Tokenize (lexer.New query) with ⟨token, literal, l1⟩
  rw [hT] at h
  simp only [ne_eq] at h
  simp [h]

/-- C1: on a query that begins with `select` and has no `from` token, `Parse`
never returns: whatever the number of loop iterations allowed, the first loop
of `ParseEventType` is still scanning for `from` at the end sentinel. -/
theorem Parse_without_from_never_returns {δ φ : Type} (p : Parser δ) (H : Host δ φ)
    (fuel : Nat) (query : String) (hsel : (Tokenize (lexer.New query)).1 = SELECT)
    (hfrom : ∀ t ∈ tokens (lexer.New query), t.1 ≠ FROM) :
    p.Parse H fuel query = none := by
  unfold Parser.Parse
  rcases hT : Tokenize (lexer.New query) with ⟨token, literal, l1⟩
  rw [hT] at hsel
  simp only at hsel
  subst hsel
  simp only [ne_eq, not_true_eq_false, if_false]
  unfold ParseEventType
  rw [skipTo_none FROM (by decide) fuel _ (stream.skipTo_eq_none FROM _ hfrom)]

/-- Witness of C10: the query ` select * from E.length(5)` begins with a
whitespace token. -/
theorem Parse_not_select_witness :
    exampleParser.Parse exampleHost 0 " select * from E.length(5)" =
      some (.error (.text "invalid token= ")) :=
  Parse_not_select exampleParser exampleHost 0 " select * from E.length(5)" (by decide)

/-- Witness of C1: `select *` has no `from` token. -/
theorem Parse_without_from_never_returns_witness :
    exampleParser.Parse exampleHost 1000 "select *" = none :=
  Parse_without_from_never_returns exampleParser exampleHost 1000 "select *" (by decide)
    (by decide)

/-- C8: when the query begins with `select` and the first `IDENTIFIER` token
after the first `from` token, with no `.` token in between, is not a name of
the registry, `Parse` returns no statement and the error
`parse event type: EventType [X] is not registered` naming that identifier,
whatever follows it. -/
theorem Parse_unregistered {δ φ : Type} (p : Parser δ) (H : Host δ φ) (fuel : Nat)
    (query : String) (pre mid rest : List (Token × String)) (lf X : String)
    (hsel : (Tokenize (lexer.New query)).1 = SELECT)
    (htok : tokens (lexer.New query) = pre ++ ((FROM, lf) :: (mid ++ ((IDENTIFIER, X) :: rest))))
    (hpre : ∀ t ∈ pre, t.1 ≠ FROM)
    (hmid : ∀ t ∈ mid, t.1 ≠ IDENTIFIER ∧ t.1 ≠ DOT)
    (hreg : p.Registry X = none) (hfuel : query.length < fuel) :
    p.Parse H fuel query =
      some (.error (.caused "parse event type: "
        (.text ("EventType [" ++ X ++ "] is not registered")))) := by
  rw [Parse_of_stream p H fuel query hfuel]
  have hv := view_Tokenize (lexer.New query)
  simp only [view, Prod.ext_iff] at hv
  have hmid2 : ∀ x ∈ mid, x.1 ≠ EOF ∧ x.1 ≠ DOT ∧ x.1 ≠ IDENTIFIER := by
    intro x hx
    refine ⟨?_, (hmid x hx).2, (hmid x hx).1⟩
    apply tokens_ne_EOF (lexer.New query)
    rw [htok]
    simp [hx]
  unfold stream.Parse
  dsimp only
  rw [← hv.1, hsel]
  simp only [ne_eq, not_true_eq_false, if_false]
  unfold stream.ParseEventType
  rw [htok, stream.skipTo_append FROM pre _ lf hpre]
  dsimp only
  rw [stream.eventTypeLoop_skip p _ mid _ hmid2]
  simp [stream.eventTypeLoop, hreg]

/-- Witness of C8: `select * from Unknown.time(10 sec)` with `Unknown` not
registered. -/
theorem Parse_unregistered_witness :
    exampleParser.Parse exampleHost 40 "select * from Unknown.time(10 sec)" =
      some (.error (.caused "parse event type: "
        (.text ("EventType [" ++ "Unknown" ++ "] is not registered")))) :=
  Parse_unregistered exampleParser exampleHost 40 "select * from Unknown.time(10 sec)"
    [(SELECT, "select"), (WHITESPACE, " "), (ASTERISK, "*"), (WHITESPACE, " ")]
    [(WHITESPACE, " ")]
    [(DOT, "."), (TIME, "time"), (LPAREN, "("), (IDENTIFIER, "10"), (WHITESPACE, " "),
      (SEC, "sec"), (RPAREN, ")")]
    "from" "Unknown" (by decide) (by decide) (by decide) (by decide) (by decide) (by decide)

theorem stream.window_keeps {δ φ : Type} (s s1 : Statement δ φ) (ts : stream.Tokens)
    (h : stream.window s ts = .ok s1) : s1.EventType = s.EventType := by
  rcases stream.window_ok s s1 ts h with ⟨n, rfl⟩ | ⟨d, rfl⟩ | rfl <;> rfl

/-- C9: when `Parse` succeeds, the token stream of the query has a first
`from` token and a first `.` token after it; every `IDENTIFIER` between the
two is a name of the registry, and the event type of the statement is the
registry's descriptor of the last of them (no event type is set when there is
none). -/
theorem Parse_event_type {δ φ : Type} (p : Parser δ) (H : Host δ φ) (fuel : Nat)
    (query : String) (s : Statement δ φ) (h : p.Parse H fuel query = some (.ok s)) :
    ∃ pre lf span ld rest,
      tokens (lexer.New query) = pre ++ ((FROM, lf) :: (span ++ ((DOT, ld) :: rest))) ∧
      (∀ t ∈ pre, t.1 ≠ FROM) ∧ (∀ t ∈ span, t.1 ≠ DOT) ∧
      (∀ name ∈ identifiers span, ∃ v, p.Registry name = some v) ∧
      s.EventType =
        match (identifiers span).getLast? with
        | none => none
        | some name => p.Registry name := by
  obtain ⟨s1, s2, s3, ts1, tsd, list, _, hfrom, hev, hfun, _, hwin, _, hs⟩ :=
    stream.Parse_ok p H _ s (Parse_sound p H fuel query _ h)
  obtain ⟨pre, lf, hts, hpre⟩ := stream.skipTo_some FROM _ _ hfrom
  obtain ⟨span, ld, rest, hts1, hspan, hids, hs1⟩ := stream.eventTypeLoop_ok p _ s1 ts1 hev
  refine ⟨pre, lf, span, ld, rest, by rw [hts, hts1], hpre, hspan, hids, ?_⟩
  have h2 := (stream.ParseFunction_keeps H _ s1 s2 _ (le_refl _) hfun).1
  have h3 := stream.window_keeps s2 s3 tsd hwin
  rw [hs]
  show s3.EventType = _
  rw [h3, h2, hs1]
  rfl

/-- Witness of C9: in `select * from E.length(5)` the span between `from`
and `.` holds the identifier `E`. -/
theorem Parse_event_type_witness :
    ∃ pre lf span ld rest,
      tokens (lexer.New "select * from E.length(5)") =
        pre ++ ((FROM, lf) :: (span ++ ((DOT, ld) :: rest))) ∧
      (∀ t ∈ pre, t.1 ≠ FROM) ∧ (∀ t ∈ span, t.1 ≠ DOT) ∧
      (∀ name ∈ identifiers span, ∃ v, exampleParser.Registry name = some v) ∧
      (some 7 : Option Nat) =
        match (identifiers span).getLast? with
        | none => none
        | some name => exampleParser.Registry name :=
  Parse_event_type exampleParser exampleHost 40 "select * from E.length(5)"
    { EventType := some 7, Window := some LENGTH, Length := some 5, Time := none,
      Function := [.SelectAll], Where := [] } (by rfl)

/-- C2, amended: a statement that `Parse` returns has its window kind set to
`length`, with the length set and no duration, or to `time`, with no length;
its event type, when one is set, is a descriptor of the registry. The
projection list and the predicate list may be empty. -/
theorem Parse_ok_statement {δ φ : Type} (p : Parser δ) (H : Host δ φ) (fuel : Nat)
    (query : String) (s : Statement δ φ) (h : p.Parse H fuel query = some (.ok s)) :
    (∀ v, s.EventType = some v → ∃ name, p.Registry name = some v) ∧
    ((s.Window = some LENGTH ∧ (∃ n, s.Length = some n) ∧ s.Time = none) ∨
      (s.Window = some TIME ∧ s.Length = none)) := by
  obtain ⟨s1, s2, s3, ts1, tsd, list, _, _, hev, hfun, _, hwin, _, hs⟩ :=
    stream.Parse_ok p H _ s (Parse_sound p H fuel query _ h)
  obtain ⟨span, ld, rest, _, _, _, hs1⟩ := stream.eventTypeLoop_ok p _ s1 ts1 hev
  have h2 := stream.ParseFunction_keeps H _ s1 s2 _ (le_refl _) hfun
  have h3 := stream.window_keeps s2 s3 tsd hwin
  have e1 : s1.Length = none := by rw [hs1]; rfl
  have e2 : s1.Time = none := by rw [hs1]; rfl
  constructor
  · intro v hv
    rw [hs] at hv
    change s3.EventType = some v at hv
    rw [h3, h2.1, hs1] at hv
    dsimp only at hv
    cases hl : (identifiers span).getLast? with
    | none => rw [hl] at hv; cases hv
    | some name => rw [hl] at hv; exact ⟨name, hv⟩
  · rw [hs]
    rcases stream.window_ok s2 s3 tsd hwin with ⟨n, rfl⟩ | ⟨d, rfl⟩ | rfl
    · left
      refine ⟨rfl, ⟨n, rfl⟩, ?_⟩
      show s2.Time = none
      rw [h2.2.2.2.1, e2]
    · right
      refine ⟨rfl, ?_⟩
      show s2.Length = none
      rw [h2.2.2.1, e1]
    · right
      refine ⟨rfl, ?_⟩
      show s2.Length = none
      rw [h2.2.2.1, e1]

/-- Witness of C2, amended: `select * from E.length(5)`. -/
theorem Parse_ok_statement_witness :
    (∀ v, (some 7 : Option Nat) = some v → ∃ name, exampleParser.Registry name = some v) ∧
    (((some LENGTH : Option Token) = some LENGTH ∧ (∃ n, (some 5 : Option Int) = some n) ∧
        (none : Option Int) = none) ∨
      ((some LENGTH : Option Token) = some TIME ∧ (some 5 : Option Int) = none)) :=
  Parse_ok_statement exampleParser exampleHost 40 "select * from E.length(5)"
    { EventType := some 7, Window := some LENGTH, Length := some 5, Time := none,
      Function := [.SelectAll], Where := [] } (by rfl)

/-- Counterexample to C2 as stated: `select x from .time(5)` is accepted, and
the statement returned has no event type, an empty projection list and a
`time` window whose duration was never set. -/
theorem Parse_accepts_bare_statement :
    exampleParser.Parse exampleHost 40 "select x from .time(5)" =
      some (.ok { EventType := none, Window := some TIME, Length := none, Time := none,
                  Function := [], Where := [] }) := by
  rfl

/-! ## Literals and query texts -/

theorem Atoi_number (n : String) (hn : isNumber n = true)
    (hv : strconv.digitsValue n.data < 2 ^ 63) :
    strconv.Atoi n = .ok (strconv.digitsValue n.data : Int) := by
  simp only [isNumber, Bool.and_eq_true, Bool.not_eq_true', List.all_eq_true] at hn
  obtain ⟨hne, hall⟩ := hn
  cases hd : n.data with
  | nil => simp [hd] at hne
  | cons c cs =>
    rw [hd] at hall hv
    have hc : c.isDigit = true := hall c (by simp)
    have hall' : (c :: cs).all Char.isDigit = true := by
      simp only [List.all_eq_true]; exact hall
    have h1 : c ≠ '-' := by intro h; subst h; revert hc; decide
    have h2 : c ≠ '+' := by intro h; subst h; revert hc; decide
    have hsigned : (match c :: cs with
        | '-' :: r => (true, r)
        | '+' :: r => (false, r)
        | cs => (false, cs)) = (false, c :: cs) := by
      split
      · rename_i heq; simp only [List.cons.injEq] at heq; exact absurd heq.1 h1
      · rename_i heq; simp only [List.cons.injEq] at heq; exact absurd heq.1 h2
      · rfl
    unfold strconv.Atoi
    rw [hd, hsigned]
    simp only [List.isEmpty_cons, hall', Bool.not_true, Bool.or_self, Bool.false_eq_true,
      if_false]
    rw [if_neg (by omega)]

theorem wrap64_of_fits (x : Int) (h0 : 0 ≤ x) (h1 : x < 2 ^ 63) : wrap64 x = x := by
  unfold wrap64
  omega

theorem stream.whereLoop_skip {δ φ : Type} (H : Host δ φ) (s : Statement δ φ)
    (list : List (expr.Where φ)) (ws rest : stream.Tokens)
    (h : ∀ x ∈ ws, x.1 ≠ EOF ∧ x.1 ≠ WHERE ∧ x.1 ≠ AND ∧ x.1 ≠ OR) :
    stream.whereLoop H s list (ws ++ rest) = stream.whereLoop H s list rest := by
  induction ws with
  | nil => rfl
  | cons x ws ih =>
    obtain ⟨t, lit⟩ := x
    have h1 := h (t, lit) (by simp)
    rw [List.cons_append, stream.whereLoop]
    simp only [h1.1, h1.2.1, h1.2.2.1, h1.2.2.2, if_false, ne_eq, not_false_eq_true, and_self,
      if_true]
    exact ih (fun y hy => h y (by simp [hy]))

theorem stream.whereLoop_nil {δ φ : Type} (H : Host δ φ) (s : Statement δ φ)
    (list : List (expr.Where φ)) : stream.whereLoop H s list [] = .ok list := by
  rw [stream.whereLoop]

theorem tokens_select_count (E : String) (rest : List Char) (hE : isIdentifier E = true)
    (hrest : rest.head? = some '.') :
    tokens ⟨"select count(*) from ".data ++ (E.data ++ rest)⟩ =
      [(SELECT, "select"), (WHITESPACE, " "), (COUNT, "count"), (LPAREN, "("), (ASTERISK, "*"),
        (RPAREN, ")"), (WHITESPACE, " "), (FROM, "from"), (WHITESPACE, " "), (IDENTIFIER, E)]
        ++ tokens ⟨rest⟩ := by
  have e1 : tokens ⟨"select count(*) from ".data⟩ =
      [(SELECT, "select"), (WHITESPACE, " "), (COUNT, "count"), (LPAREN, "("), (ASTERISK, "*"),
        (RPAREN, ")"), (WHITESPACE, " "), (FROM, "from"), (WHITESPACE, " ")] := by decide
  rw [tokens_append _ _ (separated_space_identifier "select count(*) from ".data E rest rfl hE),
    tokens_append _ _ (separated_head_unclassed E.data rest '.' hrest rfl),
    tokens_identifier E hE, e1]
  rfl

theorem tokens_time_window (n : String) (tail : List Char) (hn : isNumber n = true) :
    tokens ⟨".time(".data ++ (n.data ++ (" sec)".data ++ tail))⟩ =
        [(DOT, "."), (TIME, "time"), (LPAREN, "("), (IDENTIFIER, n), (WHITESPACE, " "),
          (SEC, "sec"), (RPAREN, ")")] ++ tokens ⟨tail⟩ ∧
      tokens ⟨".time(".data ++ (n.data ++ (" min)".data ++ tail))⟩ =
        [(DOT, "."), (TIME, "time"), (LPAREN, "("), (IDENTIFIER, n), (WHITESPACE, " "),
          (MIN, "min"), (RPAREN, ")")] ++ tokens ⟨tail⟩ := by
  have hn' := isNumber_isIdentifier n hn
  have e1 : tokens ⟨".time(".data⟩ = [(DOT, "."), (TIME, "time"), (LPAREN, "(")] := by decide
  have e2 : tokens ⟨" sec)".data⟩ = [(WHITESPACE, " "), (SEC, "sec"), (RPAREN, ")")] := by
    decide
  have e3 : tokens ⟨" min)".data⟩ = [(WHITESPACE, " "), (MIN, "min"), (RPAREN, ")")] := by
    decide
  constructor
  · rw [tokens_append _ _ (separated_last_unclassed ".time(".data _ '(' rfl rfl),
      tokens_append _ _ (separated_identifier_space n (" sec)".data ++ tail) rfl hn'),
      tokens_append _ _ (separated_last_unclassed " sec)".data tail ')' rfl rfl),
      tokens_identifier n hn', e1, e2]
    rfl
  · rw [tokens_append _ _ (separated_last_unclassed ".time(".data _ '(' rfl rfl),
      tokens_append _ _ (separated_identifier_space n (" min)".data ++ tail) rfl hn'),
      tokens_append _ _ (separated_last_unclassed " min)".data tail ')' rfl rfl),
      tokens_identifier n hn', e1, e3]
    rfl

theorem stream.whereLoop_cons_skip {δ φ : Type} (H : Host δ φ) (s : Statement δ φ)
    (list : List (expr.Where φ)) (t : Token) (lit : String) (ts : stream.Tokens)
    (h : t ≠ EOF ∧ t ≠ WHERE ∧ t ≠ AND ∧ t ≠ OR) :
    stream.whereLoop H s list ((t, lit) :: ts) = stream.whereLoop H s list ts :=
  stream.whereLoop_skip H s list [(t, lit)] ts (by simpa using h)

theorem stream.Parse_count_time {δ φ : Type} (p : Parser δ) (H : Host δ φ) (E n ul : String)
    (d : δ) (v per : Int) (unit : Token) (rest : stream.Tokens) (hreg : p.Registry E = some d)
    (hat : strconv.Atoi n = .ok v)
    (hu : (unit = SEC ∧ per = Second) ∨ (unit = MIN ∧ per = Minute)) :
    stream.Parse p H
      ([(SELECT, "select"), (WHITESPACE, " "), (COUNT, "count"), (LPAREN, "("), (ASTERISK, "*"),
        (RPAREN, ")"), (WHITESPACE, " "), (FROM, "from"), (WHITESPACE, " "), (IDENTIFIER, E)]
        ++ ([(DOT, "."), (TIME, "time"), (LPAREN, "("), (IDENTIFIER, n), (WHITESPACE, " "),
          (unit, ul), (RPAREN, ")")] ++ rest)) =
      match stream.whereLoop H
          ({ EventType := some d, Window := some TIME, Length := none,
             Time := some (wrap64 (v * per)),
             Function := [.Count "count(*)", .SelectAll], Where := [] } : Statement δ φ)
          [] rest with
      | .error err => some (.error (.caused "parse selector: " err))
      | .ok list =>
        some (.ok { EventType := some d, Window := some TIME, Length := none,
                    Time := some (wrap64 (v * per)),
                    Function := [.Count "count(*)", .SelectAll], Where := list }) := by
  rcases hu with ⟨rfl, rfl⟩ | ⟨rfl, rfl⟩
  all_goals
    simp [stream.Parse, stream.next, stream.ParseEventType, stream.skipTo,
      stream.eventTypeLoop, hreg, stream.ParseFunction, stream.aggregateOf, stream.ParseWindow,
      stream.window, stream.identifier, hat, stream.ignoreWhiteSpace, stream.ParseWhere]
    rw [stream.whereLoop_cons_skip _ _ _ _ _ _ (by decide),
      stream.whereLoop_cons_skip _ _ _ _ _ _ (by decide),
      stream.whereLoop_cons_skip _ _ _ _ _ _ (by decide),
      stream.whereLoop_cons_skip _ _ _ _ _ _ (by decide),
      stream.whereLoop_cons_skip _ _ _ _ _ _ (by decide),
      stream.whereLoop_cons_skip _ _ _ _ _ _ (by decide)]
    simp only [statement.New, Statement.SetEventType, Statement.SetFunction,
      Statement.SetWindow, Statement.SetTime, Statement.SetWhere, List.nil_append,
      List.cons_append]
    cases stream.whereLoop H _ [] rest <;> rfl

theorem tokens_where_clause (F k : String) (tail : List Char) (hF : isIdentifier F = true)
    (hk : isIdentifier k = true) (htail : separated k.data tail = true) :
    tokens ⟨" where ".data ++ (F.data ++ (" > ".data ++ (k.data ++ tail)))⟩ =
        [(WHITESPACE, " "), (WHERE, "where"), (WHITESPACE, " "), (IDENTIFIER, F),
          (WHITESPACE, " "), (LARGER, ">"), (WHITESPACE, " "), (IDENTIFIER, k)]
          ++ tokens ⟨tail⟩ ∧
      tokens ⟨" where ".data ++ (F.data ++ (" < ".data ++ (k.data ++ tail)))⟩ =
        [(WHITESPACE, " "), (WHERE, "where"), (WHITESPACE, " "), (IDENTIFIER, F),
          (WHITESPACE, " "), (LESS, "<"), (WHITESPACE, " "), (IDENTIFIER, k)]
          ++ tokens ⟨tail⟩ := by
  have e1 : tokens ⟨" where ".data⟩ = [(WHITESPACE, " "), (WHERE, "where"), (WHITESPACE, " ")] := by
    decide
  have e2 : tokens ⟨" > ".data⟩ = [(WHITESPACE, " "), (LARGER, ">"), (WHITESPACE, " ")] := by
    decide
  have e3 : tokens ⟨" < ".data⟩ = [(WHITESPACE, " "), (LESS, "<"), (WHITESPACE, " ")] := by
    decide
  constructor
  · rw [tokens_append _ _ (separated_space_identifier " where ".data F _ rfl hF),
      tokens_append _ _ (separated_identifier_space F (" > ".data ++ (k.data ++ tail)) rfl hF),
      tokens_append _ _ (separated_space_identifier " > ".data k tail rfl hk),
      tokens_append _ _ htail, tokens_identifier F hF, tokens_identifier k hk, e1, e2]
    rfl
  · rw [tokens_append _ _ (separated_space_identifier " where ".data F _ rfl hF),
      tokens_append _ _ (separated_identifier_space F (" < ".data ++ (k.data ++ tail)) rfl hF),
      tokens_append _ _ (separated_space_identifier " < ".data k tail rfl hk),
      tokens_append _ _ htail, tokens_identifier F hF, tokens_identifier k hk, e1, e3]
    rfl

theorem stream.whereLoop_cons {δ φ : Type} (H : Host δ φ) (s : Statement δ φ)
    (list : List (expr.Where φ)) (t : Token) (lit : String) (ts1 : stream.Tokens) :
    stream.whereLoop H s list ((t, lit) :: ts1) =
      if t = EOF then .ok list
      else if t ≠ WHERE ∧ t ≠ AND ∧ t ≠ OR then stream.whereLoop H s list ts1
      else
        match stream.predicate H s list ts1 with
        | .error err => .error err
        | .ok r => stream.whereLoop H s r.1 r.2 := by
  rw [stream.whereLoop]
  split_ifs
  · rfl
  · rfl
  · split
    · rename_i err h; rw [h]
    · rename_i l1 t2 h; rw [h]

theorem stream.predicate_int {δ φ : Type} (H : Host δ φ) (s : Statement δ φ)
    (list : List (expr.Where φ)) (F k ls : String) (v : Int) (sel : Token)
    (rest : stream.Tokens) (hint : H.IntField s.EventType F = true)
    (hfloat : H.FloatField s.EventType F = false) (hat : strconv.Atoi k = .ok v)
    (hsel : sel = LARGER ∨ sel = LESS) :
    stream.predicate H s list
      ((WHITESPACE, " ") :: (IDENTIFIER, F) :: (WHITESPACE, " ") :: (sel, ls) ::
        (WHITESPACE, " ") :: (IDENTIFIER, k) :: rest) =
      .ok (compare sel (.LargerThanInt F v) (.LessThanInt F v) list, rest) := by
  rcases hsel with rfl | rfl
  all_goals
    simp [stream.predicate, stream.identifier, stream.ignoreIdentifier, hint, hfloat, hat]

theorem stream.predicate_float {δ φ : Type} (H : Host δ φ) (s : Statement δ φ)
    (list : List (expr.Where φ)) (F a b ls : String) (val : φ) (sel : Token)
    (rest : stream.Tokens) (hint : H.IntField s.EventType F = false)
    (hfloat : H.FloatField s.EventType F = true)
    (hpf : H.ParseFloat (a ++ "." ++ b) = some val)
    (hsel : sel = LARGER ∨ sel = LESS) :
    stream.predicate H s list
      ((WHITESPACE, " ") :: (IDENTIFIER, F) :: (WHITESPACE, " ") :: (sel, ls) ::
        (WHITESPACE, " ") :: (IDENTIFIER, a) :: (DOT, ".") :: (IDENTIFIER, b) :: rest) =
      .ok (compare sel (.LargerThanFloat F val) (.LessThanFloat F val) list, rest) := by
  rcases hsel with rfl | rfl
  all_goals
    simp [stream.predicate, stream.identifier, stream.ignoreIdentifier, hint, hfloat, hpf]

theorem stream.whereLoop_int_clause {δ φ : Type} (H : Host δ φ) (s : Statement δ φ)
    (list : List (expr.Where φ)) (F k ls : String) (v : Int) (sel : Token)
    (rest : stream.Tokens) (hint : H.IntField s.EventType F = true)
    (hfloat : H.FloatField s.EventType F = false) (hat : strconv.Atoi k = .ok v)
    (hsel : sel = LARGER ∨ sel = LESS) :
    stream.whereLoop H s list
      ((WHITESPACE, " ") :: (WHERE, "where") :: (WHITESPACE, " ") :: (IDENTIFIER, F) ::
        (WHITESPACE, " ") :: (sel, ls) :: (WHITESPACE, " ") :: (IDENTIFIER, k) :: rest) =
      stream.whereLoop H s (compare sel (.LargerThanInt F v) (.LessThanInt F v) list) rest := by
  rw [stream.whereLoop_cons_skip _ _ _ _ _ _ (by decide), stream.whereLoop_cons,
    stream.predicate_int H s list F k ls v sel rest hint hfloat hat hsel]
  simp

theorem stream.whereLoop_float_clause {δ φ : Type} (H : Host δ φ) (s : Statement δ φ)
    (list : List (expr.Where φ)) (F a b ls : String) (val : φ) (sel : Token)
    (rest : stream.Tokens) (hint : H.IntField s.EventType F = false)
    (hfloat : H.FloatField s.EventType F = true)
    (hpf : H.ParseFloat (a ++ "." ++ b) = some val)
    (hsel : sel = LARGER ∨ sel = LESS) :
    stream.whereLoop H s list
      ((WHITESPACE, " ") :: (WHERE, "where") :: (WHITESPACE, " ") :: (IDENTIFIER, F) ::
        (WHITESPACE, " ") :: (sel, ls) :: (WHITESPACE, " ") :: (IDENTIFIER, a) ::
        (DOT, ".") :: (IDENTIFIER, b) :: rest) =
      stream.whereLoop H s (compare sel (.LargerThanFloat F val) (.LessThanFloat F val) list)
        rest := by
  rw [stream.whereLoop_cons_skip _ _ _ _ _ _ (by decide), stream.whereLoop_cons,
    stream.predicate_float H s list F a b ls val sel rest hint hfloat hpf hsel]
  simp

theorem tokens_of_input (query : String) (cs : List Char)
    (hq : (lexer.New query).input = cs) : tokens (lexer.New query) = tokens ⟨cs⟩ := by
  rw [← hq]

theorem stream.Parse_time_query {δ φ : Type} (p : Parser δ) (H : Host δ φ)
    (query E n unit : String) (d : δ) (per : Int) (tail : List Char)
    (hE : isIdentifier E = true) (hreg : p.Registry E = some d) (hn : isNumber n = true)
    (hfit : (strconv.digitsValue n.data : Int) * 60 * 10 ^ 9 < 2 ^ 63)
    (hu : (unit = "sec" ∧ per = Second) ∨ (unit = "min" ∧ per = Minute))
    (hq : (lexer.New query).input =
      "select count(*) from ".data ++ (E.data ++ (".time(".data ++ (n.data ++
        (" ".data ++ (unit.data ++ (")".data ++ tail))))))) :
    stream.Parse p H (tokens (lexer.New query)) =
      match stream.whereLoop H
          ({ EventType := some d, Window := some TIME, Length := none,
             Time := some ((strconv.digitsValue n.data : Int) * per),
             Function := [.Count "count(*)", .SelectAll], Where := [] } : Statement δ φ)
          [] (tokens ⟨tail⟩) with
      | .error err => some (.error (.caused "parse selector: " err))
      | .ok list =>
        some (.ok { EventType := some d, Window := some TIME, Length := none,
                    Time := some ((strconv.digitsValue n.data : Int) * per),
                    Function := [.Count "count(*)", .SelectAll], Where := list }) := by
  have hat : strconv.Atoi n = .ok (strconv.digitsValue n.data : Int) := by
    apply Atoi_number n hn
    have : (0 : Int) ≤ (strconv.digitsValue n.data : Int) := Int.natCast_nonneg _
    norm_num at hfit
    omega
  have hw : wrap64 ((strconv.digitsValue n.data : Int) * per) =
      (strconv.digitsValue n.data : Int) * per := by
    have : (0 : Int) ≤ (strconv.digitsValue n.data : Int) := Int.natCast_nonneg _
    norm_num at hfit
    apply wrap64_of_fits
    · rcases hu with ⟨_, rfl⟩ | ⟨_, rfl⟩ <;> simp only [Minute, Second] <;> omega
    · rcases hu with ⟨_, rfl⟩ | ⟨_, rfl⟩ <;> simp only [Minute, Second] <;> omega
  rw [tokens_of_input query _ hq,
    tokens_select_count E _ hE (by rfl)]
  rcases hu with ⟨rfl, hper⟩ | ⟨rfl, hper⟩
  · rw [show " ".data ++ ("sec".data ++ (")".data ++ tail)) = " sec)".data ++ tail from rfl,
      (tokens_time_window n tail hn).1,
      stream.Parse_count_time p H E n "sec" d _ per SEC _ hreg hat (Or.inl ⟨rfl, hper⟩), hw]
  · rw [show " ".data ++ ("min".data ++ (")".data ++ tail)) = " min)".data ++ tail from rfl,
      (tokens_time_window n tail hn).2,
      stream.Parse_count_time p H E n "min" d _ per MIN _ hreg hat (Or.inr ⟨rfl, hper⟩), hw]

theorem separated_nil_right (a : List Char) : separated a [] = true := by
  unfold separated
  cases a.getLast? <;> rfl

/-- C4: for an identifier `E` of the registry and a digit run `n` whose
duration in nanoseconds fits 64 bits (`n * 60 * 10^9 < 2^63`), `Parse` of
`select count(*) from E.time(n sec)` returns a statement of window kind `time`
whose duration is `n` seconds, and with the unit `min` one whose duration is
`n` minutes; so it does when the query goes on with `where F > k` for an
integer field `F`, and every statement `Parse` returns for that query followed
by any text has this window. -/
theorem Parse_time_window {δ φ : Type} (p : Parser δ) (H : Host δ φ) (E n unit : String)
    (d : δ) (per : Int) (hE : isIdentifier E = true) (hreg : p.Registry E = some d)
    (hn : isNumber n = true)
    (hfit : (strconv.digitsValue n.data : Int) * 60 * 10 ^ 9 < 2 ^ 63)
    (hu : (unit = "sec" ∧ per = Second) ∨ (unit = "min" ∧ per = Minute)) :
    (∀ fuel,
      ("select count(*) from " ++ E ++ ".time(" ++ n ++ " " ++ unit ++ ")").length < fuel →
      p.Parse H fuel ("select count(*) from " ++ E ++ ".time(" ++ n ++ " " ++ unit ++ ")") =
        some (.ok { EventType := some d, Window := some TIME, Length := none,
                    Time := some ((strconv.digitsValue n.data : Int) * per),
                    Function := [.Count "count(*)", .SelectAll], Where := [] })) ∧
    (∀ fuel F k, isIdentifier F = true → isNumber k = true →
      strconv.digitsValue k.data < 2 ^ 63 →
      H.IntField (some d) F = true → H.FloatField (some d) F = false →
      ("select count(*) from " ++ E ++ ".time(" ++ n ++ " " ++ unit ++ ")" ++ " where " ++ F
        ++ " > " ++ k).length < fuel →
      p.Parse H fuel ("select count(*) from " ++ E ++ ".time(" ++ n ++ " " ++ unit ++ ")"
          ++ " where " ++ F ++ " > " ++ k) =
        some (.ok { EventType := some d, Window := some TIME, Length := none,
                    Time := some ((strconv.digitsValue n.data : Int) * per),
                    Function := [.Count "count(*)", .SelectAll],
                    Where := [.LargerThanInt F (strconv.digitsValue k.data : Int)] })) ∧
    (∀ fuel tail s,
      p.Parse H fuel ("select count(*) from " ++ E ++ ".time(" ++ n ++ " " ++ unit ++ ")"
          ++ tail) = some (.ok s) →
      s.EventType = some d ∧ s.Window = some TIME ∧
        s.Time = some ((strconv.digitsValue n.data : Int) * per)) := by
  refine ⟨?_, ?_, ?_⟩
  · intro fuel hfuel
    rw [Parse_of_stream p H fuel _ hfuel,
      stream.Parse_time_query p H _ E n unit d per [] hE hreg hn hfit hu
        (by simp only [lexer.New, String.data_append, List.append_assoc, List.append_nil]),
      tokens_nil, stream.whereLoop_nil]
  · intro fuel F k hF hk hkv hint hfloat hfuel
    have hk' := isNumber_isIdentifier k hk
    rw [Parse_of_stream p H fuel _ hfuel,
      stream.Parse_time_query p H _ E n unit d per
        (" where ".data ++ (F.data ++ (" > ".data ++ (k.data ++ [])))) hE hreg hn hfit hu
        (by simp only [lexer.New, String.data_append, List.append_assoc, List.append_nil]),
      (tokens_where_clause F k [] hF hk' (separated_nil_right _)).1, tokens_nil,
      List.append_nil,
      stream.whereLoop_int_clause H _ [] F k ">" _ LARGER [] hint hfloat
        (Atoi_number k hk hkv) (Or.inl rfl),
      stream.whereLoop_nil]
    rfl
  · intro fuel tail s h
    have h1 := Parse_sound p H fuel _ _ h
    rw [stream.Parse_time_query p H _ E n unit d per tail.data hE hreg hn hfit hu
      (by simp only [lexer.New, String.data_append, List.append_assoc])] at h1
    cases hw : stream.whereLoop H
        ({ EventType := some d, Window := some TIME, Length := none,
           Time := some ((strconv.digitsValue n.data : Int) * per),
           Function := [.Count "count(*)", .SelectAll], Where := [] } : Statement δ φ)
        [] (tokens ⟨tail.data⟩) with
    | error err => rw [hw] at h1; cases h1
    | ok list =>
      rw [hw] at h1
      simp only [Option.some.injEq, Except.ok.injEq] at h1
      rw [← h1]
      exact ⟨rfl, rfl, rfl⟩

/-- Witness of C4: `select count(*) from E.time(10 sec)` in the registry that
holds `E`. -/
theorem Parse_time_window_witness :
    exampleParser.Parse exampleHost 100
        ("select count(*) from " ++ "E" ++ ".time(" ++ "10" ++ " " ++ "sec" ++ ")") =
      some (.ok { EventType := some 7, Window := some TIME, Length := none,
                  Time := some ((strconv.digitsValue "10".data : Int) * Second),
                  Function := [.Count "count(*)", .SelectAll], Where := [] }) :=
  (Parse_time_window exampleParser exampleHost "E" "10" "sec" 7 Second (by decide) (by decide)
    (by decide) (by decide) (Or.inl ⟨rfl, rfl⟩)).1 100 (by decide)

theorem tokens_length_window (N : String) (tail : List Char) (hN : isNumber N = true) :
    tokens ⟨".length(".data ++ (N.data ++ (")".data ++ tail))⟩ =
      [(DOT, "."), (LENGTH, "length"), (LPAREN, "("), (IDENTIFIER, N), (RPAREN, ")")]
        ++ tokens ⟨tail⟩ := by
  have hN' := isNumber_isIdentifier N hN
  have e1 : tokens ⟨".length(".data⟩ = [(DOT, "."), (LENGTH, "length"), (LPAREN, "(")] := by
    decide
  have e2 : tokens ⟨")".data⟩ = [(RPAREN, ")")] := by decide
  rw [tokens_append _ _ (separated_last_unclassed ".length(".data _ '(' rfl rfl),
    tokens_append _ _ (separated_head_unclassed N.data (")".data ++ tail) ')' rfl rfl),
    tokens_append _ _ (separated_last_unclassed ")".data tail ')' rfl rfl),
    tokens_identifier N hN', e1, e2]
  rfl

/-- C5: for an identifier `E` of the registry and a digit run `N` that
`strconv.Atoi` converts to `v`, `Parse` of `select count(*) from E.length(N)`
returns a statement of window kind `length` whose length is `v` and whose
duration is not set. -/
theorem Parse_length_window {δ φ : Type} (p : Parser δ) (H : Host δ φ) (E N : String)
    (d : δ) (v : Int) (fuel : Nat) (hE : isIdentifier E = true) (hreg : p.Registry E = some d)
    (hN : isNumber N = true) (hat : strconv.Atoi N = .ok v)
    (hfuel : ("select count(*) from " ++ E ++ ".length(" ++ N ++ ")").length < fuel) :
    p.Parse H fuel ("select count(*) from " ++ E ++ ".length(" ++ N ++ ")") =
      some (.ok { EventType := some d, Window := some LENGTH, Length := some v, Time := none,
                  Function := [.Count "count(*)", .SelectAll], Where := [] }) := by
  rw [Parse_of_stream p H fuel _ hfuel,
    tokens_of_input _
      ("select count(*) from ".data ++ (E.data ++ (".length(".data ++ (N.data ++
        (")".data ++ [])))))
      (by simp only [lexer.New, String.data_append, List.append_assoc, List.append_nil]),
    tokens_select_count E _ hE (by rfl), tokens_length_window N [] hN, tokens_nil]
  simp [stream.Parse, stream.next, stream.ParseEventType, stream.skipTo,
    stream.eventTypeLoop, hreg, stream.ParseFunction, stream.aggregateOf, stream.ParseWindow,
    stream.window, stream.identifier, hat, stream.ParseWhere]
  rw [stream.whereLoop_cons_skip _ _ _ _ _ _ (by decide),
    stream.whereLoop_cons_skip _ _ _ _ _ _ (by decide),
    stream.whereLoop_cons_skip _ _ _ _ _ _ (by decide),
    stream.whereLoop_cons_skip _ _ _ _ _ _ (by decide), stream.whereLoop_nil]
  rfl

/-- Witness of C5: `select count(*) from E.length(50)`. -/
theorem Parse_length_window_witness :
    exampleParser.Parse exampleHost 100
        ("select count(*) from " ++ "E" ++ ".length(" ++ "50" ++ ")") =
      some (.ok { EventType := some 7, Window := some LENGTH, Length := some 50, Time := none,
                  Function := [.Count "count(*)", .SelectAll], Where := [] }) :=
  Parse_length_window exampleParser exampleHost "E" "50" 7 50 100 (by decide) (by decide)
    (by decide) (by rfl) (by decide)

/-- C3: the projection pass over a select clause that is exactly `count(*)`
appends two entries, the count expression and then a select-all expression
for the `*` inside the parentheses, whatever follows `from`; no field is
inspected. -/
theorem ParseFunction_count_star {δ φ : Type} (H : Host δ φ) (s : Statement δ φ)
    (rest : String) (fuel : Nat) (hfuel : ("select count(*) from " ++ rest).length < fuel) :
    ParseFunction H fuel s (lexer.New ("select count(*) from " ++ rest)) =
      some (.ok ((s.SetFunction (.Count "count(*)")).SetFunction .SelectAll)) := by
  have e1 : tokens ⟨"select count(*) from".data⟩ =
      [(SELECT, "select"), (WHITESPACE, " "), (COUNT, "count"), (LPAREN, "("), (ASTERISK, "*"),
        (RPAREN, ")"), (WHITESPACE, " "), (FROM, "from")] := by decide
  rw [ParseFunction_tokens H fuel s _ (lt_of_le_of_lt (tokens_New_length _) hfuel),
    tokens_of_input _ ("select count(*) from".data ++ (' ' :: rest.data))
      (by simp only [lexer.New, String.data_append]; rfl),
    tokens_append _ _ (by rfl), e1]
  simp [stream.ParseFunction, stream.aggregateOf]

/-- Witness of C3: the projection pass on `select count(*) from E.length(50)`,
started on the statement that holds the event type `7`. -/
theorem ParseFunction_count_star_witness :
    ParseFunction exampleHost 100
        ((statement.New : Statement Nat String).SetEventType 7)
        (lexer.New ("select count(*) from " ++ "E.length(50)")) =
      some (.ok { EventType := some 7, Window := none, Length := none, Time := none,
                  Function := [.Count "count(*)", .SelectAll], Where := [] }) :=
  ParseFunction_count_star exampleHost ((statement.New : Statement Nat String).SetEventType 7)
    "E.length(50)" 100 (by decide)

theorem lookup_ne_DOT (run : List Char) : lookup run ≠ DOT := by
  unfold lookup
  split
  · rename_i t h
    have := lookup_mem _ _ _ h
    intro h'
    subst h'
    revert this
    decide
  · decide

theorem runToken_ne_DOT (c : Char) (run : List Char) (hc : c ≠ '.') : runToken c run ≠ DOT := by
  unfold runToken
  split_ifs
  · decide
  · exact lookup_ne_DOT run
  · decide
  · unfold punct
    simp only [hc, if_false]
    split_ifs <;> simp

theorem tokens_no_dot (cs : List Char) (h : '.' ∉ cs) : ∀ t ∈ tokens ⟨cs⟩, t.1 ≠ DOT := by
  generalize hn : cs.length = n
  induction n using Nat.strongRecOn generalizing cs with
  | _ n ih =>
    cases cs with
    | nil => simp [tokens_nil]
    | cons c cs =>
      intro t ht
      rw [tokens_cons] at ht
      rcases List.mem_cons.mp ht with rfl | ht
      · exact runToken_ne_DOT c _ (fun hc => h (by simp [hc]))
      · have hsub := List.dropWhile_sublist (l := cs) (runClass c)
        refine ih (cs.dropWhile (runClass c)).length ?_ _ ?_ rfl t ht
        · have := hsub.length_le
          simp only [List.length_cons] at hn
          omega
        · intro hmem
          exact h (List.mem_cons_of_mem _ (hsub.subset hmem))

theorem tokens_dot (rest : List Char) : tokens ⟨'.' :: rest⟩ = (DOT, ".") :: tokens ⟨rest⟩ := by
  have h1 : runClass '.' = fun _ => false := by
    unfold runClass
    rw [if_neg (by decide), if_neg (by decide), if_neg (by decide)]
  have h2 : ∀ run, runToken '.' run = DOT := by intro run; rfl
  have h3 : rest.takeWhile (fun _ => false) = [] := by cases rest <;> simp [List.takeWhile]
  have h4 : rest.dropWhile (fun _ => false) = rest := by cases rest <;> simp [List.dropWhile]
  rw [tokens_cons, h1, h2, h3, h4]

theorem separated_congr (a b c : List Char) (h : b.head? = c.head?) :
    separated a b = separated a c := by
  unfold separated
  rw [h]

theorem stream.skipTo_dot_text (pre rest : List Char) (h : '.' ∉ pre) :
    stream.skipTo DOT (tokens ⟨pre ++ '.' :: rest⟩) = some (tokens ⟨rest⟩) := by
  rw [tokens_append pre ('.' :: rest) (separated_head_unclassed pre _ '.' rfl rfl), tokens_dot]
  exact stream.skipTo_append DOT _ _ "." (tokens_no_dot pre h)

theorem stream.whereLoop_window_clause {δ φ : Type} (H : Host δ φ) (s : Statement δ φ)
    (win clause : List Char)
    (hwin : ∀ t ∈ tokens ⟨win⟩, t.1 ≠ WHERE ∧ t.1 ≠ AND ∧ t.1 ≠ OR)
    (hsep : separated win clause = true) :
    stream.whereLoop H s [] (tokens ⟨win ++ clause⟩) =
      stream.whereLoop H s [] (tokens ⟨clause⟩) := by
  rw [tokens_append win clause hsep]
  apply stream.whereLoop_skip
  intro x hx
  exact ⟨tokens_ne_EOF ⟨win⟩ x hx, hwin x hx⟩

theorem stream.ParseWhere_ok {δ φ : Type} (H : Host δ φ) (s : Statement δ φ)
    (pre rest : List Char) (query : String) (list : List (expr.Where φ)) (h : '.' ∉ pre)
    (hq : (lexer.New query).input = pre ++ '.' :: rest)
    (hw : stream.whereLoop H s [] (tokens ⟨rest⟩) = .ok list) :
    stream.ParseWhere H s (tokens (lexer.New query)) = some (.ok (s.SetWhere list)) := by
  unfold stream.ParseWhere
  rw [tokens_of_input query _ hq, stream.skipTo_dot_text pre rest h]
  dsimp only
  rw [hw]

theorem stream.whereLoop_text_int {δ φ : Type} (H : Host δ φ) (s : Statement δ φ)
    (win F k : String) (v : Int) (tail : List Char)
    (hwin : ∀ t ∈ tokens ⟨win.data⟩, t.1 ≠ WHERE ∧ t.1 ≠ AND ∧ t.1 ≠ OR)
    (hsep : separated win.data " ".data = true) (hF : isIdentifier F = true)
    (hk : isNumber k = true) (hat : strconv.Atoi k = .ok v)
    (hint : H.IntField s.EventType F = true) (hfloat : H.FloatField s.EventType F = false)
    (htail : separated k.data tail = true) :
    stream.whereLoop H s []
        (tokens ⟨win.data ++ (" where ".data ++ (F.data ++ (" > ".data ++ (k.data ++ tail))))⟩) =
      stream.whereLoop H s [.LargerThanInt F v] (tokens ⟨tail⟩) ∧
    stream.whereLoop H s []
        (tokens ⟨win.data ++ (" where ".data ++ (F.data ++ (" < ".data ++ (k.data ++ tail))))⟩) =
      stream.whereLoop H s [.LessThanInt F v] (tokens ⟨tail⟩) := by
  have hk' := isNumber_isIdentifier k hk
  constructor
  · rw [stream.whereLoop_window_clause H s _ _ hwin
        (by rw [← hsep]; exact separated_congr _ _ _ rfl),
      (tokens_where_clause F k tail hF hk' htail).1]
    exact stream.whereLoop_int_clause H s [] F k ">" v LARGER _ hint hfloat hat (Or.inl rfl)
  · rw [stream.whereLoop_window_clause H s _ _ hwin
        (by rw [← hsep]; exact separated_congr _ _ _ rfl),
      (tokens_where_clause F k tail hF hk' htail).2]
    exact stream.whereLoop_int_clause H s [] F k "<" v LESS _ hint hfloat hat (Or.inr rfl)

/-- C6: in a query `pre.win where F > k` (or `F < k`) that `Parse` accepts,
where `pre` (`select ... from E`) has no `.`, the window text `win` has no
`where`, `and` or `or` token and does not end in whitespace, `F` is a name the
lexer returns as one `IDENTIFIER` token, an integer
and not a float field of the statement's event type, and `strconv.Atoi`
converts the digit run `k` to `v`, the predicate list of the statement is the
one entry `LargerThanInt{F, v}` (or `LessThanInt{F, v}`). -/
theorem Parse_integer_predicate {δ φ : Type} (p : Parser δ) (H : Host δ φ) (fuel : Nat)
    (pre win F k op : String) (v : Int) (e : expr.Where φ) (s : Statement δ φ)
    (hpre : '.' ∉ pre.data)
    (hwin : ∀ t ∈ tokens ⟨win.data⟩, t.1 ≠ WHERE ∧ t.1 ≠ AND ∧ t.1 ≠ OR)
    (hsep : separated win.data " ".data = true) (hF : isIdentifier F = true)
    (hk : isNumber k = true) (hat : strconv.Atoi k = .ok v)
    (hop : (op = ">" ∧ e = .LargerThanInt F v) ∨ (op = "<" ∧ e = .LessThanInt F v))
    (h : p.Parse H fuel (pre ++ "." ++ win ++ " where " ++ F ++ " " ++ op ++ " " ++ k) =
      some (.ok s))
    (hint : H.IntField s.EventType F = true) (hfloat : H.FloatField s.EventType F = false) :
    s.Where = [e] := by
  obtain ⟨s1, s2, s3, ts1, tsd, list, _, _, hev, hfun, hdot, hwin3, hwl, hs⟩ :=
    stream.Parse_ok p H _ s (Parse_sound p H fuel _ _ h)
  obtain ⟨span, ld, rest, _, _, _, hs1⟩ := stream.eventTypeLoop_ok p _ s1 ts1 hev
  have h2 := stream.ParseFunction_keeps H _ s1 s2 _ (le_refl _) hfun
  have e3 : s3.Where = [] := by
    have e1 : s1.Where = [] := by rw [hs1]; rfl
    have e2 : s2.Where = [] := by rw [h2.2.2.2.2, e1]
    rcases stream.window_ok s2 s3 tsd hwin3 with ⟨n, rfl⟩ | ⟨d, rfl⟩ | rfl <;> exact e2
  have hty : s.EventType = s3.EventType := by rw [hs]; rfl
  rw [hty] at hint hfloat
  have hw := stream.whereLoop_text_int H s3 win F k v [] hwin hsep hF hk hat hint hfloat
    (separated_nil_right _)
  simp only [List.append_nil, tokens_nil, stream.whereLoop_nil] at hw
  rcases hop with ⟨rfl, rfl⟩ | ⟨rfl, rfl⟩
  · rw [tokens_of_input _
        (pre.data ++ '.' :: (win.data ++ (" where ".data ++ (F.data ++ (" > ".data ++ k.data)))))
        (by simp only [lexer.New, String.data_append, List.append_assoc]; rfl),
      stream.skipTo_dot_text _ _ hpre] at hdot
    simp only [Option.some.injEq] at hdot
    rw [← hdot, hw.1] at hwl
    simp only [Except.ok.injEq] at hwl
    rw [hs, ← hwl]
    simp [Statement.SetWhere, e3]
  · rw [tokens_of_input _
        (pre.data ++ '.' :: (win.data ++ (" where ".data ++ (F.data ++ (" < ".data ++ k.data)))))
        (by simp only [lexer.New, String.data_append, List.append_assoc]; rfl),
      stream.skipTo_dot_text _ _ hpre] at hdot
    simp only [Option.some.injEq] at hdot
    rw [← hdot, hw.2] at hwl
    simp only [Except.ok.injEq] at hwl
    rw [hs, ← hwl]
    simp [Statement.SetWhere, e3]

/-- Witness of C6: `select count(*) from E.time(10 sec) where Value > 97`. -/
theorem Parse_integer_predicate_witness :
    ({ EventType := some 7, Window := some TIME, Length := none,
       Time := some 10000000000, Function := [.Count "count(*)", .SelectAll],
       Where := [.LargerThanInt "Value" 97] } : Statement Nat String).Where =
      [.LargerThanInt "Value" 97] :=
  Parse_integer_predicate exampleParser exampleHost 100 "select count(*) from E"
    "time(10 sec)" "Value" "97" ">" 97 (.LargerThanInt "Value" 97) _ (by decide) (by decide)
    (by decide) (by decide) (by decide) (by rfl) (Or.inl ⟨rfl, rfl⟩) (by rfl) (by rfl) (by rfl)

/-- C7: on a query `pre.win where F > a.b`, where `F` is a name the lexer
returns as one `IDENTIFIER` token and `a` and `b` are digit
runs, the predicate pass appends exactly one predicate, chosen by the kind of
the field `F`: for a float and not integer field the float comparison whose
value is `strconv.ParseFloat` of the text `a.b`; for an integer and not float
field the integer comparison with the value of `a`, the `.b` after it adding
nothing. -/
theorem ParseWhere_decimal_literal {δ φ : Type} (H : Host δ φ) (s : Statement δ φ)
    (pre win F a b : String) (fuel : Nat) (hpre : '.' ∉ pre.data)
    (hwin : ∀ t ∈ tokens ⟨win.data⟩, t.1 ≠ WHERE ∧ t.1 ≠ AND ∧ t.1 ≠ OR)
    (hsep : separated win.data " ".data = true) (hF : isIdentifier F = true)
    (ha : isNumber a = true) (hb : isNumber b = true)
    (hfuel : (pre ++ "." ++ win ++ " where " ++ F ++ " > " ++ a ++ "." ++ b).length < fuel) :
    (∀ val, H.FloatField s.EventType F = true → H.IntField s.EventType F = false →
      H.ParseFloat (a ++ "." ++ b) = some val →
      ParseWhere H fuel s
          (lexer.New (pre ++ "." ++ win ++ " where " ++ F ++ " > " ++ a ++ "." ++ b)) =
        some (.ok (s.SetWhere [.LargerThanFloat F val]))) ∧
    (∀ v, H.IntField s.EventType F = true → H.FloatField s.EventType F = false →
      strconv.Atoi a = .ok v →
      ParseWhere H fuel s
          (lexer.New (pre ++ "." ++ win ++ " where " ++ F ++ " > " ++ a ++ "." ++ b)) =
        some (.ok (s.SetWhere [.LargerThanInt F v]))) := by
  have ha' := isNumber_isIdentifier a ha
  have hb' := isNumber_isIdentifier b hb
  have hq : (lexer.New (pre ++ "." ++ win ++ " where " ++ F ++ " > " ++ a ++ "." ++ b)).input =
      pre.data ++ '.' :: (win.data ++ (" where ".data ++ (F.data ++ (" > ".data ++
        (a.data ++ ('.' :: b.data)))))) := by
    simp only [lexer.New, String.data_append, List.append_assoc]
    rfl
  have hsa : separated a.data ('.' :: b.data) = true :=
    separated_head_unclassed a.data _ '.' rfl rfl
  have htail : tokens ⟨'.' :: b.data⟩ = [(DOT, "."), (IDENTIFIER, b)] := by
    rw [tokens_dot, tokens_identifier b hb']
  have hlen := lt_of_le_of_lt (tokens_New_length _) hfuel
  constructor
  · intro val hfloat hint hpf
    rw [ParseWhere_tokens H fuel s _ hlen]
    apply stream.ParseWhere_ok H s pre.data _ _ _ hpre hq
    rw [stream.whereLoop_window_clause H s _ _ hwin
        (by rw [← hsep]; exact separated_congr _ _ _ rfl),
      (tokens_where_clause F a _ hF ha' hsa).1, htail]
    have := stream.whereLoop_float_clause H s [] F a b ">" val LARGER [] hint hfloat hpf
      (Or.inl rfl)
    rw [stream.whereLoop_nil] at this
    exact this
  · intro v hint hfloat hat
    rw [ParseWhere_tokens H fuel s _ hlen]
    apply stream.ParseWhere_ok H s pre.data _ _ _ hpre hq
    rw [(stream.whereLoop_text_int H s win F a v _ hwin hsep hF ha hat hint hfloat hsa).1,
      htail, stream.whereLoop_cons_skip _ _ _ _ _ _ (by decide),
      stream.whereLoop_cons_skip _ _ _ _ _ _ (by decide), stream.whereLoop_nil]

/-- Witness of C7: `where Level > 2.5` with the float field `Level`. -/
theorem ParseWhere_decimal_literal_witness :
    ParseWhere exampleHost 100 (statement.New : Statement Nat String)
        (lexer.New ("select count(*) from E" ++ "." ++ "time(10 sec)" ++ " where " ++ "Level"
          ++ " > " ++ "2" ++ "." ++ "5")) =
      some (.ok ((statement.New : Statement Nat String).SetWhere
        [.LargerThanFloat "Level" "2.5"])) :=
  (ParseWhere_decimal_literal exampleHost (statement.New : Statement Nat String)
    "select count(*) from E" "time(10 sec)" "Level" "2" "5" 100 (by decide) (by decide)
    (by decide) (by decide) (by decide) (by decide) (by decide)).1 "2.5" (by rfl) (by rfl)
    (by rfl)

/-! ## The filtered views of the lexer -/

theorem tokensIgnoreWhiteSpaceLoop_succ (n : Nat) (l : Lexer) :
    tokensIgnoreWhiteSpaceLoop (n + 1) l =
      if (TokenizeIgnoreWhiteSpace l).1 = EOF then []
      else ((TokenizeIgnoreWhiteSpace l).1, (TokenizeIgnoreWhiteSpace l).2.1) ::
        tokensIgnoreWhiteSpaceLoop n (TokenizeIgnoreWhiteSpace l).2.2 := by
  rw [tokensIgnoreWhiteSpaceLoop]
  rcases TokenizeIgnoreWhiteSpace l with ⟨t, lit, l1⟩
  cases t <;> simp

theorem stream.ignoreWhiteSpace_significant (ts : stream.Tokens) (h : ∀ t ∈ ts, t.1 ≠ EOF) :
    ((stream.ignoreWhiteSpace ts).1 = EOF ∧ significant ts = []) ∨
    ((stream.ignoreWhiteSpace ts).1 ≠ EOF ∧
      significant ts = ((stream.ignoreWhiteSpace ts).1, (stream.ignoreWhiteSpace ts).2.1) ::
        significant (stream.ignoreWhiteSpace ts).2.2 ∧
      (stream.ignoreWhiteSpace ts).2.2.length < ts.length) := by
  induction ts with
  | nil => left; exact ⟨rfl, rfl⟩
  | cons x ts ih =>
    obtain ⟨t, lit⟩ := x
    have ht : t ≠ EOF := h (t, lit) (by simp)
    have ih' := ih (fun y hy => h y (by simp [hy]))
    simp only [stream.ignoreWhiteSpace]
    by_cases hw : t = WHITESPACE
    · subst hw
      simp only [if_true]
      have hs : significant ((WHITESPACE, lit) :: ts) = significant ts := by
        simp [significant]
      rw [hs]
      rcases ih' with h1 | ⟨h1, h2, h3⟩
      · left; exact h1
      · right
        refine ⟨h1, h2, ?_⟩
        simp only [List.length_cons]
        omega
    · right
      simp only [hw, if_false]
      refine ⟨ht, ?_, by simp⟩
      simp [significant, hw]

theorem tokensIgnoreWhiteSpaceLoop_eq (n : Nat) (l : Lexer) (h : (tokens l).length ≤ n) :
    tokensIgnoreWhiteSpaceLoop n l = significant (tokens l) := by
  induction n generalizing l with
  | zero =>
    have : tokens l = [] := List.length_eq_zero.mp (Nat.le_zero.mp h)
    rw [this]
    rfl
  | succ n ih =>
    have hv := view_TokenizeIgnoreWhiteSpace l
    simp only [view, Prod.ext_iff] at hv
    rw [tokensIgnoreWhiteSpaceLoop_succ, hv.1, hv.2.1]
    rcases stream.ignoreWhiteSpace_significant (tokens l) (tokens_ne_EOF l) with
      ⟨h1, h2⟩ | ⟨h1, h2, h3⟩
    · rw [if_pos h1, h2]
    · rw [if_neg h1, h2, ih _ (by rw [hv.2.2]; omega), hv.2.2]

/-- C17: for every input text, the pairs that repeated
`TokenizeIgnoreWhiteSpace` calls return before the end sentinel are the pairs
that repeated `Tokenize` calls return, with every `WHITESPACE` pair removed. -/
theorem TokenizeIgnoreWhiteSpace_filtered (query : String) :
    tokensIgnoreWhiteSpace (lexer.New query) = significant (tokens (lexer.New query)) :=
  tokensIgnoreWhiteSpaceLoop_eq _ _ (tokens_length_le _)

/-- C18: the text `a.b` of two non-empty digit runs is tokenized as three
tokens: `IDENTIFIER` with literal `a`, `DOT` with literal `.`, `IDENTIFIER`
with literal `b`. -/
theorem tokens_decimal (a b : String) (ha : isNumber a = true) (hb : isNumber b = true) :
    tokens (lexer.New (a ++ "." ++ b)) = [(IDENTIFIER, a), (DOT, "."), (IDENTIFIER, b)] := by
  have ha' := isNumber_isIdentifier a ha
  have hb' := isNumber_isIdentifier b hb
  rw [tokens_of_input _ (a.data ++ '.' :: b.data)
      (by simp only [lexer.New, String.data_append, List.append_assoc]; rfl),
    tokens_append _ _ (separated_head_unclassed a.data ('.' :: b.data) '.' rfl rfl), tokens_dot,
    tokens_identifier a ha', tokens_identifier b hb']
  rfl

/-- Witness of C18: the text `2.5` of the lexer test. -/
theorem tokens_decimal_witness :
    tokens (lexer.New ("2" ++ "." ++ "5")) =
      [(IDENTIFIER, "2"), (DOT, "."), (IDENTIFIER, "5")] :=
  tokens_decimal "2" "5" (by decide) (by decide)

/-! ## The anchors of the window pass and termination -/

theorem stream.skipTo_isSome (t : Token) (ts : stream.Tokens) (h : ∃ x ∈ ts, x.1 = t) :
    ∃ ts1, stream.skipTo t ts = some ts1 := by
  cases hs : stream.skipTo t ts with
  | some ts1 => exact ⟨ts1, rfl⟩
  | none =>
    exfalso
    obtain ⟨x, hx, hxt⟩ := h
    induction ts with
    | nil => cases hx
    | cons y ts ih =>
      obtain ⟨t1, lit⟩ := y
      simp only [stream.skipTo] at hs
      split_ifs at hs with h1
      rcases List.mem_cons.mp hx with rfl | hx
      · exact h1 hxt
      · exact ih hs hx

theorem stream.window_next_error {δ φ : Type} (s : Statement δ φ) (ts : stream.Tokens)
    (h : (stream.next ts).1 ≠ TIME ∧ (stream.next ts).1 ≠ LENGTH) :
    stream.window s ts = .error (.text ("invalid token=" ++ (stream.next ts).2.1)) := by
  unfold stream.window
  dsimp only
  split_ifs with h1 h2 h3
  · rfl
  · exact absurd h2 h.2
  · exact absurd h3 h.1
  · rfl

/-- C11: in a query that begins with `select` and on which the event type
pass and the projection pass succeed, when the token that follows the first
`.` token (the end sentinel when nothing follows) is neither `time` nor
`length`, `Parse` returns no statement and the error
`parse window: invalid token=` with that token's literal. -/
theorem Parse_window_keyword {δ φ : Type} (p : Parser δ) (H : Host δ φ) (fuel : Nat)
    (query : String) (s1 s2 : Statement δ φ) (pre rest : List (Token × String)) (ld : String)
    (hsel : (Tokenize (lexer.New query)).1 = SELECT)
    (hev : ParseEventType p fuel (statement.New : Statement δ φ) (lexer.New query) =
      some (.ok s1))
    (hfun : ParseFunction H fuel s1 (lexer.New query) = some (.ok s2))
    (htok : tokens (lexer.New query) = pre ++ ((DOT, ld) :: rest))
    (hpre : ∀ t ∈ pre, t.1 ≠ DOT)
    (hkw : (stream.next rest).1 ≠ TIME ∧ (stream.next rest).1 ≠ LENGTH)
    (hfuel : query.length < fuel) :
    p.Parse H fuel query =
      some (.error (.caused "parse window: "
        (.text ("invalid token=" ++ (stream.next rest).2.1)))) := by
  rw [Parse_of_stream p H fuel query hfuel]
  have hv := view_Tokenize (lexer.New query)
  simp only [view, Prod.ext_iff] at hv
  unfold stream.Parse
  dsimp only
  rw [← hv.1, hsel]
  simp only [ne_eq, not_true_eq_false, if_false]
  rw [ParseEventType_sound p fuel _ _ _ hev]
  dsimp only
  rw [ParseFunction_sound H fuel _ _ _ hfun]
  dsimp only
  unfold stream.ParseWindow
  rw [htok, stream.skipTo_append DOT pre rest ld hpre]
  dsimp only
  rw [stream.window_next_error s2 rest hkw]

/-- Witness of C11: in `select * from E. length(5)` a whitespace token follows
the first `.`. -/
theorem Parse_window_keyword_witness :
    exampleParser.Parse exampleHost 40 "select * from E. length(5)" =
      some (.error (.caused "parse window: " (.text ("invalid token=" ++ " ")))) :=
  Parse_window_keyword exampleParser exampleHost 40 "select * from E. length(5)"
    { EventType := some 7, Window := none, Length := none, Time := none, Function := [],
      Where := [] }
    { EventType := some 7, Window := none, Length := none, Time := none,
      Function := [.SelectAll], Where := [] }
    [(SELECT, "select"), (WHITESPACE, " "), (ASTERISK, "*"), (WHITESPACE, " "), (FROM, "from"),
      (WHITESPACE, " "), (IDENTIFIER, "E")]
    [(WHITESPACE, " "), (LENGTH, "length"), (LPAREN, "("), (IDENTIFIER, "5"), (RPAREN, ")")]
    "." (by decide) (by rfl) (by rfl) (by decide) (by decide) (by decide) (by decide)

theorem stream.ParseEventType_dot {δ φ : Type} (p : Parser δ) (s s1 : Statement δ φ)
    (ts : stream.Tokens) (h : stream.ParseEventType p s ts = some (.ok s1)) :
    ∃ x ∈ ts, x.1 = DOT := by
  unfold stream.ParseEventType at h
  cases hs : stream.skipTo FROM ts with
  | none => rw [hs] at h; cases h
  | some ts1 =>
    rw [hs] at h
    simp only [Option.some.injEq] at h
    obtain ⟨pre, lf, hts, _⟩ := stream.skipTo_some FROM ts ts1 hs
    obtain ⟨span, ld, rest, hts1, _, _, _⟩ := stream.eventTypeLoop_ok p s s1 ts1 h
    exact ⟨(DOT, ld), by rw [hts, hts1]; simp, rfl⟩

theorem stream.Parse_isSome {δ φ : Type} (p : Parser δ) (H : Host δ φ) (ts : stream.Tokens)
    (hfrom : ∃ x ∈ ts, x.1 = FROM) : ∃ r, stream.Parse p H ts = some r := by
  unfold stream.Parse
  dsimp only
  split_ifs
  · exact ⟨_, rfl⟩
  · cases h1 : stream.ParseEventType p (statement.New : Statement δ φ) ts with
    | none =>
      exfalso
      obtain ⟨ts1, hts1⟩ := stream.skipTo_isSome FROM ts hfrom
      simp [stream.ParseEventType, hts1] at h1
    | some r1 =>
      cases r1 with
      | error e => exact ⟨_, rfl⟩
      | ok s1 =>
        obtain ⟨tsd, hdot⟩ := stream.skipTo_isSome DOT ts (stream.ParseEventType_dot p _ s1 ts h1)
        dsimp only
        cases stream.ParseFunction H s1 ts with
        | error e => exact ⟨_, rfl⟩
        | ok s2 =>
          dsimp only
          unfold stream.ParseWindow stream.ParseWhere
          rw [hdot]
          dsimp only
          cases stream.window s2 tsd with
          | error e => exact ⟨_, rfl⟩
          | ok s3 =>
            dsimp only
            cases stream.whereLoop H s3 [] tsd with
            | error e => exact ⟨_, rfl⟩
            | ok list => exact ⟨_, rfl⟩

/-- C20: on a query whose token stream has a `from` token, `Parse` returns (a
statement or an error) as soon as the loops may run more iterations than the
text has characters; and when the event type pass returns success, the token
stream has a `.` token and the skip loop of the window pass and of the
predicate pass, which scans the same text, leaves at it. -/
theorem Parse_terminates {δ φ : Type} (p : Parser δ) (H : Host δ φ) (fuel : Nat)
    (query : String) (hfrom : ∃ t ∈ tokens (lexer.New query), t.1 = FROM)
    (hfuel : query.length < fuel) :
    (∃ r, p.Parse H fuel query = some r) ∧
    (∀ (s s1 : Statement δ φ), ParseEventType p fuel s (lexer.New query) = some (.ok s1) →
      (∃ t ∈ tokens (lexer.New query), t.1 = DOT) ∧
        ∃ l1, skipTo DOT fuel (lexer.New query) = some l1) := by
  constructor
  · rw [Parse_of_stream p H fuel query hfuel]
    exact stream.Parse_isSome p H _ hfrom
  · intro s s1 h
    have hdot := stream.ParseEventType_dot p s s1 _ (ParseEventType_sound p fuel s _ _ h)
    refine ⟨hdot, ?_⟩
    obtain ⟨tsd, htsd⟩ := stream.skipTo_isSome DOT _ hdot
    have hs := skipTo_tokens DOT (by decide) fuel (lexer.New query)
      (lt_of_le_of_lt (tokens_New_length query) hfuel)
    rw [htsd] at hs
    cases h1 : skipTo DOT fuel (lexer.New query) with
    | none => rw [h1] at hs; cases hs
    | some l1 => exact ⟨l1, rfl⟩

/-- Witness of C20: `select * from E.length(5)` has a `from` token. -/
theorem Parse_terminates_witness :
    (∃ r, exampleParser.Parse exampleHost 40 "select * from E.length(5)" = some r) ∧
    (∀ (s s1 : Statement Nat String),
      ParseEventType exampleParser 40 s (lexer.New "select * from E.length(5)") =
        some (.ok s1) →
      (∃ t ∈ tokens (lexer.New "select * from E.length(5)"), t.1 = DOT) ∧
        ∃ l1, skipTo DOT 40 (lexer.New "select * from E.length(5)") = some l1) :=
  Parse_terminates exampleParser exampleHost 40 "select * from E.length(5)" (by decide)
    (by decide)

theorem tokens_select_star (E : String) (rest : List Char) (hE : isIdentifier E = true)
    (hrest : rest.head? = some '.') :
    tokens ⟨"select * from ".data ++ (E.data ++ rest)⟩ =
      [(SELECT, "select"), (WHITESPACE, " "), (ASTERISK, "*"), (WHITESPACE, " "),
        (FROM, "from"), (WHITESPACE, " "), (IDENTIFIER, E)] ++ tokens ⟨rest⟩ := by
  have e1 : tokens ⟨"select * from ".data⟩ =
      [(SELECT, "select"), (WHITESPACE, " "), (ASTERISK, "*"), (WHITESPACE, " "),
        (FROM, "from"), (WHITESPACE, " ")] := by decide
  rw [tokens_append _ _ (separated_space_identifier "select * from ".data E rest rfl hE),
    tokens_append _ _ (separated_head_unclassed E.data rest '.' hrest rfl),
    tokens_identifier E hE, e1]
  rfl

theorem tokens_time_unit (n U : String) (tail : List Char) (hn : isNumber n = true)
    (hU : isIdentifier U = true) :
    tokens ⟨".time(".data ++ (n.data ++ (" ".data ++ (U.data ++ (")".data ++ tail))))⟩ =
      [(DOT, "."), (TIME, "time"), (LPAREN, "("), (IDENTIFIER, n), (WHITESPACE, " "),
        (IDENTIFIER, U), (RPAREN, ")")] ++ tokens ⟨tail⟩ := by
  have hn' := isNumber_isIdentifier n hn
  have e1 : tokens ⟨".time(".data⟩ = [(DOT, "."), (TIME, "time"), (LPAREN, "(")] := by decide
  have e2 : tokens ⟨" ".data⟩ = [(WHITESPACE, " ")] := by decide
  have e3 : tokens ⟨")".data⟩ = [(RPAREN, ")")] := by decide
  rw [tokens_append _ _ (separated_last_unclassed ".time(".data _ '(' rfl rfl),
    tokens_append _ _
      (separated_identifier_space n (" ".data ++ (U.data ++ (")".data ++ tail))) rfl hn'),
    tokens_append _ _ (separated_space_identifier " ".data U (")".data ++ tail) rfl hU),
    tokens_append _ _ (separated_head_unclassed U.data (")".data ++ tail) ')' rfl rfl),
    tokens_append _ _ (separated_last_unclassed ")".data tail ')' rfl rfl),
    tokens_identifier n hn', tokens_identifier U hU, e1, e2, e3]
  rfl

/-- C19: for an identifier `E` of the registry, a digit run `n` that
`strconv.Atoi` converts and a unit `U` that is an identifier (hence neither
`sec` nor `min`), `Parse` of `select * from E.time(n U)` succeeds, and the
statement it returns has the window kind `time` and no duration. -/
theorem Parse_time_unknown_unit {δ φ : Type} (p : Parser δ) (H : Host δ φ) (E n U : String)
    (d : δ) (v : Int) (fuel : Nat) (hE : isIdentifier E = true) (hreg : p.Registry E = some d)
    (hn : isNumber n = true) (hat : strconv.Atoi n = .ok v) (hU : isIdentifier U = true)
    (hfuel : ("select * from " ++ E ++ ".time(" ++ n ++ " " ++ U ++ ")").length < fuel) :
    p.Parse H fuel ("select * from " ++ E ++ ".time(" ++ n ++ " " ++ U ++ ")") =
      some (.ok { EventType := some d, Window := some TIME, Length := none, Time := none,
                  Function := [.SelectAll], Where := [] }) := by
  rw [Parse_of_stream p H fuel _ hfuel,
    tokens_of_input _
      ("select * from ".data ++ (E.data ++ (".time(".data ++ (n.data ++ (" ".data ++
        (U.data ++ (")".data ++ [])))))))
      (by simp only [lexer.New, String.data_append, List.append_assoc, List.append_nil]),
    tokens_select_star E _ hE (by rfl), tokens_time_unit n U [] hn hU, tokens_nil]
  simp [stream.Parse, stream.next, stream.ParseEventType, stream.skipTo,
    stream.eventTypeLoop, hreg, stream.ParseFunction, stream.aggregateOf, stream.ParseWindow,
    stream.window, stream.identifier, hat, stream.ignoreWhiteSpace, stream.ParseWhere]
  rw [stream.whereLoop_cons_skip _ _ _ _ _ _ (by decide),
    stream.whereLoop_cons_skip _ _ _ _ _ _ (by decide),
    stream.whereLoop_cons_skip _ _ _ _ _ _ (by decide),
    stream.whereLoop_cons_skip _ _ _ _ _ _ (by decide),
    stream.whereLoop_cons_skip _ _ _ _ _ _ (by decide),
    stream.whereLoop_cons_skip _ _ _ _ _ _ (by decide), stream.whereLoop_nil]
  rfl

/-- Witness of C19: `select * from E.time(10 hours)`. -/
theorem Parse_time_unknown_unit_witness :
    exampleParser.Parse exampleHost 100
        ("select * from " ++ "E" ++ ".time(" ++ "10" ++ " " ++ "hours" ++ ")") =
      some (.ok { EventType := some 7, Window := some TIME, Length := none, Time := none,
                  Function := [.SelectAll], Where := [] }) :=
  Parse_time_unknown_unit exampleParser exampleHost "E" "10" "hours" 7 10 100 (by decide)
    (by decide) (by decide) (by rfl) (by decide) (by decide)

/-! ## Fields of no kind -/

/-- C16: when the field named after one of the aggregate keywords `max`, `min`,
`med`, `sum`, `avg` is neither an integer nor a float field, the projection
pass goes on with the statement as it is, and when the field of a predicate is
neither, the predicate pass goes on with the predicate list as it is: no
entry, no error, whatever the literal of the predicate is. -/
theorem kindless_field_skipped {δ φ : Type} (H : Host δ φ) (fuel : Nat) (s : Statement δ φ)
    (list : List (expr.Where φ)) (l l1 : Lexer)
    (hagg : (Tokenize l).1 ∈ [MAX, MIN, MED, SUM, AVG])
    (hint : H.IntField s.EventType (TokenizeIdentifier (Tokenize l).2.2).2.1 = false)
    (hfloat : H.FloatField s.EventType (TokenizeIdentifier (Tokenize l).2.2).2.1 = false)
    (hint1 : H.IntField s.EventType (TokenizeIdentifier l1).2.1 = false)
    (hfloat1 : H.FloatField s.EventType (TokenizeIdentifier l1).2.1 = false) :
    ParseFunction H (fuel + 1) s l =
        ParseFunction H fuel s (TokenizeIdentifier (Tokenize l).2.2).2.2 ∧
      predicate H s list l1 =
        .ok (list,
          (TokenizeIdentifier (TokenizeIgnoreIdentifier (TokenizeIdentifier l1).2.2).2.2).2.2) := by
  constructor
  · rw [ParseFunction_succ]
    have hagg' : ∃ mk, stream.aggregateOf (Tokenize l).1 = some mk ∧ (Tokenize l).1 ≠ EOF ∧
        (Tokenize l).1 ≠ FROM ∧ (Tokenize l).1 ≠ ASTERISK ∧ (Tokenize l).1 ≠ COUNT := by
      simp only [List.mem_cons, List.mem_singleton, List.not_mem_nil, or_false] at hagg
      rcases hagg with h | h | h | h | h <;> rw [h] <;>
        exact ⟨_, rfl, by decide, by decide, by decide, by decide⟩
    obtain ⟨mk, hmk, h1, h2, h3, h4⟩ := hagg'
    rw [if_neg h1, if_neg h2, if_neg h3, if_neg h4, hmk]
    simp only [aggregate, hint, hfloat, Bool.false_eq_true, if_false]
  · unfold predicate
    simp only [hint1, hfloat1, Bool.false_eq_true, if_false]

/-- Witness of C16: `max(Name)` and the predicate `Name > abc` over the field
`Name`, which the host knows as neither an integer nor a float field. -/
theorem kindless_field_skipped_witness :
    ParseFunction exampleHost (10 + 1) (statement.New : Statement Nat String)
        (lexer.New "max(Name) from") =
      ParseFunction exampleHost 10 (statement.New : Statement Nat String)
        (TokenizeIdentifier (Tokenize (lexer.New "max(Name) from")).2.2).2.2 ∧
    predicate exampleHost (statement.New : Statement Nat String) [] (lexer.New " Name > abc") =
      .ok ([], (TokenizeIdentifier (TokenizeIgnoreIdentifier
        (TokenizeIdentifier (lexer.New " Name > abc")).2.2).2.2).2.2) :=
  kindless_field_skipped exampleHost 10 (statement.New : Statement Nat String) []
    (lexer.New "max(Name) from") (lexer.New " Name > abc") (by decide) (by rfl) (by rfl)
    (by rfl) (by rfl)

/-! ## The delimiters of the predicate pass -/

theorem sameOrDelimiters_token (x y : Token × String) (h : sameOrDelimiters x y) (t : Token)
    (ht : delimiter t = false) : (x.1 = t ↔ y.1 = t) ∧ (x.1 = t → x = y) := by
  rcases h with rfl | ⟨h1, h2⟩
  · exact ⟨Iff.rfl, fun _ => rfl⟩
  · refine ⟨⟨?_, ?_⟩, ?_⟩
    · intro hx; rw [hx, ht] at h1; cases h1
    · intro hy; rw [hy, ht] at h2; cases h2
    · intro hx; rw [hx, ht] at h1; cases h1

theorem sameOrDelimiters_delimiter (x y : Token × String) (h : sameOrDelimiters x y) :
    delimiter x.1 = delimiter y.1 := by
  rcases h with rfl | ⟨h1, h2⟩
  · rfl
  · rw [h1, h2]

theorem delimitersSwapped_refl (ts : stream.Tokens) : delimitersSwapped ts ts := by
  induction ts with
  | nil => exact List.Forall₂.nil
  | cons x ts ih => exact List.Forall₂.cons (Or.inl rfl) ih

theorem stream.skipTo_swapped (ts ts1 : stream.Tokens) (h : delimitersSwapped ts ts1) :
    (stream.skipTo DOT ts = none ∧ stream.skipTo DOT ts1 = none) ∨
    (∃ r r1, stream.skipTo DOT ts = some r ∧ stream.skipTo DOT ts1 = some r1 ∧
      delimitersSwapped r r1) := by
  induction h with
  | nil => left; exact ⟨rfl, rfl⟩
  | @cons x y ts ts1 hxy hts ih =>
    obtain ⟨t, lit⟩ := x
    obtain ⟨t1, lit1⟩ := y
    have hd := (sameOrDelimiters_token _ _ hxy DOT (by decide)).1
    simp only at hd
    simp only [stream.skipTo]
    by_cases ht : t = DOT
    · right
      rw [if_pos ht, if_pos (hd.mp ht)]
      exact ⟨ts, ts1, rfl, rfl, hts⟩
    · rw [if_neg ht, if_neg (fun h1 => ht (hd.mpr h1))]
      exact ih

theorem stream.identifier_swapped (ts ts1 : stream.Tokens) (h : delimitersSwapped ts ts1) :
    (stream.identifier ts).1 = (stream.identifier ts1).1 ∧
      (stream.identifier ts).2.1 = (stream.identifier ts1).2.1 ∧
      delimitersSwapped (stream.identifier ts).2.2 (stream.identifier ts1).2.2 := by
  induction h with
  | nil => exact ⟨rfl, rfl, List.Forall₂.nil⟩
  | @cons x y ts ts1 hxy hts ih =>
    obtain ⟨t, lit⟩ := x
    obtain ⟨t1, lit1⟩ := y
    have hd := sameOrDelimiters_token _ _ hxy IDENTIFIER (by decide)
    simp only at hd
    simp only [stream.identifier]
    by_cases ht : t = IDENTIFIER
    · have hxy' := hd.2 ht
      simp only [Prod.mk.injEq] at hxy'
      rw [if_pos ht, if_pos (hd.1.mp ht)]
      exact ⟨hxy'.1, hxy'.2, hts⟩
    · rw [if_neg ht, if_neg (fun h1 => ht (hd.1.mpr h1))]
      exact ih

theorem stream.ignoreIdentifier_swapped (ts ts1 : stream.Tokens)
    (h : delimitersSwapped ts ts1) :
    ((stream.ignoreIdentifier ts).1 = (stream.ignoreIdentifier ts1).1 ∨
      (delimiter (stream.ignoreIdentifier ts).1 = true ∧
        delimiter (stream.ignoreIdentifier ts1).1 = true)) ∧
      delimitersSwapped (stream.ignoreIdentifier ts).2.2 (stream.ignoreIdentifier ts1).2.2 := by
  induction h with
  | nil => exact ⟨Or.inl rfl, List.Forall₂.nil⟩
  | @cons x y ts ts1 hxy hts ih =>
    obtain ⟨t, lit⟩ := x
    obtain ⟨t1, lit1⟩ := y
    have hw := (sameOrDelimiters_token _ _ hxy WHITESPACE (by decide)).1
    have hi := (sameOrDelimiters_token _ _ hxy IDENTIFIER (by decide)).1
    simp only at hw hi
    simp only [stream.ignoreIdentifier]
    by_cases ht : t = WHITESPACE ∨ t = IDENTIFIER
    · have ht1 : t1 = WHITESPACE ∨ t1 = IDENTIFIER := by
        rcases ht with h1 | h1
        · exact Or.inl (hw.mp h1)
        · exact Or.inr (hi.mp h1)
      rw [if_pos ht, if_pos ht1]
      exact ih
    · have ht1 : ¬(t1 = WHITESPACE ∨ t1 = IDENTIFIER) := by
        rintro (h1 | h1)
        · exact ht (Or.inl (hw.mpr h1))
        · exact ht (Or.inr (hi.mpr h1))
      rw [if_neg ht, if_neg ht1]
      refine ⟨?_, hts⟩
      rcases hxy with hxy | hxy
      · left
        simp only [Prod.mk.injEq] at hxy
        exact hxy.1
      · right
        exact hxy

theorem compare_swapped {α : Type} (sel sel1 : Token) (a b : α) (list : List α)
    (h : sel = sel1 ∨ (delimiter sel = true ∧ delimiter sel1 = true)) :
    compare sel a b list = compare sel1 a b list := by
  rcases h with rfl | ⟨h1, h2⟩
  · rfl
  · have e1 : compare sel a b list = list := by
      cases sel <;> first | rfl | exact absurd h1 (by decide)
    have e2 : compare sel1 a b list = list := by
      cases sel1 <;> first | rfl | exact absurd h2 (by decide)
    rw [e1, e2]

theorem stream.predicate_eq_body {δ φ : Type} (H : Host δ φ) (s : Statement δ φ)
    (list : List (expr.Where φ)) (ts : stream.Tokens) :
    stream.predicate H s list ts =
      predicateBody H s list (stream.identifier ts).2.1
        (stream.ignoreIdentifier (stream.identifier ts).2.2).1
        (stream.identifier (stream.ignoreIdentifier (stream.identifier ts).2.2).2.2).2.1
        (stream.identifier (stream.identifier
          (stream.ignoreIdentifier (stream.identifier ts).2.2).2.2).2.2).2.1
        (stream.identifier (stream.ignoreIdentifier (stream.identifier ts).2.2).2.2).2.2
        (stream.identifier (stream.identifier
          (stream.ignoreIdentifier (stream.identifier ts).2.2).2.2).2.2).2.2 :=
  rfl

theorem predicateBody_swapped {δ φ : Type} (H : Host δ φ) (s : Statement δ φ)
    (list : List (expr.Where φ)) (name : String) (sel sel1 : Token) (value value2 : String)
    (ts3 ts4 r3 r4 : stream.Tokens)
    (hsel : sel = sel1 ∨ (delimiter sel = true ∧ delimiter sel1 = true))
    (h3 : delimitersSwapped ts3 r3) (h4 : delimitersSwapped ts4 r4) :
    (∃ err, predicateBody H s list name sel value value2 ts3 ts4 = .error err ∧
      predicateBody H s list name sel1 value value2 r3 r4 = .error err) ∨
    (∃ list1 r r1, predicateBody H s list name sel value value2 ts3 ts4 = .ok (list1, r) ∧
      predicateBody H s list name sel1 value value2 r3 r4 = .ok (list1, r1) ∧
      delimitersSwapped r r1) := by
  have key : ∀ (a b : expr.Where φ) (l : List (expr.Where φ)),
      compare sel a b l = compare sel1 a b l :=
    fun a b l => compare_swapped sel sel1 a b l hsel
  unfold predicateBody
  simp only [key]
  by_cases hint : H.IntField s.EventType name = true
  · simp only [hint, if_true]
    cases strconv.Atoi value with
    | error e => left; exact ⟨_, rfl, rfl⟩
    | ok val =>
      dsimp only
      by_cases hfloat : H.FloatField s.EventType name = true
      · simp only [hfloat, if_true]
        cases H.ParseFloat (value ++ "." ++ value2) with
        | none => left; exact ⟨_, rfl, rfl⟩
        | some v => right; exact ⟨_, _, _, rfl, rfl, h4⟩
      · simp only [hfloat, if_false]
        right; exact ⟨_, _, _, rfl, rfl, h3⟩
  · simp only [hint, if_false]
    by_cases hfloat : H.FloatField s.EventType name = true
    · simp only [hfloat, if_true]
      cases H.ParseFloat (value ++ "." ++ value2) with
      | none => left; exact ⟨_, rfl, rfl⟩
      | some v => right; exact ⟨_, _, _, rfl, rfl, h4⟩
    · simp only [hfloat, if_false]
      right; exact ⟨_, _, _, rfl, rfl, h3⟩

theorem stream.predicate_swapped {δ φ : Type} (H : Host δ φ) (s : Statement δ φ)
    (list : List (expr.Where φ)) (ts ts1 : stream.Tokens) (h : delimitersSwapped ts ts1) :
    (∃ err, stream.predicate H s list ts = .error err ∧
      stream.predicate H s list ts1 = .error err) ∨
    (∃ list1 r r1, stream.predicate H s list ts = .ok (list1, r) ∧
      stream.predicate H s list ts1 = .ok (list1, r1) ∧ delimitersSwapped r r1) := by
  have h1 := stream.identifier_swapped ts ts1 h
  have h2 := stream.ignoreIdentifier_swapped _ _ h1.2.2
  have h3 := stream.identifier_swapped _ _ h2.2
  have h4 := stream.identifier_swapped _ _ h3.2.2
  rw [stream.predicate_eq_body, stream.predicate_eq_body, ← h1.2.1, ← h3.2.1, ← h4.2.1]
  exact predicateBody_swapped H s list _ _ _ _ _ _ _ _ _ h2.1 h3.2.2 h4.2.2

theorem stream.whereLoop_swapped {δ φ : Type} (H : Host δ φ) (s : Statement δ φ) (n : Nat)
    (list : List (expr.Where φ)) (ts ts1 : stream.Tokens) (hn : ts.length ≤ n)
    (h : delimitersSwapped ts ts1) :
    stream.whereLoop H s list ts = stream.whereLoop H s list ts1 := by
  induction n generalizing list ts ts1 with
  | zero =>
    have : ts = [] := List.length_eq_zero.mp (Nat.le_zero.mp hn)
    subst this
    cases h
    rfl
  | succ n ih =>
    cases h with
    | nil => rfl
    | @cons x y ts ts1 hxy hts =>
      obtain ⟨t, lit⟩ := x
      obtain ⟨t1, lit1⟩ := y
      simp only [List.length_cons] at hn
      have he := (sameOrDelimiters_token _ _ hxy EOF (by decide)).1
      have hd := sameOrDelimiters_delimiter _ _ hxy
      simp only at he hd
      have hdel : ∀ u : Token, (u ≠ WHERE ∧ u ≠ AND ∧ u ≠ OR) ↔ delimiter u = false := by
        intro u; cases u <;> decide
      rw [stream.whereLoop_cons, stream.whereLoop_cons]
      by_cases hte : t = EOF
      · rw [if_pos hte, if_pos (he.mp hte)]
      · rw [if_neg hte, if_neg (fun h1 => hte (he.mpr h1))]
        by_cases htd : delimiter t = false
        · rw [if_pos ((hdel t).mpr htd), if_pos ((hdel t1).mpr (hd ▸ htd))]
          exact ih list ts ts1 (by omega) hts
        · rw [if_neg (fun h1 => htd ((hdel t).mp h1)),
            if_neg (fun h1 => htd (hd ▸ (hdel t1).mp h1))]
          rcases stream.predicate_swapped H s list ts ts1 hts with
            ⟨err, e1, e2⟩ | ⟨list1, r, r1, e1, e2, hr⟩
          · rw [e1, e2]
          · rw [e1, e2]
            have := stream.predicate_length H s _ _ _ _ e1
            exact ih list1 r r1 (by omega) hr

theorem stream.ParseWhere_swapped {δ φ : Type} (H : Host δ φ) (s : Statement δ φ)
    (ts ts1 : stream.Tokens) (h : delimitersSwapped ts ts1) :
    stream.ParseWhere H s ts = stream.ParseWhere H s ts1 := by
  unfold stream.ParseWhere
  rcases stream.skipTo_swapped ts ts1 h with ⟨e1, e2⟩ | ⟨r, r1, e1, e2, hr⟩
  · rw [e1, e2]
  · rw [e1, e2]
    dsimp only
    rw [stream.whereLoop_swapped H s _ [] r r1 (le_refl _) hr]

theorem compare_append {α : Type} (sel : Token) (a b : α) (list : List α) :
    parser.compare sel a b list = list ++ parser.compare sel a b [] := by
  cases sel <;> simp [parser.compare]

theorem predicate_eq_predicateBody {δ φ : Type} (H : Host δ φ) (s : Statement δ φ)
    (list : List (expr.Where φ)) (l : Lexer) :
    predicate H s list l =
      predicateBody H s list (TokenizeIdentifier l).2.1
        (TokenizeIgnoreIdentifier (TokenizeIdentifier l).2.2).1
        (TokenizeIdentifier (TokenizeIgnoreIdentifier (TokenizeIdentifier l).2.2).2.2).2.1
        (TokenizeIdentifier (TokenizeIdentifier
          (TokenizeIgnoreIdentifier (TokenizeIdentifier l).2.2).2.2).2.2).2.1
        (TokenizeIdentifier (TokenizeIgnoreIdentifier (TokenizeIdentifier l).2.2).2.2).2.2
        (TokenizeIdentifier (TokenizeIdentifier
          (TokenizeIgnoreIdentifier (TokenizeIdentifier l).2.2).2.2).2.2).2.2 :=
  rfl

theorem predicateBody_accumulates {δ φ ρ : Type} (H : Host δ φ) (s : Statement δ φ)
    (list : List (expr.Where φ)) (name : String) (sel : Token) (value value2 : String)
    (l3 l4 : ρ) :
    predicateBody H s list name sel value value2 l3 l4 =
      Except.map (fun r => (list ++ r.1, r.2))
        (predicateBody H s [] name sel value value2 l3 l4) := by
  unfold predicateBody
  have key : ∀ (a b : expr.Where φ) (l : List (expr.Where φ)),
      parser.compare sel a b l = l ++ parser.compare sel a b [] :=
    fun a b l => compare_append sel a b l
  cases H.IntField s.EventType name <;> cases H.FloatField s.EventType name <;>
    cases strconv.Atoi value <;> cases H.ParseFloat (value ++ "." ++ value2) <;>
    simp only [Bool.false_eq_true, if_false, if_true, Except.map, List.nil_append,
      List.append_nil] <;>
    first
      | rfl
      | (rw [key _ _ list]; done)
      | (rw [key _ _ (parser.compare _ _ _ list), key _ _ list,
          key _ _ (parser.compare _ _ _ []), List.append_assoc])

theorem predicate_accumulates {δ φ : Type} (H : Host δ φ) (s : Statement δ φ)
    (list : List (expr.Where φ)) (l : Lexer) :
    predicate H s list l =
      Except.map (fun r => (list ++ r.1, r.2)) (predicate H s [] l) := by
  rw [predicate_eq_predicateBody, predicate_eq_predicateBody]
  exact predicateBody_accumulates H s list _ _ _ _ _ _

theorem whereLoop_accumulates {δ φ : Type} (H : Host δ φ) (s : Statement δ φ) (fuel : Nat)
    (list : List (expr.Where φ)) (l : Lexer) :
    whereLoop H s fuel list l =
      Option.map (Except.map fun r => list ++ r) (whereLoop H s fuel [] l) := by
  induction fuel generalizing list l with
  | zero => rfl
  | succ fuel ih =>
    rw [whereLoop_succ, whereLoop_succ]
    split_ifs
    · simp [Except.map]
    · exact ih list _
    · rw [predicate_accumulates H s list]
      cases predicate H s [] (Tokenize l).2.2 with
      | error e => rfl
      | ok r =>
        obtain ⟨r1, l2⟩ := r
        simp only [Except.map]
        rw [ih (list ++ r1) l2, ih r1 l2, Option.map_map]
        congr 1
        funext x
        cases x <;> simp [Except.map]

theorem stream.whereLoop_clause {δ φ : Type} (H : Host δ φ) (s : Statement δ φ)
    (list : List (expr.Where φ)) (c : Clause) (rest : stream.Tokens)
    (hc : c.wellFormed H s.EventType = true) :
    stream.whereLoop H s list (c.tokens ++ rest) =
      match c.entries H s.EventType with
      | .error err => .error err
      | .ok es => stream.whereLoop H s (list ++ es) rest := by
  obtain ⟨opener, word, field, larger, value, fraction⟩ := c
  simp only [Clause.wellFormed, Bool.and_eq_true, Bool.or_eq_true, Bool.not_eq_true'] at hc
  obtain ⟨hd, hf⟩ := hc
  have hop : ¬ opener = EOF ∧ ¬ (opener ≠ WHERE ∧ opener ≠ AND ∧ opener ≠ OR) := by
    revert hd
    cases opener <;> simp [delimiter]
  simp only [Clause.tokens, List.cons_append, List.nil_append]
  rw [stream.whereLoop_cons_skip _ _ _ _ _ _ (by decide), stream.whereLoop_cons,
    if_neg hop.1, if_neg hop.2, stream.predicate_eq_body]
  have skip2 : ∀ (b : String) (acc : List (expr.Where φ)),
      stream.whereLoop H s acc ((DOT, ".") :: (IDENTIFIER, b) :: rest) =
        stream.whereLoop H s acc rest := by
    intro b acc
    rw [stream.whereLoop_cons_skip _ _ _ _ _ _ (by decide),
      stream.whereLoop_cons_skip _ _ _ _ _ _ (by decide)]
  cases hfr : fraction with
  | none =>
    have hfl : H.FloatField s.EventType field = false := by
      rcases hf with hf | hf
      · exact hf
      · rw [hfr] at hf; cases hf
    cases larger <;> cases hi : H.IntField s.EventType field <;>
      cases hat : strconv.Atoi value <;>
      simp [stream.identifier, stream.ignoreIdentifier, Clause.comparator, predicateBody,
        Clause.entries, hi, hfl, hat, parser.compare]
  | some b =>
    cases larger <;> cases hi : H.IntField s.EventType field <;>
      cases hfl : H.FloatField s.EventType field <;>
      cases hat : strconv.Atoi value <;>
      cases hpf : H.ParseFloat (value ++ "." ++ b) <;>
      simp [stream.identifier, stream.ignoreIdentifier, Clause.comparator, predicateBody,
        Clause.entries, hi, hfl, hat, hpf, parser.compare, skip2]

theorem stream.whereLoop_clauses {δ φ : Type} (H : Host δ φ) (s : Statement δ φ)
    (cs : List Clause) (list : List (expr.Where φ))
    (hcs : ∀ c ∈ cs, c.wellFormed H s.EventType = true) :
    stream.whereLoop H s list (clausesTokens cs) =
      Except.map (fun r => list ++ r) (clausesResult H s.EventType cs) := by
  induction cs generalizing list with
  | nil => simp [clausesTokens, clausesResult, stream.whereLoop_nil, Except.map]
  | cons c cs ih =>
    rw [clausesTokens, stream.whereLoop_clause H s list c _ (hcs c (by simp)), clausesResult]
    cases c.entries H s.EventType with
    | error err => rfl
    | ok es =>
      dsimp only
      rw [ih (list ++ es) (fun x hx => hcs x (by simp [hx]))]
      cases clausesResult H s.EventType cs with
      | error err => rfl
      | ok r => simp [Except.map]

theorem stream.ParseWhere_clauses {δ φ : Type} (H : Host δ φ) (s : Statement δ φ)
    (pre win : stream.Tokens) (ld : String) (cs : List Clause) (hpre : ∀ t ∈ pre, t.1 ≠ DOT)
    (hwin : ∀ t ∈ win, t.1 ≠ EOF ∧ t.1 ≠ WHERE ∧ t.1 ≠ AND ∧ t.1 ≠ OR)
    (hcs : ∀ c ∈ cs, c.wellFormed H s.EventType = true) :
    stream.ParseWhere H s (pre ++ (DOT, ld) :: (win ++ clausesTokens cs)) =
      some (Except.map (fun r => s.SetWhere r) (clausesResult H s.EventType cs)) := by
  unfold stream.ParseWhere
  rw [stream.skipTo_append DOT pre _ ld hpre]
  dsimp only
  rw [stream.whereLoop_skip H s [] win _ hwin, stream.whereLoop_clauses H s cs [] hcs]
  cases clausesResult H s.EventType cs with
  | error err => rfl
  | ok r => simp [Except.map]

/-- C14: when the token streams of two lexers differ only in which of the
delimiters `where`, `and`, `or` stands at a place (`and` replaced by `or`, or
the other way round), the predicate pass returns the same result on both, the
same error or the same statement with the same predicate list; the predicates
appended from a point of the text on come after those already in the list;
and when the tokens after the first `.` are those of a window without a
delimiter and of a list of clauses (delimiter, field, `>` or `<`, literal, and
the fraction for a float field), the result on both streams is the list of the
predicates of the clauses in the order of the text, the integer comparison of
an integer field and the float comparison of a float field, or the error of
the first clause whose literal is not converted. -/
theorem ParseWhere_delimiters {δ φ : Type} (H : Host δ φ) (s : Statement δ φ) (fuel : Nat)
    (l l1 : Lexer) (hswap : delimitersSwapped (tokens l) (tokens l1))
    (hfuel : (tokens l).length < fuel) :
    ParseWhere H fuel s l = ParseWhere H fuel s l1 ∧
    (∀ list, whereLoop H s fuel list l =
      Option.map (Except.map fun r => list ++ r) (whereLoop H s fuel [] l)) ∧
    (∀ (pre win : stream.Tokens) (ld : String) (cs : List Clause),
      tokens l = pre ++ (DOT, ld) :: (win ++ clausesTokens cs) →
      (∀ t ∈ pre, t.1 ≠ DOT) → (∀ t ∈ win, t.1 ≠ WHERE ∧ t.1 ≠ AND ∧ t.1 ≠ OR) →
      (∀ c ∈ cs, c.wellFormed H s.EventType = true) →
      ParseWhere H fuel s l =
          some (Except.map (fun r => s.SetWhere r) (clausesResult H s.EventType cs)) ∧
        ParseWhere H fuel s l1 =
          some (Except.map (fun r => s.SetWhere r) (clausesResult H s.EventType cs))) := by
  have hlen : (tokens l1).length < fuel := by
    rw [← List.Forall₂.length_eq hswap]; exact hfuel
  have hsame : ParseWhere H fuel s l = ParseWhere H fuel s l1 := by
    rw [ParseWhere_tokens H fuel s l hfuel, ParseWhere_tokens H fuel s l1 hlen]
    exact stream.ParseWhere_swapped H s _ _ hswap
  refine ⟨hsame, fun list => whereLoop_accumulates H s fuel list l, ?_⟩
  intro pre win ld cs htok hpre hwin hcs
  have hwin1 : ∀ t ∈ win, t.1 ≠ EOF ∧ t.1 ≠ WHERE ∧ t.1 ≠ AND ∧ t.1 ≠ OR := by
    intro t ht
    exact ⟨tokens_ne_EOF l t (by rw [htok]; simp [ht]), hwin t ht⟩
  have hres : ParseWhere H fuel s l =
      some (Except.map (fun r => s.SetWhere r) (clausesResult H s.EventType cs)) := by
    rw [ParseWhere_tokens H fuel s l hfuel, htok]
    exact stream.ParseWhere_clauses H s pre win ld cs hpre hwin1 hcs
  exact ⟨hres, hsame ▸ hres⟩

/-- Witness of C14: `where Value > 1 and Level < 2.5` and the same query with
`or` for `and`, with the integer field `Value` and the float field `Level`:
both give the integer comparison followed by the float comparison. -/
theorem ParseWhere_delimiters_witness :
    ParseWhere exampleHost 60 (statement.New : Statement Nat String)
        (lexer.New "select * from E.length(5) where Value > 1 and Level < 2.5") =
      ParseWhere exampleHost 60 (statement.New : Statement Nat String)
        (lexer.New "select * from E.length(5) where Value > 1 or Level < 2.5") ∧
    ParseWhere exampleHost 60 (statement.New : Statement Nat String)
        (lexer.New "select * from E.length(5) where Value > 1 and Level < 2.5") =
      some (.ok { EventType := none, Window := none, Length := none, Time := none,
                  Function := [],
                  Where := [.LargerThanInt "Value" 1, .LessThanFloat "Level" "2.5"] }) ∧
    ParseWhere exampleHost 60 (statement.New : Statement Nat String)
        (lexer.New "select * from E.length(5) where Value > 1 or Level < 2.5") =
      some (.ok { EventType := none, Window := none, Length := none, Time := none,
                  Function := [],
                  Where := [.LargerThanInt "Value" 1, .LessThanFloat "Level" "2.5"] }) :=
  have h := ParseWhere_delimiters exampleHost (statement.New : Statement Nat String) 60
    (lexer.New "select * from E.length(5) where Value > 1 and Level < 2.5")
    (lexer.New "select * from E.length(5) where Value > 1 or Level < 2.5") (by decide)
    (by decide)
  ⟨h.1,
    h.2.2
      [(SELECT, "select"), (WHITESPACE, " "), (ASTERISK, "*"), (WHITESPACE, " "),
        (FROM, "from"), (WHITESPACE, " "), (IDENTIFIER, "E")]
      [(LENGTH, "length"), (LPAREN, "("), (IDENTIFIER, "5"), (RPAREN, ")")] "."
      [⟨WHERE, "where", "Value", true, "1", none⟩, ⟨AND, "and", "Level", false, "2", some "5"⟩]
      (by decide) (by decide) (by decide) (by decide)⟩

/-! ## The fraction of a float literal -/

theorem tokens_and_clause (G c : String) (hG : isIdentifier G = true)
    (hc : isIdentifier c = true) :
    tokens ⟨" and ".data ++ (G.data ++ (" < ".data ++ c.data))⟩ =
      [(WHITESPACE, " "), (AND, "and"), (WHITESPACE, " "), (IDENTIFIER, G),
        (WHITESPACE, " "), (LESS, "<"), (WHITESPACE, " "), (IDENTIFIER, c)] := by
  have e1 : tokens ⟨" and ".data⟩ = [(WHITESPACE, " "), (AND, "and"), (WHITESPACE, " ")] := by
    decide
  have e3 : tokens ⟨" < ".data⟩ = [(WHITESPACE, " "), (LESS, "<"), (WHITESPACE, " ")] := by
    decide
  have h := separated_space_identifier " < ".data c [] rfl hc
  rw [List.append_nil] at h
  rw [tokens_append _ _ (separated_space_identifier " and ".data G _ rfl hG),
    tokens_append _ _ (separated_identifier_space G (" < ".data ++ c.data) rfl hG),
    tokens_append _ _ h, tokens_identifier G hG, tokens_identifier c hc, e1, e3]
  rfl

theorem stream.whereLoop_float_next {δ φ : Type} (H : Host δ φ) (s : Statement δ φ)
    (F a G c : String) (hint : H.IntField s.EventType F = false)
    (hfloat : H.FloatField s.EventType F = true) :
    stream.whereLoop H s []
      ([(WHITESPACE, " "), (WHERE, "where"), (WHITESPACE, " "), (IDENTIFIER, F),
          (WHITESPACE, " "), (LARGER, ">"), (WHITESPACE, " "), (IDENTIFIER, a)] ++
        [(WHITESPACE, " "), (AND, "and"), (WHITESPACE, " "), (IDENTIFIER, G),
          (WHITESPACE, " "), (LESS, "<"), (WHITESPACE, " "), (IDENTIFIER, c)]) =
      match H.ParseFloat (a ++ "." ++ G) with
      | none => .error (.text ("parse float=" ++ (a ++ "." ++ G)))
      | some val => .ok [.LargerThanFloat F val] := by
  have hp : stream.predicate H s []
      [(WHITESPACE, " "), (IDENTIFIER, F), (WHITESPACE, " "), (LARGER, ">"), (WHITESPACE, " "),
        (IDENTIFIER, a), (WHITESPACE, " "), (AND, "and"), (WHITESPACE, " "), (IDENTIFIER, G),
        (WHITESPACE, " "), (LESS, "<"), (WHITESPACE, " "), (IDENTIFIER, c)] =
      match H.ParseFloat (a ++ "." ++ G) with
      | none => .error (.text ("parse float=" ++ (a ++ "." ++ G)))
      | some val =>
        .ok ([.LargerThanFloat F val],
          [(WHITESPACE, " "), (LESS, "<"), (WHITESPACE, " "), (IDENTIFIER, c)]) := by
    simp [stream.predicate, stream.identifier, stream.ignoreIdentifier, hint, hfloat,
      parser.compare]
  rw [List.cons_append, stream.whereLoop_cons_skip _ _ _ _ _ _ (by decide), List.cons_append,
    stream.whereLoop_cons]
  simp only [List.cons_append, List.nil_append, reduceCtorEq, if_false, ne_eq,
    not_true_eq_false, false_and, not_false_eq_true]
  rw [hp]
  cases H.ParseFloat (a ++ "." ++ G) with
  | none => rfl
  | some val =>
    dsimp only
    rw [stream.whereLoop_cons_skip _ _ _ _ _ _ (by decide),
      stream.whereLoop_cons_skip _ _ _ _ _ _ (by decide),
      stream.whereLoop_cons_skip _ _ _ _ _ _ (by decide),
      stream.whereLoop_cons_skip _ _ _ _ _ _ (by decide), stream.whereLoop_nil]

/-- C13, amended: for a float and not integer field `F` the fraction is not
optional. On `pre.win where F > a and G < c` the predicate pass reads the next
identifier `G` as the digits of the fraction and converts the text `a.G`: it
returns the error `parse float=a.G` when `strconv.ParseFloat` rejects that
text, and otherwise the single float comparison of `F` with that value, and no
predicate for `G`. -/
theorem ParseWhere_float_without_fraction {δ φ : Type} (H : Host δ φ) (s : Statement δ φ)
    (pre win F a G c : String) (fuel : Nat) (hpre : '.' ∉ pre.data)
    (hwin : ∀ t ∈ tokens ⟨win.data⟩, t.1 ≠ WHERE ∧ t.1 ≠ AND ∧ t.1 ≠ OR)
    (hsep : separated win.data " ".data = true) (hF : isIdentifier F = true)
    (ha : isNumber a = true) (hG : isIdentifier G = true) (hc : isIdentifier c = true)
    (hint : H.IntField s.EventType F = false) (hfloat : H.FloatField s.EventType F = true)
    (hfuel : (pre ++ "." ++ win ++ " where " ++ F ++ " > " ++ a ++ " and " ++ G ++ " < "
      ++ c).length < fuel) :
    ParseWhere H fuel s
        (lexer.New (pre ++ "." ++ win ++ " where " ++ F ++ " > " ++ a ++ " and " ++ G ++ " < "
          ++ c)) =
      match H.ParseFloat (a ++ "." ++ G) with
      | none => some (.error (.text ("parse float=" ++ (a ++ "." ++ G))))
      | some val => some (.ok (s.SetWhere [.LargerThanFloat F val])) := by
  have ha' := isNumber_isIdentifier a ha
  have hq : (lexer.New (pre ++ "." ++ win ++ " where " ++ F ++ " > " ++ a ++ " and " ++ G
      ++ " < " ++ c)).input =
      pre.data ++ '.' :: (win.data ++ (" where ".data ++ (F.data ++ (" > ".data ++
        (a.data ++ (" and ".data ++ (G.data ++ (" < ".data ++ c.data)))))))) := by
    simp only [lexer.New, String.data_append, List.append_assoc]
    rfl
  have hsa : separated a.data (" and ".data ++ (G.data ++ (" < ".data ++ c.data))) = true :=
    separated_identifier_space a _ rfl ha'
  rw [ParseWhere_tokens H fuel s _ (lt_of_le_of_lt (tokens_New_length _) hfuel)]
  unfold stream.ParseWhere
  rw [tokens_of_input _ _ hq, stream.skipTo_dot_text _ _ hpre]
  dsimp only
  rw [stream.whereLoop_window_clause H s _ _ hwin
      (by rw [← hsep]; exact separated_congr _ _ _ rfl),
    (tokens_where_clause F a _ hF ha' hsa).1, tokens_and_clause G c hG hc,
    stream.whereLoop_float_next H s F a G c hint hfloat]
  cases H.ParseFloat (a ++ "." ++ G) <;> rfl

/-- Witness of C13, amended: `where Level > 2 and Value < 3` with the float
field `Level`, in a host that rejects the text `2.Value`. -/
theorem ParseWhere_float_without_fraction_witness :
    ParseWhere strictHost 100 (statement.New : Statement Nat String)
        (lexer.New ("select * from E" ++ "." ++ "length(5)" ++ " where " ++ "Level" ++ " > "
          ++ "2" ++ " and " ++ "Value" ++ " < " ++ "3")) =
      match strictHost.ParseFloat ("2" ++ "." ++ "Value") with
      | none => some (.error (.text ("parse float=" ++ ("2" ++ "." ++ "Value"))))
      | some val =>
        some (.ok ((statement.New : Statement Nat String).SetWhere
          [.LargerThanFloat "Level" val])) :=
  ParseWhere_float_without_fraction strictHost (statement.New : Statement Nat String)
    "select * from E" "length(5)" "Level" "2" "Value" "3" 100 (by decide) (by decide)
    (by decide) (by decide) (by decide) (by decide) (by decide) (by rfl) (by rfl) (by decide)

/-- Counterexample to C13 as stated: `select * from E.length(5) where Level > 2
and Value < 3`, with the float field `Level` and the integer field `Value`, is
rejected with `parse float=2.Value` when the conversion rejects that text; and
were the text converted, the predicate list would be the one float comparison
with the value of `2.Value`, with no predicate for `Value`. -/
theorem Parse_float_without_fraction :
    exampleParser.Parse strictHost 100
        "select * from E.length(5) where Level > 2 and Value < 3" =
      some (.error (.caused "parse selector: " (.text "parse float=2.Value"))) ∧
    exampleParser.Parse exampleHost 100
        "select * from E.length(5) where Level > 2 and Value < 3" =
      some (.ok { EventType := some 7, Window := some LENGTH, Length := some 5, Time := none,
                  Function := [.SelectAll],
                  Where := [.LargerThanFloat "Level" "2.Value"] }) :=
  ⟨by rfl, by rfl⟩

/-! ## The order of the projection list -/

theorem aggregate_eq_appended {δ φ : Type} (H : Host δ φ) (s : Statement δ φ) (a : Aggregate)
    (field : String) :
    aggregate H s field (a.intExpr field) (a.floatExpr field) =
      appendEntries s ((Item.agg a field).appended H s.EventType) := by
  cases hi : H.IntField s.EventType field <;> cases hf : H.FloatField s.EventType field <;>
    simp [aggregate, Item.appended, appendEntries, Statement.SetFunction, hi, hf]

theorem aggregateOf_token (a : Aggregate) :
    stream.aggregateOf a.token = some (fun name => (a.intExpr name, a.floatExpr name)) ∧
      a.token ≠ EOF ∧ a.token ≠ FROM ∧ a.token ≠ ASTERISK ∧ a.token ≠ COUNT := by
  cases a <;> exact ⟨rfl, by decide, by decide, by decide, by decide⟩

theorem stream.ParseFunction_item {δ φ : Type} (H : Host δ φ) (s : Statement δ φ)
    (item : Item) (rest : stream.Tokens) :
    stream.ParseFunction H s (item.tokens ++ rest) =
      stream.ParseFunction H (appendEntries s (item.appended H s.EventType)) rest := by
  cases item with
  | count =>
    simp [Item.tokens, stream.ParseFunction, stream.aggregateOf, Item.appended, appendEntries,
      Statement.SetFunction]
  | agg a field =>
    obtain ⟨h0, h1, h2, h3, h4⟩ := aggregateOf_token a
    simp only [Item.tokens, List.cons_append, List.nil_append]
    rw [stream.ParseFunction]
    simp only [h1, h2, h3, h4, if_false, h0]
    simp only [stream.identifier, reduceCtorEq, if_false, if_true]
    rw [aggregate_eq_appended, stream.ParseFunction]
    simp [stream.aggregateOf]


theorem stream.ParseFunction_items {δ φ : Type} (H : Host δ φ) (items : List Item)
    (s : Statement δ φ) (more : stream.Tokens) :
    stream.ParseFunction H s (itemsTokens items ++ more) =
      stream.ParseFunction H (appendEntries s (itemsAppended H s.EventType items)) more := by
  induction items generalizing s with
  | nil => simp [itemsTokens, itemsAppended, appendEntries]
  | cons item items ih =>
    simp only [itemsTokens, List.cons_append, List.append_assoc]
    rw [stream.ParseFunction]
    simp only [reduceCtorEq, if_false, stream.aggregateOf]
    rw [stream.ParseFunction]
    simp only [reduceCtorEq, if_false, stream.aggregateOf]
    rw [stream.ParseFunction_item, ih]
    simp [appendEntries, itemsAppended]

theorem tokens_keyword (a : Aggregate) : tokens ⟨a.keyword.data⟩ = [(a.token, a.keyword)] := by
  cases a <;> decide

theorem keyword_head (a : Aggregate) :
    ∃ c cs, a.keyword.data = c :: cs ∧ c.isAlpha = true := by
  cases a
  · exact ⟨'m', "ax".data, rfl, by decide⟩
  · exact ⟨'m', "in".data, rfl, by decide⟩
  · exact ⟨'m', "ed".data, rfl, by decide⟩
  · exact ⟨'s', "um".data, rfl, by decide⟩
  · exact ⟨'a', "vg".data, rfl, by decide⟩

theorem Item.text_data (item : Item) :
    item.text.data = "count(*)".data ∨
      ∃ a field, item = .agg a field ∧
        item.text.data = a.keyword.data ++ ("(".data ++ (field.data ++ ")".data)) := by
  cases item with
  | count => left; rfl
  | agg a field =>
    right
    exact ⟨a, field, rfl, by simp only [Item.text, String.data_append, List.append_assoc]⟩

theorem tokens_item (item : Item) (more : List Char) (hw : item.wellFormed = true) :
    tokens ⟨item.text.data ++ more⟩ = item.tokens ++ tokens ⟨more⟩ := by
  cases item with
  | count =>
    have e1 : tokens ⟨"count(*)".data⟩ =
        [(COUNT, "count"), (LPAREN, "("), (ASTERISK, "*"), (RPAREN, ")")] := by decide
    show tokens ⟨"count(*)".data ++ more⟩ = _
    rw [tokens_append _ _ (separated_last_unclassed "count(*)".data more ')' rfl rfl), e1]
    rfl
  | agg a field =>
    have hf : isIdentifier field = true := hw
    have e1 : tokens ⟨"(".data⟩ = [(LPAREN, "(")] := by decide
    have e2 : tokens ⟨")".data⟩ = [(RPAREN, ")")] := by decide
    have hd : (Item.agg a field).text.data ++ more =
        a.keyword.data ++ ("(".data ++ (field.data ++ (")".data ++ more))) := by
      simp only [Item.text, String.data_append, List.append_assoc]
    rw [hd,
      tokens_append _ _ (separated_head_unclassed a.keyword.data
        ("(".data ++ (field.data ++ (")".data ++ more))) '(' rfl rfl),
      tokens_append _ _ (separated_last_unclassed "(".data (field.data ++ (")".data ++ more))
        '(' rfl rfl),
      tokens_append _ _ (separated_head_unclassed field.data (")".data ++ more) ')' rfl rfl),
      tokens_append _ _ (separated_last_unclassed ")".data more ')' rfl rfl),
      tokens_keyword, tokens_identifier field hf, e1, e2]
    rfl

theorem separated_space_item (a : List Char) (item : Item) (more : List Char)
    (ha : a.getLast? = some ' ') : separated a (item.text.data ++ more) = true := by
  have h1 : Char.isAlpha ' ' = false := by decide
  have h2 : Char.isDigit ' ' = false := by decide
  cases item with
  | count =>
    show separated a ("count(*)".data ++ more) = true
    simp [separated, ha, joins, h1, h2]
  | agg k field =>
    obtain ⟨c, cs, hd, hc⟩ := keyword_head k
    have hd1 : (Item.agg k field).text.data ++ more =
        c :: (cs ++ ("(".data ++ (field.data ++ (")".data ++ more)))) := by
      simp only [Item.text, String.data_append, List.append_assoc, hd, List.cons_append]
    rw [hd1]
    simp [separated, ha, joins, hc, h1, h2, alpha_not_ws c hc]

theorem tokens_items (items : List Item) (more : List Char)
    (hw : ∀ item ∈ items, item.wellFormed = true) :
    tokens ⟨(itemsText items).data ++ more⟩ = itemsTokens items ++ tokens ⟨more⟩ := by
  induction items with
  | nil => rfl
  | cons item items ih =>
    have e1 : tokens ⟨", ".data⟩ = [(COMMA, ","), (WHITESPACE, " ")] := by decide
    have hd : (itemsText (item :: items)).data ++ more =
        ", ".data ++ (item.text.data ++ ((itemsText items).data ++ more)) := by
      simp only [itemsText, String.data_append, List.append_assoc]
    rw [hd, tokens_append _ _ (separated_space_item ", ".data item _ rfl), e1,
      tokens_item item _ (hw item (by simp)), ih (fun x hx => hw x (by simp [hx]))]
    simp [itemsTokens]


theorem tokens_select_items (first : Item) (rest : List Item) (tail : String)
    (hw : ∀ item ∈ first :: rest, item.wellFormed = true) :
    tokens (lexer.New ("select " ++ first.text ++ itemsText rest ++ " from " ++ tail)) =
      (SELECT, "select") :: (WHITESPACE, " ") ::
        (first.tokens ++ (itemsTokens rest ++
          ((WHITESPACE, " ") :: (FROM, "from") :: tokens ⟨' ' :: tail.data⟩))) := by
  have e1 : tokens ⟨"select ".data⟩ = [(SELECT, "select"), (WHITESPACE, " ")] := by decide
  have e2 : tokens ⟨" from".data⟩ = [(WHITESPACE, " "), (FROM, "from")] := by decide
  rw [tokens_of_input _
      ("select ".data ++ (first.text.data ++ ((itemsText rest).data ++
        (" from".data ++ (' ' :: tail.data)))))
      (by simp only [lexer.New, String.data_append, List.append_assoc]; rfl),
    tokens_append _ _ (separated_space_item "select ".data first _ rfl), e1,
    tokens_item first _ (hw first (by simp)),
    tokens_items rest _ (fun x hx => hw x (by simp [hx])),
    tokens_append " from".data (' ' :: tail.data) (by rfl), e2]
  rfl

theorem stream.ParseFunction_select_items {δ φ : Type} (H : Host δ φ) (s : Statement δ φ)
    (first : Item) (rest : List Item) (more : stream.Tokens) :
    stream.ParseFunction H s
        ((SELECT, "select") :: (WHITESPACE, " ") ::
          (first.tokens ++ (itemsTokens rest ++
            ((WHITESPACE, " ") :: (FROM, "from") :: more)))) =
      .ok (appendEntries s (itemsAppended H s.EventType (first :: rest))) := by
  rw [stream.ParseFunction]
  simp only [reduceCtorEq, if_false, stream.aggregateOf]
  rw [stream.ParseFunction]
  simp only [reduceCtorEq, if_false, stream.aggregateOf]
  rw [stream.ParseFunction_item, stream.ParseFunction_items, stream.ParseFunction]
  simp only [reduceCtorEq, if_false, stream.aggregateOf]
  rw [stream.ParseFunction]
  simp [appendEntries, itemsAppended]

/-- C15, counterexample: `select max(min(Value)) from E.length(5)` is accepted
and its projection list is the single entry of `max`; the keyword `min`, which
stands before `from`, contributes no entry: the scan of `max` for its field
passes over it. -/
theorem Parse_nested_aggregate :
    exampleParser.Parse exampleHost 100 "select max(min(Value)) from E.length(5)" =
      some (.ok { EventType := some 7, Window := some LENGTH, Length := some 5, Time := none,
                  Function := [.MaxInt "Value" "max(Value)"], Where := [] }) := by
  rfl

theorem aggregates_appended {δ φ : Type} (H : Host δ φ) (ev : Option δ) (items : List Item) :
    aggregates (itemsAppended H ev items) = itemsEntries H ev items := by
  induction items with
  | nil => rfl
  | cons item items ih =>
    have hi : aggregates (item.appended H ev) = item.entries H ev := by
      cases item with
      | count => rfl
      | agg a field =>
        cases a <;> cases hi : H.IntField ev field <;> cases hf : H.FloatField ev field <;>
          simp [aggregates, Item.appended, Item.entries, hi, hf, Aggregate.intExpr,
            Aggregate.floatExpr]
    unfold aggregates at ih hi ⊢
    rw [itemsAppended, itemsEntries, List.filter_append, ih, hi]

/-- C15, amended: when `Parse` accepts a query whose select clause is a list
of items `count(*)` and `agg(field)`, separated by a comma and a space, with
`agg` one of `max`, `min`, `med`, `sum`, `avg` and `field` an identifier, the
entries of the projection list that are not select-all expressions are, in the
order of the items, the entries of the keywords: for `count` the count
expression, for `agg(field)` the integer expression when the field is an
integer field of the event type, then the float expression when it is a float
field, each with the field as name and `agg(field)` as label. -/
theorem Parse_projection_order {δ φ : Type} (p : Parser δ) (H : Host δ φ) (first : Item)
    (rest : List Item) (tail : String) (fuel : Nat) (s : Statement δ φ)
    (hw : ∀ item ∈ first :: rest, item.wellFormed = true)
    (h : p.Parse H fuel ("select " ++ first.text ++ itemsText rest ++ " from " ++ tail) =
      some (.ok s)) :
    aggregates s.Function = itemsEntries H s.EventType (first :: rest) := by
  have hs := Parse_sound p H fuel _ _ h
  obtain ⟨s1, s2, s3, ts1, tsd, list, -, -, h1, h2, -, h3, -, rfl⟩ := stream.Parse_ok p H _ s hs
  obtain ⟨span, ld, r, -, -, -, e1⟩ := stream.eventTypeLoop_ok p _ s1 ts1 h1
  rw [tokens_select_items first rest tail hw, stream.ParseFunction_select_items] at h2
  simp only [Except.ok.injEq] at h2
  have e3 : s3.Function = s2.Function ∧ s3.EventType = s2.EventType := by
    rcases stream.window_ok s2 s3 tsd h3 with ⟨n, rfl⟩ | ⟨d, rfl⟩ | rfl <;> exact ⟨rfl, rfl⟩
  show aggregates s3.Function = itemsEntries H s3.EventType (first :: rest)
  have e4 : s1.Function = [] := by rw [e1]; rfl
  have e5 : s2.Function = itemsAppended H s1.EventType (first :: rest) := by
    rw [← h2]
    simp [appendEntries, e4]
  have e6 : s2.EventType = s1.EventType := by rw [← h2]; rfl
  rw [e3.1, e3.2, e5, e6, aggregates_appended]

/-- Witness of C15: `select count(*), avg(Value), sum(Level) from E.time(10 sec)`,
with `Value` an integer field and `Level` a float field. -/
theorem Parse_projection_order_witness :
    exampleParser.Parse exampleHost 100
        ("select " ++ Item.count.text ++ itemsText [.agg .avg "Value", .agg .sum "Level"] ++
          " from " ++ "E.time(10 sec)") =
      some (.ok { EventType := some 7, Window := some TIME, Length := none,
                  Time := some (10 * Second),
                  Function := [.Count "count(*)", .SelectAll, .AverageInt "Value" "avg(Value)",
                    .SumFloat "Level" "sum(Level)"],
                  Where := [] }) ∧
    aggregates [.Count "count(*)", .SelectAll, .AverageInt "Value" "avg(Value)",
        .SumFloat "Level" "sum(Level)"] =
      itemsEntries exampleHost (some 7) [.count, .agg .avg "Value", .agg .sum "Level"] :=
  ⟨by rfl,
    Parse_projection_order exampleParser exampleHost .count
      [.agg .avg "Value", .agg .sum "Level"] "E.time(10 sec)" 100 _ (by decide) (by rfl)⟩

/-! ## Whitespace between tokens -/

theorem significant_cons_ws (lit : String) (ts : stream.Tokens) :
    significant ((WHITESPACE, lit) :: ts) = significant ts := by
  simp [significant]

theorem significant_cons_ne (t : Token) (lit : String) (ts : stream.Tokens)
    (h : t ≠ WHITESPACE) : significant ((t, lit) :: ts) = (t, lit) :: significant ts := by
  simp [significant, h]

theorem significant_append (ts ts1 : stream.Tokens) :
    significant (ts ++ ts1) = significant ts ++ significant ts1 := by
  simp [significant]

theorem stream.identifier_significant (ts : stream.Tokens) :
    stream.identifier (significant ts) =
      ((stream.identifier ts).1, (stream.identifier ts).2.1,
        significant (stream.identifier ts).2.2) := by
  induction ts with
  | nil => rfl
  | cons x ts ih =>
    obtain ⟨t, lit⟩ := x
    by_cases hw : t = WHITESPACE
    · subst hw
      rw [significant_cons_ws, ih]
      simp [stream.identifier]
    · rw [significant_cons_ne t lit ts hw]
      simp only [stream.identifier]
      split_ifs
      · rfl
      · exact ih

theorem stream.ignoreIdentifier_significant (ts : stream.Tokens) :
    stream.ignoreIdentifier (significant ts) =
      ((stream.ignoreIdentifier ts).1, (stream.ignoreIdentifier ts).2.1,
        significant (stream.ignoreIdentifier ts).2.2) := by
  induction ts with
  | nil => rfl
  | cons x ts ih =>
    obtain ⟨t, lit⟩ := x
    by_cases hw : t = WHITESPACE
    · subst hw
      rw [significant_cons_ws, ih]
      simp [stream.ignoreIdentifier]
    · rw [significant_cons_ne t lit ts hw]
      simp only [stream.ignoreIdentifier]
      split_ifs
      · exact ih
      · rfl

theorem stream.ignoreWhiteSpace_filtered (ts : stream.Tokens) :
    stream.ignoreWhiteSpace (significant ts) =
      ((stream.ignoreWhiteSpace ts).1, (stream.ignoreWhiteSpace ts).2.1,
        significant (stream.ignoreWhiteSpace ts).2.2) := by
  induction ts with
  | nil => rfl
  | cons x ts ih =>
    obtain ⟨t, lit⟩ := x
    by_cases hw : t = WHITESPACE
    · subst hw
      rw [significant_cons_ws, ih]
      simp [stream.ignoreWhiteSpace]
    · rw [significant_cons_ne t lit ts hw]
      simp only [stream.ignoreWhiteSpace, hw, if_false]

theorem stream.skipTo_significant (t : Token) (ts : stream.Tokens) (ht : t ≠ WHITESPACE) :
    stream.skipTo t (significant ts) = Option.map significant (stream.skipTo t ts) := by
  induction ts with
  | nil => rfl
  | cons x ts ih =>
    obtain ⟨t1, lit⟩ := x
    by_cases hw : t1 = WHITESPACE
    · subst hw
      rw [significant_cons_ws, ih]
      simp [stream.skipTo, Ne.symm ht]
    · rw [significant_cons_ne t1 lit ts hw]
      simp only [stream.skipTo]
      split_ifs
      · rfl
      · exact ih

theorem stream.eventTypeLoop_significant {δ φ : Type} (p : Parser δ) (s : Statement δ φ)
    (ts : stream.Tokens) :
    stream.eventTypeLoop p s (significant ts) = stream.eventTypeLoop p s ts := by
  induction ts generalizing s with
  | nil => rfl
  | cons x ts ih =>
    obtain ⟨t, lit⟩ := x
    by_cases hw : t = WHITESPACE
    · subst hw
      rw [significant_cons_ws, ih]
      simp [stream.eventTypeLoop]
    · rw [significant_cons_ne t lit ts hw]
      simp only [stream.eventTypeLoop]
      split_ifs
      · rfl
      · rfl
      · cases p.Registry lit with
        | none => rfl
        | some v => exact ih _
      · exact ih _

theorem stream.ParseEventType_significant {δ φ : Type} (p : Parser δ) (s : Statement δ φ)
    (ts : stream.Tokens) :
    stream.ParseEventType p s (significant ts) = stream.ParseEventType p s ts := by
  unfold stream.ParseEventType
  rw [stream.skipTo_significant FROM ts (by decide)]
  cases stream.skipTo FROM ts with
  | none => rfl
  | some ts1 =>
    simp only [Option.map_some']
    rw [stream.eventTypeLoop_significant]

theorem stream.ParseFunction_significant {δ φ : Type} (H : Host δ φ) (n : Nat)
    (s : Statement δ φ) (ts : stream.Tokens) (hn : ts.length ≤ n) :
    stream.ParseFunction H s (significant ts) = stream.ParseFunction H s ts := by
  induction n generalizing s ts with
  | zero =>
    have : ts = [] := List.length_eq_zero.mp (Nat.le_zero.mp hn)
    subst this
    rfl
  | succ n ih =>
    cases ts with
    | nil => rfl
    | cons x ts =>
      obtain ⟨t, lit⟩ := x
      simp only [List.length_cons] at hn
      by_cases hw : t = WHITESPACE
      · subst hw
        rw [significant_cons_ws, ih s ts (by omega)]
        conv_rhs => rw [stream.ParseFunction]
        simp [stream.aggregateOf]
      · rw [significant_cons_ne t lit ts hw, stream.ParseFunction]
        conv_rhs => rw [stream.ParseFunction]
        split_ifs
        · rfl
        · rfl
        · exact ih _ ts (by omega)
        · exact ih _ ts (by omega)
        · cases stream.aggregateOf t with
          | none => exact ih s ts (by omega)
          | some mk =>
            dsimp only
            rw [stream.identifier_significant]
            dsimp only
            exact ih _ _ (le_trans (stream.identifier_length ts) (by omega))

theorem predicateBody_map {δ φ ρ σ : Type} (f : ρ → σ) (H : Host δ φ) (s : Statement δ φ)
    (list : List (expr.Where φ)) (name : String) (sel : Token) (value value2 : String)
    (ts3 ts4 : ρ) :
    predicateBody H s list name sel value value2 (f ts3) (f ts4) =
      Except.map (fun r => (r.1, f r.2))
        (predicateBody H s list name sel value value2 ts3 ts4) := by
  unfold predicateBody
  by_cases hint : H.IntField s.EventType name = true
  · simp only [hint, if_true]
    cases strconv.Atoi value with
    | error e => rfl
    | ok val =>
      dsimp only
      by_cases hfloat : H.FloatField s.EventType name = true
      · simp only [hfloat, if_true]
        cases H.ParseFloat (value ++ "." ++ value2) <;> rfl
      · simp only [hfloat, if_false]
        rfl
  · simp only [hint, if_false]
    by_cases hfloat : H.FloatField s.EventType name = true
    · simp only [hfloat, if_true]
      cases H.ParseFloat (value ++ "." ++ value2) <;> rfl
    · simp only [hfloat, if_false]
      rfl

theorem stream.predicate_significant {δ φ : Type} (H : Host δ φ) (s : Statement δ φ)
    (list : List (expr.Where φ)) (ts : stream.Tokens) :
    stream.predicate H s list (significant ts) =
      Except.map (fun r => (r.1, significant r.2)) (stream.predicate H s list ts) := by
  rw [stream.predicate_eq_body, stream.predicate_eq_body, ← predicateBody_map]
  simp only [stream.identifier_significant, stream.ignoreIdentifier_significant]

theorem stream.whereLoop_significant {δ φ : Type} (H : Host δ φ) (s : Statement δ φ) (n : Nat)
    (list : List (expr.Where φ)) (ts : stream.Tokens) (hn : ts.length ≤ n) :
    stream.whereLoop H s list (significant ts) = stream.whereLoop H s list ts := by
  induction n generalizing list ts with
  | zero =>
    have : ts = [] := List.length_eq_zero.mp (Nat.le_zero.mp hn)
    subst this
    rfl
  | succ n ih =>
    cases ts with
    | nil => rfl
    | cons x ts =>
      obtain ⟨t, lit⟩ := x
      simp only [List.length_cons] at hn
      by_cases hw : t = WHITESPACE
      · subst hw
        rw [significant_cons_ws, ih list ts (by omega),
          stream.whereLoop_cons_skip H s list WHITESPACE lit ts (by decide)]
      · rw [significant_cons_ne t lit ts hw, stream.whereLoop_cons, stream.whereLoop_cons]
        split_ifs
        · rfl
        · exact ih list ts (by omega)
        · rw [stream.predicate_significant]
          cases hp : stream.predicate H s list ts with
          | error e => rfl
          | ok r =>
            obtain ⟨list1, ts2⟩ := r
            have := stream.predicate_length H s _ _ _ _ hp
            exact ih list1 ts2 (by omega)

theorem stream.ParseWhere_significant {δ φ : Type} (H : Host δ φ) (s : Statement δ φ)
    (ts : stream.Tokens) :
    stream.ParseWhere H s (significant ts) = stream.ParseWhere H s ts := by
  unfold stream.ParseWhere
  rw [stream.skipTo_significant DOT ts (by decide)]
  cases stream.skipTo DOT ts with
  | none => rfl
  | some ts1 =>
    simp only [Option.map_some']
    rw [stream.whereLoop_significant H s _ [] ts1 (le_refl _)]

theorem stream.next_significant (ts : stream.Tokens) (h : (stream.next ts).1 ≠ WHITESPACE) :
    stream.next (significant ts) =
      ((stream.next ts).1, (stream.next ts).2.1, significant (stream.next ts).2.2) := by
  cases ts with
  | nil => rfl
  | cons x ts =>
    obtain ⟨t, lit⟩ := x
    have hw : t ≠ WHITESPACE := h
    rw [significant_cons_ne t lit ts hw]
    rfl

theorem stream.window_significant {δ φ : Type} (s : Statement δ φ) (ts : stream.Tokens)
    (h : (stream.next ts).1 ≠ WHITESPACE) :
    stream.window s (significant ts) = stream.window s ts := by
  unfold stream.window
  rw [stream.next_significant ts h]
  dsimp only
  simp only [stream.identifier_significant, stream.ignoreWhiteSpace_filtered]
  split_ifs
  · rfl
  · rfl
  · cases strconv.Atoi (stream.identifier (stream.next ts).2.2).2.1 with
    | error e => rfl
    | ok ct =>
      dsimp only
      generalize stream.ignoreWhiteSpace (stream.identifier (stream.next ts).2.2).2.2 = iw
      obtain ⟨t, l, r⟩ := iw
      cases t <;> rfl
  · rfl


theorem stream.ParseWindow_significant {δ φ : Type} (s : Statement δ φ) (ts : stream.Tokens)
    (h : ∀ tsd, stream.skipTo DOT ts = some tsd → (stream.next tsd).1 ≠ WHITESPACE) :
    stream.ParseWindow s (significant ts) = stream.ParseWindow s ts := by
  unfold stream.ParseWindow
  rw [stream.skipTo_significant DOT ts (by decide)]
  cases hs : stream.skipTo DOT ts with
  | none => rfl
  | some ts1 =>
    simp only [Option.map_some']
    rw [stream.window_significant s ts1 (h ts1 hs)]

theorem stream.ParseFunction_filtered {δ φ : Type} (H : Host δ φ) (s : Statement δ φ)
    (ts : stream.Tokens) :
    stream.ParseFunction H s (significant ts) = stream.ParseFunction H s ts :=
  stream.ParseFunction_significant H ts.length s ts (le_refl _)

theorem stream.Parse_significant {δ φ : Type} (p : Parser δ) (H : Host δ φ)
    (ts : stream.Tokens) (h : anchored ts) :
    stream.Parse p H (significant ts) = stream.Parse p H ts := by
  unfold stream.Parse
  rw [stream.next_significant ts h.1]
  dsimp only
  have hw : ∀ s : Statement δ φ,
      stream.ParseWindow s (significant ts) = stream.ParseWindow s ts :=
    fun s => stream.ParseWindow_significant s ts h.2
  simp only [stream.ParseEventType_significant, stream.ParseFunction_filtered, hw,
    stream.ParseWhere_significant]

theorem stream.window_ok_next {δ φ : Type} (s s1 : Statement δ φ) (ts : stream.Tokens)
    (h : stream.window s ts = .ok s1) :
    (stream.next ts).1 = TIME ∨ (stream.next ts).1 = LENGTH := by
  by_contra hn
  simp only [not_or] at hn
  rw [stream.window_next_error s ts hn] at h
  cases h

theorem stream.Parse_anchored {δ φ : Type} (p : Parser δ) (H : Host δ φ) (ts : stream.Tokens)
    (s : Statement δ φ) (h : stream.Parse p H ts = some (.ok s)) :
    (stream.next ts).1 = SELECT ∧
      ∃ tsd, stream.skipTo DOT ts = some tsd ∧
        ((stream.next tsd).1 = TIME ∨ (stream.next tsd).1 = LENGTH) := by
  obtain ⟨s1, s2, s3, ts1, tsd, list, h0, -, -, -, hd, h3, -, -⟩ := stream.Parse_ok p H ts s h
  exact ⟨h0, tsd, hd, stream.window_ok_next s2 s3 tsd h3⟩


theorem ws_not_alpha (c : Char) (h : c.isWhitespace = true) : c.isAlpha = false := by
  cases ha : c.isAlpha with
  | false => rfl
  | true => rw [alpha_not_ws c ha] at h; cases h

theorem ws_not_digit (c : Char) (h : c.isWhitespace = true) : c.isDigit = false := by
  cases hd : c.isDigit with
  | false => rfl
  | true => rw [digit_not_ws c hd] at h; cases h

theorem lookup_ne_WHITESPACE (run : List Char) : lookup run ≠ WHITESPACE := by
  unfold lookup
  split
  · rename_i t h
    have := lookup_mem _ _ _ h
    intro h'
    subst h'
    revert this
    decide
  · decide

theorem runToken_ne_WHITESPACE (c : Char) (run : List Char) (hc : c.isWhitespace = false) :
    runToken c run ≠ WHITESPACE := by
  unfold runToken
  rw [if_neg (by simp [hc])]
  split_ifs
  · exact lookup_ne_WHITESPACE run
  · decide
  · unfold punct
    split_ifs <;> simp

theorem runToken_ws (c : Char) (run : List Char) (hc : c.isWhitespace = true) :
    runToken c run = WHITESPACE := by
  unfold runToken
  rw [if_pos hc]

theorem runClass_ws (c : Char) (hc : c.isWhitespace = true) :
    runClass c = Char.isWhitespace := by
  unfold runClass
  rw [if_pos hc]

theorem runClass_not_ws (c y : Char) (hc : c.isWhitespace = false)
    (hy : y.isWhitespace = true) : runClass c y = false := by
  unfold runClass
  rw [if_neg (by simp [hc])]
  split_ifs
  · exact ws_not_alpha y hy
  · exact ws_not_digit y hy
  · rfl

theorem next_tokens_cons (c : Char) (cs : List Char) :
    (stream.next (tokens ⟨c :: cs⟩)).1 = WHITESPACE ↔ c.isWhitespace = true := by
  rw [tokens_cons]
  show runToken c _ = WHITESPACE ↔ _
  constructor
  · intro h
    by_contra hc
    simp only [Bool.not_eq_true] at hc
    exact runToken_ne_WHITESPACE c _ hc h
  · exact runToken_ws c _

theorem significant_tokens_dropWhile (rest : List Char) :
    significant (tokens ⟨rest.dropWhile Char.isWhitespace⟩) = significant (tokens ⟨rest⟩) := by
  cases rest with
  | nil => rfl
  | cons y r =>
    by_cases hy : y.isWhitespace = true
    · rw [tokens_cons, runToken_ws y _ hy, runClass_ws y hy, significant_cons_ws]
      simp [List.dropWhile, hy]
    · simp [List.dropWhile, hy]

theorem significant_tokens_cons_ws (c : Char) (rest : List Char)
    (hc : c.isWhitespace = true) :
    significant (tokens ⟨c :: rest⟩) = significant (tokens ⟨rest⟩) := by
  rw [tokens_cons, runToken_ws c _ hc, runClass_ws c hc, significant_cons_ws,
    significant_tokens_dropWhile]

theorem significant_tokens_ws_left (w b : List Char)
    (hw : ∀ c ∈ w, c.isWhitespace = true) :
    significant (tokens ⟨w ++ b⟩) = significant (tokens ⟨b⟩) := by
  induction w with
  | nil => rfl
  | cons c cs ih =>
    rw [List.cons_append, significant_tokens_cons_ws c _ (hw c (by simp))]
    exact ih (fun x hx => hw x (by simp [hx]))

theorem significant_tokens_ws_right (n : Nat) (a w : List Char) (hn : a.length ≤ n)
    (hw : ∀ c ∈ w, c.isWhitespace = true) :
    significant (tokens ⟨a ++ w⟩) = significant (tokens ⟨a⟩) := by
  induction n generalizing a with
  | zero =>
    have : a = [] := List.length_eq_zero.mp (Nat.le_zero.mp hn)
    subst this
    have := significant_tokens_ws_left w [] hw
    simpa using this
  | succ n ih =>
    cases a with
    | nil =>
      have := significant_tokens_ws_left w [] hw
      simpa using this
    | cons c cs =>
      simp only [List.length_cons] at hn
      by_cases hc : c.isWhitespace = true
      · rw [List.cons_append, significant_tokens_cons_ws c _ hc,
          significant_tokens_cons_ws c _ hc]
        exact ih cs (by omega)
      · simp only [Bool.not_eq_true] at hc
        have hstop : cs.dropWhile (runClass c) ≠ [] ∨ ∀ y ∈ w.head?, runClass c y = false := by
          right
          intro y hy
          have hy' : w.head? = some y := by simpa using hy
          exact runClass_not_ws c y hc (hw y (List.mem_of_mem_head? hy'))
        have hta := takeWhile_append_stop (runClass c) cs w hstop
        have hlen : (cs.dropWhile (runClass c)).length ≤ n := by
          have := (List.dropWhile_sublist (l := cs) (runClass c)).length_le
          omega
        rw [List.cons_append, tokens_cons, tokens_cons, hta.1, hta.2,
          significant_cons_ne _ _ _ (runToken_ne_WHITESPACE c _ hc),
          significant_cons_ne _ _ _ (runToken_ne_WHITESPACE c _ hc), ih _ hlen]


theorem significant_tokens_insert (a w b : List Char) (hw : ∀ c ∈ w, c.isWhitespace = true)
    (h : separated a b = true) :
    significant (tokens ⟨a ++ (w ++ b)⟩) = significant (tokens ⟨a ++ b⟩) := by
  rw [tokens_append a b h, significant_append]
  cases w with
  | nil => rw [List.nil_append, tokens_append a b h, significant_append]
  | cons z zs =>
    have hz : z.isWhitespace = true := hw z (by simp)
    cases b with
    | nil =>
      rw [List.append_nil, significant_tokens_ws_right a.length a (z :: zs) (le_refl _) hw,
        tokens_nil]
      simp [significant]
    | cons y r =>
      by_cases hy : y.isWhitespace = true
      · have hsep : separated a ((z :: zs) ++ y :: r) = true := by
          cases hl : a.getLast? with
          | none => simp [separated, hl]
          | some x =>
            have hx : x.isWhitespace = false := by
              cases hxw : x.isWhitespace with
              | false => rfl
              | true => simp [separated, hl, joins, hxw, hy] at h
            simp [separated, hl, joins, hx, ws_not_alpha z hz, ws_not_digit z hz]
        rw [tokens_append a _ hsep, significant_append, significant_tokens_ws_left _ _ hw]
      · simp only [Bool.not_eq_true] at hy
        have hsep : separated (a ++ (z :: zs)) (y :: r) = true := by
          obtain ⟨x, hx⟩ : ∃ x, (z :: zs).getLast? = some x := by
            cases hl : (z :: zs).getLast? with
            | none => simp at hl
            | some x => exact ⟨x, rfl⟩
          have hxw : x.isWhitespace = true := hw x (List.mem_of_getLast?_eq_some hx)
          have hl : (a ++ (z :: zs)).getLast? = some x := by
            rw [List.getLast?_append_of_ne_nil a (by simp), hx]
          simp [separated, hl, joins, hy, ws_not_alpha x hxw, ws_not_digit x hxw]
        rw [← List.append_assoc, tokens_append _ _ hsep, significant_append,
          significant_tokens_ws_right a.length a (z :: zs) (le_refl _) hw]

theorem endsAtFirstDot_false (a : String) (pre : List Char) (h : endsAtFirstDot a = false)
    (ha : a.data = pre ++ ['.']) : '.' ∈ pre := by
  by_contra hpre
  have hc : pre.count '.' = 0 := List.count_eq_zero.mpr hpre
  simp [endsAtFirstDot, ha, List.count_append, hc] at h

theorem anchored_insert (a w b : List Char) (hw : ∀ c ∈ w, c.isWhitespace = true)
    (ha : a ≠ []) (hdot : ∀ pre, a = pre ++ ['.'] → '.' ∈ pre)
    (h1 : (stream.next (tokens ⟨a ++ b⟩)).1 = SELECT)
    (h2 : ∃ tsd, stream.skipTo DOT (tokens ⟨a ++ b⟩) = some tsd ∧
      ((stream.next tsd).1 = TIME ∨ (stream.next tsd).1 = LENGTH)) :
    anchored (tokens ⟨a ++ (w ++ b)⟩) := by
  have hwdot : '.' ∉ w := by
    intro hm
    have := hw '.' hm
    revert this
    decide
  constructor
  · cases a with
    | nil => exact absurd rfl ha
    | cons c cs =>
      have hc : c.isWhitespace ≠ true := by
        intro hc
        rw [List.cons_append, (next_tokens_cons c (cs ++ b)).mpr hc] at h1
        cases h1
      intro hn
      rw [List.cons_append] at hn
      exact hc ((next_tokens_cons c _).mp hn)
  · intro tsd1 hs1
    obtain ⟨tsd, hs, hn⟩ := h2
    have hne : (stream.next tsd).1 ≠ WHITESPACE := by
      rcases hn with hn | hn <;> rw [hn] <;> decide
    by_cases hda : '.' ∈ a
    · obtain ⟨pre, post, rfl, hpre⟩ := List.eq_append_cons_of_mem hda
      rw [List.append_assoc, List.cons_append, stream.skipTo_dot_text pre _ hpre] at hs hs1
      simp only [Option.some.injEq] at hs hs1
      subst hs hs1
      cases post with
      | nil => exact absurd (hdot pre rfl) hpre
      | cons d ds =>
        rw [List.cons_append] at hne ⊢
        intro hn1
        exact hne ((next_tokens_cons d _).mpr ((next_tokens_cons d _).mp hn1))
    · by_cases hdb : '.' ∈ b
      · obtain ⟨pre, post, rfl, hpre⟩ := List.eq_append_cons_of_mem hdb
        have e1 : a ++ (pre ++ '.' :: post) = (a ++ pre) ++ '.' :: post := by simp
        have e2 : a ++ (w ++ (pre ++ '.' :: post)) = (a ++ (w ++ pre)) ++ '.' :: post := by simp
        rw [e1, stream.skipTo_dot_text _ _ (by simp [hda, hpre])] at hs
        rw [e2, stream.skipTo_dot_text _ _ (by simp [hda, hpre, hwdot])] at hs1
        simp only [Option.some.injEq] at hs hs1
        subst hs hs1
        exact hne
      · rw [stream.skipTo_eq_none DOT _ (tokens_no_dot (a ++ b) (by simp [hda, hdb]))] at hs
        cases hs

/-- C12, counterexample: `select * from E.length(5)` is accepted, and the
query with one space inserted between the `.` and `length` is rejected, the
window pass reading the whitespace where the window keyword has to stand. -/
theorem Parse_whitespace_after_dot :
    exampleParser.Parse exampleHost 100 "select * from E.length(5)" =
      some (.ok { EventType := some 7, Window := some LENGTH, Length := some 5, Time := none,
                  Function := [.SelectAll], Where := [] }) ∧
    exampleParser.Parse exampleHost 100 "select * from E. length(5)" =
      some (.error (.caused "parse window: " (.text "invalid token= "))) :=
  ⟨by rfl, by rfl⟩

/-- C12, amended: when `Parse` accepts the query `a ++ b`, where the text `a`
is not empty and ends with a token of the query (the split is not inside a
run of letters, digits or whitespace) and does not end with the first `.` of
the query, it returns the same statement for the query with the whitespace
run `w` inserted between `a` and `b`. -/
theorem Parse_whitespace_between_tokens {δ φ : Type} (p : Parser δ) (H : Host δ φ)
    (a w b : String) (s : Statement δ φ) (fuel : Nat) (hw : isWhitespaceRun w = true)
    (ha : a.data ≠ []) (hsep : separated a.data b.data = true)
    (hdot : endsAtFirstDot a = false) (hq : p.Parse H fuel (a ++ b) = some (.ok s))
    (hfuel : (a ++ w ++ b).length < fuel) :
    p.Parse H fuel (a ++ w ++ b) = some (.ok s) := by
  have hws : ∀ c ∈ w.data, c.isWhitespace = true := by
    simp only [isWhitespaceRun, Bool.and_eq_true, List.all_eq_true] at hw
    exact hw.2
  have hs := Parse_sound p H fuel _ _ hq
  rw [tokens_of_input _ (a.data ++ b.data)
    (by simp only [lexer.New, String.data_append])] at hs
  have hanc := stream.Parse_anchored p H _ s hs
  have anc : anchored (tokens ⟨a.data ++ b.data⟩) := by
    refine ⟨by rw [hanc.1]; decide, ?_⟩
    obtain ⟨tsd, hd, hn⟩ := hanc.2
    intro tsd1 hd1
    rw [hd] at hd1
    simp only [Option.some.injEq] at hd1
    subst hd1
    rcases hn with hn | hn <;> rw [hn] <;> decide
  have anc1 := anchored_insert a.data w.data b.data hws ha
    (fun pre hp => endsAtFirstDot_false a pre hdot hp) hanc.1 hanc.2
  rw [Parse_of_stream p H fuel _ hfuel,
    tokens_of_input _ (a.data ++ (w.data ++ b.data))
      (by simp only [lexer.New, String.data_append, List.append_assoc]),
    ← stream.Parse_significant p H _ anc1, significant_tokens_insert _ _ _ hws hsep,
    stream.Parse_significant p H _ anc, hs]

/-- Witness of C12: two spaces between `length` and `(` of
`select * from E.length(5)`. -/
theorem Parse_whitespace_between_tokens_witness :
    exampleParser.Parse exampleHost 100 ("select * from E.length" ++ "  " ++ "(5)") =
      some (.ok { EventType := some 7, Window := some LENGTH, Length := some 5, Time := none,
                  Function := [.SelectAll], Where := [] }) :=
  Parse_whitespace_between_tokens exampleParser exampleHost "select * from E.length" "  " "(5)"
    _ 100 (by decide) (by decide) (by decide) (by decide) (by rfl) (by decide)

end Gostream
